import Mathlib

/-!
# Restart-value codec of opm-common (`src/opm/output/eclipse/RestartIO.cpp`)

A shallow embedding of the well/connection extension arrays (`OPM_XWEL`,
`OPM_IWEL`), of their reader `restore_wells`, and of the solution reader
`restoreSOLUTION`, followed by theorems about them.

Conventions of the embedding.

* `double` values are only ever copied by the code modelled here, never
  computed with, so they are elements of an arbitrary carrier `D` with a zero
  (the literal `0.0`).
* Sizes, offsets and cursors are lengths of, and positions in, in-memory
  containers; they are natural numbers.
* A C++ exception is an `Except.error`.  Reading through a raw pointer past
  the end of its array (undefined behaviour in C++) is the error
  `RestartError.outOfBounds`, so that a successful run of the model only
  performs reads inside the array.
* `std::map< std::string, T >` values that are only looked up and updated by
  key (`data::Wells`) are finite partial functions `String → Option T`.
-/

set_option autoImplicit false

namespace Opm

/-! ## Errors -/

/-- Exceptions raised by the code modelled here. -/
inductive RestartError where
  /-- The error "Read of restart file: File does not contain KEY data". -/
  | missingKey (key : String)
  /-- The error "Restart file: Could not restore KEY, mismatched number of cells". -/
  | cellMismatch (header : String)
  /-- The error "Mismatch between OPM_XWEL and deck". -/
  | xwelMismatch (size expected : Nat)
  /-- The error "Mismatch between OPM_IWEL and deck". -/
  | iwelMismatch (size expected : Nat)
  /-- The error "Uninitialized value." of `data::Rates::get`. -/
  | uninitialized
  /-- The error of `std::map::at` on a key that is not in the map. -/
  | outOfRange
  /-- A read through a pointer at or past the end of the array. -/
  | outOfBounds
  /-- The abort of `ecl_file_view_iget_named_kw` on a keyword that the view
  does not hold. -/
  | noKeyword (key : String)
  /-- The error "Wrong size on solution vector: KEY". -/
  | wrongSolutionSize (key : String)
  /-- The error "THPRES vector has invalid size - should have num_region *
  num_regions." -/
  | invalidThpres
  /-- The error of `RestartValue::getExtra` on a key that is not in the extra
  container. -/
  | noExtraKey (key : String)
  /-- The error "Restart file FILE not found!". -/
  | fileNotFound (filename : String)
  /-- The error "Restart file FILE does not contain data for report step N!". -/
  | noReportStep (filename : String) (report_step : Int)
  /-- The error "No such key in file: KEY". -/
  | noSuchKey (key : String)
  deriving DecidableEq, Repr

/-! ## Static description: phases, grid, schedule (external collaborators) -/

/-- The phases of `Runspec`. -/
inductive Phase where
  | OIL | GAS | WATER | SOLVENT | POLYMER | ENERGY
  deriving DecidableEq, Repr

/-- Modelled from the spec: the active phase set of the run (class `Phases`,
declared outside `src/`), queried through `active`. -/
structure Phases where
  active : Phase → Bool

namespace WellCommon

/-- Status of a scheduled well at a step. -/
inductive StatusEnum where
  | OPEN | STOP | SHUT | AUTO
  deriving DecidableEq, Repr

end WellCommon

namespace WellCompletion

/-- State of a scheduled connection. -/
inductive StateEnum where
  | OPEN | SHUT | AUTO
  deriving DecidableEq, Repr

end WellCompletion

namespace WellInjector

/-- Injector type of a scheduled well. -/
inductive TypeEnum where
  | WATER | GAS | OIL | MULTI
  deriving DecidableEq, Repr

end WellInjector

/-- Modelled from the spec: a connection of the static schedule (class
`Connection`, declared outside `src/`): zero-based grid coordinates, state and
direction code. -/
structure Connection where
  getI : Nat
  getJ : Nat
  getK : Nat
  state : WellCompletion.StateEnum
  dir : Int
  deriving DecidableEq, Repr

/-- Modelled from the spec: a well of the static schedule (class `Well`,
declared outside `src/`).  Every query takes the simulation step. -/
structure Well where
  name : String
  getConnections : Nat → List Connection
  getStatus : Nat → WellCommon.StatusEnum
  getHeadI : Nat → Nat
  getHeadJ : Nat → Nat
  isProducer : Nat → Bool
  injectorType : Nat → WellInjector.TypeEnum

/-- Modelled from the spec: the active-cell lookup of the grid (class
`EclipseGrid`, declared outside `src/`). -/
structure EclipseGrid where
  cellActive : Nat → Nat → Nat → Bool
  activeIndex : Nat → Nat → Nat → Nat
  getNumActive : Nat
  getNX : Nat
  getNY : Nat
  getNZ : Nat

/-- Modelled from the spec: the run specification (class `Runspec`, declared
outside `src/`), queried for its phases and for their mask. -/
structure Runspec where
  phases : Phases
  eclPhaseMask : Int

/-- Modelled from the spec: the threshold-pressure table of the configuration
(class `ThresholdPressure`, declared outside `src/`), queried for its size. -/
structure ThresholdPressure where
  size : Nat

/-- Modelled from the spec: the simulation configuration (class
`SimulationConfig`, declared outside `src/`). -/
structure SimulationConfig where
  getThresholdPressure : ThresholdPressure

/-- Modelled from the spec: the equilibration dimensions (class `Eqldims`,
declared outside `src/`), queried for the number of equilibration regions. -/
structure Eqldims where
  getNumEquilRegions : Nat

/-- Modelled from the spec: the table manager (class `TableManager`, declared
outside `src/`). -/
structure TableManager where
  getEqldims : Eqldims

/-- Modelled from the spec: the static configuration (class `EclipseState`,
declared outside `src/`), queried through `runspec`, `getSimulationConfig` and
`getTableManager`.  Its unit system (`getUnits`) converts values of the
carrier of `double` and is passed next to the configuration. -/
structure EclipseState where
  runspec : Runspec
  getSimulationConfig : SimulationConfig
  getTableManager : TableManager

/-- Modelled from the spec: the well schedule (class `Schedule`, declared
outside `src/`): the ordered list of wells defined at a step, and the start
time of the schedule. -/
structure Schedule where
  getWells : Nat → List Well
  posixStartTime : Int

/-- Modelled from the spec: the number of wells of the schedule at a step
(`Schedule::numWells`). -/
def Schedule.numWells (schedule : Schedule) (timestep : Nat) : Nat :=
  (schedule.getWells timestep).length

/-- Modelled from the spec: the maximum, over the wells of the step, of the
number of connections of a well (`Schedule::getMaxNumConnectionsForWells`). -/
def Schedule.getMaxNumConnectionsForWells (schedule : Schedule) (timestep : Nat) : Nat :=
  (schedule.getWells timestep).foldl
    (fun ncwmax well => max ncwmax (well.getConnections timestep).length) 0

/-- Modelled from the spec: the connections of a well whose grid cell is active
(`Well::getActiveConnections`). -/
def Well.getActiveConnections (well : Well) (timestep : Nat) (grid : EclipseGrid) :
    List Connection :=
  (well.getConnections timestep).filter
    (fun connection => grid.cellActive connection.getI connection.getJ connection.getK)

/-! ## Dynamic data: `data::Rates`, `data::Connection`, `data::Well`, `data::Wells` -/

namespace data

/-- The options of `data::Rates` that the restart codec reads and writes
(`using rt = data::Rates::opt`). -/
inductive rt where
  | wat | oil | gas
  deriving DecidableEq, Repr, Fintype

/-- Modelled from the spec: `data::Rates` (declared outside `src/`), a sparse
map from phase to value.  A phase that was never `set` has no value. -/
structure Rates (D : Type) where
  wat : Option D := none
  oil : Option D := none
  gas : Option D := none
  deriving DecidableEq, Repr

namespace Rates

variable {D : Type}

/-- The stored value of an option, if it was set. -/
def value (r : Rates D) : rt → Option D
  | .wat => r.wat
  | .oil => r.oil
  | .gas => r.gas

/-- Whether the option was set. -/
def has (r : Rates D) (m : rt) : Bool := (r.value m).isSome

/-- Modelled from the spec: reading a phase of the sparse map; a phase without
a value raises. -/
def get (r : Rates D) (m : rt) : Except RestartError D :=
  match r.value m with
  | some x => .ok x
  | none => .error .uninitialized

/-- Sets the value of an option. -/
def set (r : Rates D) (m : rt) (x : D) : Rates D :=
  match m with
  | .wat => { r with wat := some x }
  | .oil => { r with oil := some x }
  | .gas => { r with gas := some x }

end Rates

/-- Modelled from the spec: `data::Connection` (declared outside `src/`). -/
structure Connection (D : Type) where
  index : Nat
  rates : Rates D
  pressure : D
  reservoir_rate : D
  deriving DecidableEq, Repr

/-- The constant `data::Connection::restart_size`: pressure and reservoir rate. -/
def Connection.restart_size : Nat := 2

/-- Modelled from the spec: `data::Well` (declared outside `src/`). -/
structure Well (D : Type) where
  rates : Rates D
  bhp : D
  temperature : D
  control : Int
  connections : List (Connection D)
  deriving DecidableEq, Repr

/-- The value-initialised `data::Well` that `std::map::operator[]` inserts. -/
def Well.empty (D : Type) [Zero D] : Well D :=
  { rates := {}, bhp := 0, temperature := 0, control := 0, connections := [] }

/-- The map `data::Wells` from well name to `data::Well`. -/
abbrev Wells (D : Type) := String → Option (Well D)

namespace Wells

variable {D : Type}

/-- The empty map. -/
def empty : Wells D := fun _ => none

/-- The member `count`: 1 if the key is in the map and 0 otherwise. -/
def count (wells : Wells D) (name : String) : Nat :=
  if (wells name).isSome then 1 else 0

/-- The member `at`: raises on a key that is not in the map. -/
def at_ (wells : Wells D) (name : String) : Except RestartError (Well D) :=
  match wells name with
  | some w => .ok w
  | none => .error .outOfRange

/-- The map after `wells[ name ] = w`. -/
def insert (wells : Wells D) (name : String) (w : Well D) : Wells D :=
  fun n => if n = name then some w else wells n

end Wells

end data

/-! ## Layout -/

/-- The rate options of the active phases, in the order water, oil, gas
(`RestartIO.cpp` lines 149-155 and 369-372). -/
def activeRates (phase_spec : Phases) : List data.rt :=
  (if phase_spec.active .WATER then [data.rt.wat] else [])
    ++ (if phase_spec.active .OIL then [data.rt.oil] else [])
    ++ (if phase_spec.active .GAS then [data.rt.gas] else [])

/-- The lambda `well_size` of `restore_wells` (lines 157-162). -/
def well_size (phases : List data.rt) (sim_step : Nat) (acc : Nat) (w : Well) : Nat :=
  acc + 2 + phases.length
    + (w.getConnections sim_step).length * (phases.length + data.Connection.restart_size)

/-- The value `expected_xwel_size` of `restore_wells` (lines 164-167):
`std::accumulate` of `well_size` over the scheduled wells, from 0.  The sum is
the length of an array of the file and is taken in the natural numbers. -/
def expected_xwel_size (phases : List data.rt) (sim_step : Nat) (sched_wells : List Well) : Nat :=
  sched_wells.foldl (well_size phases sim_step) 0

/-! ## Writing the extension arrays (`serialize_OPM_IWEL`, `serialize_OPM_XWEL`) -/

section Serialize

variable {D : Type} [Zero D]

/-- The lambda `getctrl` of `serialize_OPM_IWEL` (lines 351-354). -/
def getctrl (wells : data.Wells D) (w : Well) : Int :=
  match wells w.name with
  | none => 0
  | some well => well.control

/-- The function `serialize_OPM_IWEL` (lines 348-359): `std::transform` of
`getctrl` over the scheduled wells. -/
def serialize_OPM_IWEL (wells : data.Wells D) (sched_wells : List Well) : List Int :=
  sched_wells.map (getctrl wells)

/-- The loops `for( auto phase : phases ) xwel.push_back( rates.get( phase ) )`
(lines 392-393 and 419-420): the values pushed, or the exception of `get`. -/
def pushRates (rates : data.Rates D) : List data.rt → Except RestartError (List D)
  | [] => .ok []
  | phase :: phases => do
    let x ← rates.get phase
    let xs ← pushRates rates phases
    pure (x :: xs)

/-- One iteration of the connection loop of `serialize_OPM_XWEL`
(lines 395-421): the elements it appends to `xwel`. -/
def xwelConnection (well : data.Well D) (phases : List data.rt) (grid : EclipseGrid)
    (sc : Connection) : Except RestartError (List D) :=
  let rs_size := phases.length + data.Connection.restart_size
  if grid.cellActive sc.getI sc.getJ sc.getK = false ∨ sc.state = WellCompletion.StateEnum.SHUT then
    .ok (List.replicate rs_size 0)
  else
    let active_index := grid.activeIndex sc.getI sc.getJ sc.getK
    match well.connections.find? (fun c => decide (c.index = active_index)) with
    | none => .ok (List.replicate rs_size 0)
    | some connection => do
      let rs ← pushRates connection.rates phases
      pure (connection.pressure :: connection.reservoir_rate :: rs)

/-- The connection loop of `serialize_OPM_XWEL` (lines 395-421): the elements
appended to `xwel` for the connections of one well. -/
def xwelConnections (well : data.Well D) (phases : List data.rt) (grid : EclipseGrid) :
    List Connection → Except RestartError (List D)
  | [] => .ok []
  | sc :: scs => do
    let seg ← xwelConnection well phases grid sc
    let rest ← xwelConnections well phases grid scs
    pure (seg ++ rest)

/-- One iteration of the well loop of `serialize_OPM_XWEL` (lines 375-422):
the elements it appends to `xwel`. -/
def xwelWell (wells : data.Wells D) (sim_step : Nat) (phases : List data.rt)
    (grid : EclipseGrid) (sched_well : Well) : Except RestartError (List D) :=
  if wells.count sched_well.name = 0 ∨ sched_well.getStatus sim_step = WellCommon.StatusEnum.SHUT then
    let elems := (sched_well.getConnections sim_step).length
        * (phases.length + data.Connection.restart_size) + 2 + phases.length
    .ok (List.replicate elems 0)
  else do
    let well ← wells.at_ sched_well.name
    let rs ← pushRates well.rates phases
    let cs ← xwelConnections well phases grid (sched_well.getConnections sim_step)
    pure (well.bhp :: well.temperature :: rs ++ cs)

/-- The well loop of `serialize_OPM_XWEL` (lines 375-422), from the current
content of `xwel`. -/
def xwelLoop (wells : data.Wells D) (sim_step : Nat) (phases : List data.rt)
    (grid : EclipseGrid) : List Well → List D → Except RestartError (List D)
  | [], xwel => .ok xwel
  | sched_well :: rest, xwel => do
    let seg ← xwelWell wells sim_step phases grid sched_well
    xwelLoop wells sim_step phases grid rest (xwel ++ seg)

/-- The function `serialize_OPM_XWEL` (lines 361-425). -/
def serialize_OPM_XWEL (wells : data.Wells D) (sim_step : Nat) (sched_wells : List Well)
    (phase_spec : Phases) (grid : EclipseGrid) : Except RestartError (List D) :=
  xwelLoop wells sim_step (activeRates phase_spec) grid sched_wells []

end Serialize

/-! ## Reading the extension arrays (`restore_wells`) -/

section Restore

variable {D : Type} [Zero D]

/-- The read `*p` of a pointer at position `i` of an array. -/
def readAt {α : Type} (xs : List α) (i : Nat) : Except RestartError α :=
  match xs[i]? with
  | some x => .ok x
  | none => .error .outOfBounds

/-- The loops `for( auto phase : phases ) rates.set( phase, *opm_xwel_data++ )`
(lines 192-193 and 209-210): the rates and the cursor after the loop. -/
def restoreRates (opm_xwel : List D) :
    List data.rt → data.Rates D → Nat → Except RestartError (data.Rates D × Nat)
  | [], rates, cur => .ok (rates, cur)
  | phase :: phases, rates, cur => do
    let x ← readAt opm_xwel cur
    restoreRates opm_xwel phases (rates.set phase x) (cur + 1)

/-- The connection loop of `restore_wells` (lines 195-211): the connections of
the well and the cursor after the loop. -/
def restoreConnections (opm_xwel : List D) (phases : List data.rt) (grid : EclipseGrid) :
    List Connection → List (data.Connection D) → Nat
      → Except RestartError (List (data.Connection D) × Nat)
  | [], connections, cur => .ok (connections, cur)
  | sc :: scs, connections, cur =>
    if grid.cellActive sc.getI sc.getJ sc.getK = false ∨ sc.state = WellCompletion.StateEnum.SHUT then
      restoreConnections opm_xwel phases grid scs connections
        (cur + (data.Connection.restart_size + phases.length))
    else do
      let active_index := grid.activeIndex sc.getI sc.getJ sc.getK
      let pressure ← readAt opm_xwel cur
      let reservoir_rate ← readAt opm_xwel (cur + 1)
      let (rates, cur2) ← restoreRates opm_xwel phases {} (cur + 2)
      restoreConnections opm_xwel phases grid scs
        (connections ++ [{ index := active_index, rates := rates,
                           pressure := pressure, reservoir_rate := reservoir_rate }]) cur2

/-- The state of the well loop of `restore_wells`: the map built so far, the
`OPM_XWEL` cursor and the `OPM_IWEL` cursor. -/
structure RestoreState (D : Type) where
  wells : data.Wells D
  xwel_cursor : Nat
  iwel_cursor : Nat

/-- The well loop of `restore_wells` (lines 185-212). -/
def restoreLoop (opm_xwel : List D) (opm_iwel : List Int) (sim_step : Nat)
    (phases : List data.rt) (grid : EclipseGrid) :
    List Well → RestoreState D → Except RestartError (RestoreState D)
  | [], st => .ok st
  | sched_well :: rest, st => do
    let well := (st.wells sched_well.name).getD (data.Well.empty D)
    let bhp ← readAt opm_xwel st.xwel_cursor
    let temperature ← readAt opm_xwel (st.xwel_cursor + 1)
    let control ← readAt opm_iwel st.iwel_cursor
    let (rates, cur) ← restoreRates opm_xwel phases well.rates (st.xwel_cursor + 2)
    let (connections, cur2) ← restoreConnections opm_xwel phases grid
        (sched_well.getConnections sim_step) well.connections cur
    restoreLoop opm_xwel opm_iwel sim_step phases grid rest
      { wells := st.wells.insert sched_well.name
          { rates := rates, bhp := bhp, temperature := temperature,
            control := control, connections := connections },
        xwel_cursor := cur2, iwel_cursor := st.iwel_cursor + 1 }

/-- The function `restore_wells` (lines 141-215), returning with the map the
final positions of its two read cursors. -/
def restore_wells_run (opm_xwel : List D) (opm_iwel : List Int) (sim_step : Nat)
    (es : EclipseState) (grid : EclipseGrid) (schedule : Schedule) :
    Except RestartError (RestoreState D) :=
  let sched_wells := schedule.getWells sim_step
  let phases := activeRates es.runspec.phases
  let expected := expected_xwel_size phases sim_step sched_wells
  if opm_xwel.length ≠ expected then
    .error (.xwelMismatch opm_xwel.length expected)
  else if opm_iwel.length ≠ sched_wells.length then
    .error (.iwelMismatch opm_iwel.length sched_wells.length)
  else
    restoreLoop opm_xwel opm_iwel sim_step phases grid sched_wells
      { wells := data.Wells.empty, xwel_cursor := 0, iwel_cursor := 0 }

/-- The function `restore_wells` (lines 141-215). -/
def restore_wells (opm_xwel : List D) (opm_iwel : List Int) (sim_step : Nat)
    (es : EclipseState) (grid : EclipseGrid) (schedule : Schedule) :
    Except RestartError (data.Wells D) :=
  (restore_wells_run opm_xwel opm_iwel sim_step es grid schedule).map (·.wells)

/-- A read `*p` of `restore_wells` through one of its two cursors: the array
and the index read. -/
inductive ArrayRead where
  | xwel (index : Nat)
  | iwel (index : Nat)
  deriving DecidableEq, Repr

/-- The loop of `restoreRates` (lines 192-193 and 209-210) with each read
`*opm_xwel_data++` recorded, in program order, after the reads of `log`. -/
def restoreRatesLog (opm_xwel : List D) :
    List data.rt → data.Rates D → Nat → List ArrayRead
      → Except RestartError (data.Rates D × Nat × List ArrayRead)
  | [], rates, cur, log => .ok (rates, cur, log)
  | phase :: phases, rates, cur, log => do
    let x ← readAt opm_xwel cur
    restoreRatesLog opm_xwel phases (rates.set phase x) (cur + 1) (log ++ [ArrayRead.xwel cur])

/-- The connection loop of `restore_wells` (lines 195-211) with each read
recorded: a connection that is skipped advances the cursor and reads
nothing. -/
def restoreConnectionsLog (opm_xwel : List D) (phases : List data.rt) (grid : EclipseGrid) :
    List Connection → List (data.Connection D) → Nat → List ArrayRead
      → Except RestartError (List (data.Connection D) × Nat × List ArrayRead)
  | [], connections, cur, log => .ok (connections, cur, log)
  | sc :: scs, connections, cur, log =>
    if grid.cellActive sc.getI sc.getJ sc.getK = false ∨ sc.state = WellCompletion.StateEnum.SHUT then
      restoreConnectionsLog opm_xwel phases grid scs connections
        (cur + (data.Connection.restart_size + phases.length)) log
    else do
      let active_index := grid.activeIndex sc.getI sc.getJ sc.getK
      let pressure ← readAt opm_xwel cur
      let reservoir_rate ← readAt opm_xwel (cur + 1)
      let (rates, cur2, log2) ← restoreRatesLog opm_xwel phases {} (cur + 2)
        (log ++ [ArrayRead.xwel cur, ArrayRead.xwel (cur + 1)])
      restoreConnectionsLog opm_xwel phases grid scs
        (connections ++ [{ index := active_index, rates := rates,
                           pressure := pressure, reservoir_rate := reservoir_rate }]) cur2 log2

/-- The well loop of `restore_wells` (lines 185-212) with each read recorded,
in program order: bhp, temperature, control, the rates, the connections. -/
def restoreLoopLog (opm_xwel : List D) (opm_iwel : List Int) (sim_step : Nat)
    (phases : List data.rt) (grid : EclipseGrid) :
    List Well → RestoreState D → List ArrayRead
      → Except RestartError (RestoreState D × List ArrayRead)
  | [], st, log => .ok (st, log)
  | sched_well :: rest, st, log => do
    let well := (st.wells sched_well.name).getD (data.Well.empty D)
    let bhp ← readAt opm_xwel st.xwel_cursor
    let temperature ← readAt opm_xwel (st.xwel_cursor + 1)
    let control ← readAt opm_iwel st.iwel_cursor
    let (rates, cur, log1) ← restoreRatesLog opm_xwel phases well.rates (st.xwel_cursor + 2)
      (log ++ [ArrayRead.xwel st.xwel_cursor, ArrayRead.xwel (st.xwel_cursor + 1),
        ArrayRead.iwel st.iwel_cursor])
    let (connections, cur2, log2) ← restoreConnectionsLog opm_xwel phases grid
        (sched_well.getConnections sim_step) well.connections cur log1
    restoreLoopLog opm_xwel opm_iwel sim_step phases grid rest
      { wells := st.wells.insert sched_well.name
          { rates := rates, bhp := bhp, temperature := temperature,
            control := control, connections := connections },
        xwel_cursor := cur2, iwel_cursor := st.iwel_cursor + 1 } log2

/-- The function `restore_wells` (lines 141-215) with each read through its two
cursors recorded: the final state of the loop and the reads, in program
order. -/
def restore_wells_log (opm_xwel : List D) (opm_iwel : List Int) (sim_step : Nat)
    (es : EclipseState) (grid : EclipseGrid) (schedule : Schedule) :
    Except RestartError (RestoreState D × List ArrayRead) :=
  let sched_wells := schedule.getWells sim_step
  let phases := activeRates es.runspec.phases
  let expected := expected_xwel_size phases sim_step sched_wells
  if opm_xwel.length ≠ expected then
    .error (.xwelMismatch opm_xwel.length expected)
  else if opm_iwel.length ≠ sched_wells.length then
    .error (.iwelMismatch opm_iwel.length sched_wells.length)
  else
    restoreLoopLog opm_xwel opm_iwel sim_step phases grid sched_wells
      { wells := data.Wells.empty, xwel_cursor := 0, iwel_cursor := 0 } []

end Restore

/-! ## Reading the solution (`restoreSOLUTION`) -/

/-- Modelled from the spec: a request for a solution or extra field (struct
`RestartKey`, declared outside `src/`).  The measure dimensions of `UnitSystem`
are only carried along; their type `M` is a parameter. -/
structure RestartKey (M : Type) where
  key : String
  dim : M
  required : Bool

namespace data

/-- The targets of a solution field (`data::TargetType`). -/
inductive TargetType where
  | RESTART_SOLUTION | RESTART_AUXILIARY | SUMMARY | INIT
  deriving DecidableEq, Repr

/-- Modelled from the spec: an entry of the solution (`data::CellData`,
declared outside `src/`): measure dimension, data and target. -/
structure CellData (M D : Type) where
  dim : M
  data : List D
  target : TargetType

/-- Modelled from the spec: `data::Solution` (declared outside `src/`), an
ordered mapping from field key to cell data, listed in insertion order with
each key at most once. -/
abbrev Solution (M D : Type) := List (String × CellData M D)

namespace Solution

variable {M D : Type}

/-- The entry stored under a key. -/
def lookup (sol : Solution M D) (key : String) : Option (CellData M D) :=
  (sol.find? (fun e => decide (e.1 = key))).map (·.2)

/-- Whether the solution has an entry under a key. -/
def has (sol : Solution M D) (key : String) : Bool :=
  (sol.lookup key).isSome

/-- Modelled from the spec: the member `insert`, which adds an entry under a
key the mapping does not hold yet and keeps the existing entry of a key it
holds. -/
def insert (sol : Solution M D) (key : String) (dim : M) (data : List D)
    (target : TargetType) : Solution M D :=
  if sol.has key then sol else sol ++ [(key, { dim := dim, data := data, target := target })]

end Solution

end data

/-- Modelled from the spec: a keyword of the file, a named array (`ecl_kw_type`
of the keyword-container library).  The elements are listed as the `double`
values that `double_vector` returns, whether the array is stored with 32-bit or
64-bit elements. -/
structure EclKw (D : Type) where
  header : String
  data : List D

/-- Modelled from the spec: the view of one report step of the file, its
keywords in file order (`ecl_file_view_type`). -/
abbrev FileView (D : Type) := List (EclKw D)

section Solution

variable {M D : Type}

/-- Modelled from the spec: `hasKeyword`, whether the view holds a keyword of
that name. -/
def ecl_file_view_has_kw (file_view : FileView D) (kw : String) : Bool :=
  file_view.any (fun k => decide (k.header = kw))

/-- Modelled from the spec: `readArray`, the `ith` keyword of that name in the
view, if there is one. -/
def ecl_file_view_iget_named_kw (file_view : FileView D) (kw : String) (ith : Nat) :
    Option (EclKw D) :=
  (file_view.filter (fun k => decide (k.header = kw)))[ith]?

/-- The number of elements of a keyword. -/
def ecl_kw_get_size (ecl_kw : EclKw D) : Nat := ecl_kw.data.length

/-- The function `double_vector` (lines 92-103): the elements of the keyword as
`double` values. -/
def double_vector (ecl_kw : EclKw D) : List D := ecl_kw.data

/-- The loop of `restoreSOLUTION` (lines 111-134), from the solution built so
far. -/
def restoreSOLUTIONLoop (file_view : FileView D) (numcells : Nat) :
    List (RestartKey M) → data.Solution M D → Except RestartError (data.Solution M D)
  | [], sol => .ok sol
  | value :: rest, sol =>
    if ecl_file_view_has_kw file_view value.key = false then
      if value.required then
        .error (.missingKey value.key)
      else
        restoreSOLUTIONLoop file_view numcells rest sol
    else
      match ecl_file_view_iget_named_kw file_view value.key 0 with
      | none => .error (.noKeyword value.key)
      | some ecl_kw =>
        if ecl_kw_get_size ecl_kw ≠ numcells then
          .error (.cellMismatch ecl_kw.header)
        else
          restoreSOLUTIONLoop file_view numcells rest
            (sol.insert value.key value.dim (double_vector ecl_kw)
              data.TargetType.RESTART_SOLUTION)

/-- The function `restoreSOLUTION` (lines 106-137). -/
def restoreSOLUTION (file_view : FileView D) (solution_keys : List (RestartKey M))
    (numcells : Nat) : Except RestartError (data.Solution M D) :=
  restoreSOLUTIONLoop file_view numcells solution_keys []

/-- The entry that a list of requested keys and a file determine for a name:
if the name is requested and the file holds a keyword of that name, the
dimension of the first request of the name, the array of the first keyword of
the name and the target `RESTART_SOLUTION`; otherwise none. -/
def requestedEntry (file_view : FileView D) (solution_keys : List (RestartKey M))
    (name : String) : Option (data.CellData M D) :=
  match solution_keys.find? (fun k => decide (k.key = name)),
      ecl_file_view_iget_named_kw file_view name 0 with
  | some k, some ecl_kw =>
    some { dim := k.dim, data := ecl_kw.data, target := data.TargetType.RESTART_SOLUTION }
  | _, _ => none

end Solution

/-! ## The restart value, the unit system and the keyword container -/

/-- Modelled from the spec: the unit-system adapter (class `UnitSystem`,
declared outside `src/`): its code in the file header, and the conversions of
one value of a measure dimension from and to SI.  The measure `time` is the
dimension `UnitSystem::measure::time`. -/
structure UnitSystem (M D : Type) where
  getEclType : Int
  time : M
  from_si : M → D → D
  to_si : M → D → D

/-- Modelled from the spec: the restart value (class `RestartValue`, declared
outside `src/`): solution, wells, and the extra arrays in the order they were
added, each with its key. -/
structure RestartValue (M D : Type) where
  solution : data.Solution M D
  wells : data.Wells D
  extra : List (RestartKey M × List D)

namespace RestartValue

variable {M D : Type}

/-- Modelled from the spec: whether the extra container has an entry of that
key (`RestartValue::hasExtra`). -/
def hasExtra (value : RestartValue M D) (key : String) : Bool :=
  value.extra.any (fun e => decide (e.1.key = key))

/-- Modelled from the spec: the array of the first entry of that key
(`RestartValue::getExtra`); raises when there is none. -/
def getExtra (value : RestartValue M D) (key : String) : Except RestartError (List D) :=
  match value.extra.find? (fun e => decide (e.1.key = key)) with
  | some e => .ok e.2
  | none => .error (.noExtraKey key)

/-- Modelled from the spec: `RestartValue::addExtra`, which appends an entry of
that key and dimension to the extra container. -/
def addExtra (value : RestartValue M D) (key : String) (dimension : M) (values : List D) :
    RestartValue M D :=
  { value with
    extra := value.extra ++ [({ key := key, dim := dimension, required := true }, values)] }

end RestartValue

namespace data.Solution

variable {M D : Type}

/-- Modelled from the spec: the conversion of every field of the solution from
SI to the units of the file (`Solution::convertFromSI`). -/
def convertFromSI (sol : Solution M D) (units : UnitSystem M D) : Solution M D :=
  sol.map (fun elm => (elm.1, { elm.2 with data := elm.2.data.map (units.from_si elm.2.dim) }))

/-- Modelled from the spec: the conversion of every field of the solution from
the units of the file to SI (`Solution::convertToSI`). -/
def convertToSI (sol : Solution M D) (units : UnitSystem M D) : Solution M D :=
  sol.map (fun elm => (elm.1, { elm.2 with data := elm.2.data.map (units.to_si elm.2.dim) }))

end data.Solution

/-- The elements of a keyword handed to the keyword container, with their
element type.  The elements of a `float` keyword are listed as the `double`
values assigned to them. -/
inductive KwData (D : Type) where
  | int (values : List Int)
  | char (values : List String)
  | double (values : List D)
  | float (values : List D)

/-- The header record `ecl_rsthead_type` filled by `writeHeader`.  The time of
the record is kept as the two values it is computed from, the start time of
the schedule and the seconds elapsed. -/
structure RstHead (D : Type) where
  posixStartTime : Int
  seconds_elapsed : D
  nactive : Nat
  nx : Nat
  ny : Nat
  nz : Nat
  nwells : Nat
  niwelz : Nat
  nzwelz : Nat
  niconz : Nat
  ncwmax : Nat
  phase_sum : Int
  sim_days : D
  unit_system : Int

/-- Modelled from the spec: the operations of the keyword container on the
file being written, in the order `save` performs them. -/
inductive FileOp (D : Type) where
  /-- The call `ecl_rst_file_open_write_seek( filename, report_step )`. -/
  | open_write_seek (filename : String) (report_step : Int)
  /-- The call `ecl_rst_file_open_write( filename )`. -/
  | open_write (filename : String)
  /-- The call `ecl_rst_file_fwrite_header( rst_file, report_step, rsthead )`. -/
  | fwrite_header (report_step : Int) (rsthead : RstHead D)
  /-- The call `ecl_rst_file_start_solution`. -/
  | start_solution
  /-- The call `ecl_rst_file_end_solution`. -/
  | end_solution
  /-- The call `ecl_rst_file_add_kw` of a keyword. -/
  | add_kw (name : String) (values : KwData D)
  /-- The call `ecl_rst_file_close` of the owning pointer, when it leaves scope. -/
  | close

/-- Modelled from the spec: the view of one report step of a file being read
(`ecl_file_view_type`): the three keywords that `load` fetches without asking
whether they are there, and the keywords read as `double` arrays. -/
structure RestartView (D : Type) where
  intehead : List Int
  opm_xwel : List D
  opm_iwel : List Int
  keywords : FileView D

/-- Modelled from the spec: an open file (`ecl_file_type`): its view of a
report step, if it has one, and its global view. -/
structure EclFile (D : Type) where
  ecl_file_get_restart_view : Int → Option (RestartView D)
  ecl_file_get_global_view : RestartView D

/-- Modelled from the spec: the keyword container and the unit systems, as
`load` and `save` use them: whether a file name denotes a unified restart file
(`ERT::EclFiletype( filename ) == ECL_UNIFIED_RESTART_FILE`), the file of a
name if it can be opened (`ecl_file_open`), and the unit system that the
header `INTEHEAD` stores. -/
structure KeywordStore (M D : Type) where
  unified : String → Bool
  ecl_file_open : String → Option (EclFile D)
  headerUnits : List Int → UnitSystem M D

/-- Modelled from the spec: the positions and codes of `ert/ecl_well/well_const.h`
(not under `src/`) that `serialize_ICON`, `serialize_IWEL` and
`to_ert_welltype` use. -/
structure WellConst where
  ICON_IC_INDEX : Nat
  ICON_I_INDEX : Nat
  ICON_J_INDEX : Nat
  ICON_K_INDEX : Nat
  ICON_STATUS_INDEX : Nat
  ICON_DIRECTION_INDEX : Nat
  IWEL_HEADI_INDEX : Nat
  IWEL_HEADJ_INDEX : Nat
  IWEL_CONNECTIONS_INDEX : Nat
  IWEL_GROUP_INDEX : Nat
  IWEL_TYPE_INDEX : Nat
  IWEL_STATUS_INDEX : Nat
  IWEL_UNDOCUMENTED_ZERO : Int
  IWEL_PRODUCER : Int
  IWEL_OIL_INJECTOR : Int
  IWEL_WATER_INJECTOR : Int
  IWEL_GAS_INJECTOR : Int

/-- The constant `NIWELZ`: elements per well in `IWEL`. -/
def NIWELZ : Nat := 11

/-- The constant `NZWELZ`: words per well in `ZWEL`. -/
def NZWELZ : Nat := 3

/-- The constant `NICONZ`: elements per connection in `ICON`. -/
def NICONZ : Nat := 15

/-- The keyword name `IWEL_KW`. -/
def IWEL_KW : String := "IWEL"

/-- The keyword name `ZWEL_KW`. -/
def ZWEL_KW : String := "ZWEL"

/-- The keyword name `ICON_KW`. -/
def ICON_KW : String := "ICON"

/-- The keyword name `OPM_XWEL`. -/
def OPM_XWEL : String := "OPM_XWEL"

/-- The keyword name `OPM_IWEL`. -/
def OPM_IWEL : String := "OPM_IWEL"

/-! ## The fixed-stride arrays (`serialize_ICON`, `serialize_IWEL`, `serialize_ZWEL`) -/

/-- The assignment `data[ i ] = v` to an element of a vector.  An index at or
past the end is the error `outOfBounds`. -/
def writeAt {α : Type} (values : List α) (i : Nat) (v : α) : Except RestartError (List α) :=
  if i < values.length then .ok (values.set i v) else .error .outOfBounds

/-- The function `to_ert_welltype` (lines 77-90). -/
def to_ert_welltype (k : WellConst) (well : Well) (timestep : Nat) : Int :=
  if well.isProducer timestep then k.IWEL_PRODUCER
  else
    match well.injectorType timestep with
    | WellInjector.TypeEnum.WATER => k.IWEL_WATER_INJECTOR
    | WellInjector.TypeEnum.GAS => k.IWEL_GAS_INJECTOR
    | WellInjector.TypeEnum.OIL => k.IWEL_OIL_INJECTOR
    | _ => k.IWEL_UNDOCUMENTED_ZERO

/-- The body of the connection loop of `serialize_ICON` (lines 295-307): the
six assignments at `offset`. -/
def iconConnection (k : WellConst) (connection : Connection) (offset : Nat)
    (values : List Int) : Except RestartError (List Int) := do
  let values ← writeAt values (offset + k.ICON_IC_INDEX) 1
  let values ← writeAt values (offset + k.ICON_I_INDEX) ((connection.getI : Int) + 1)
  let values ← writeAt values (offset + k.ICON_J_INDEX) ((connection.getJ : Int) + 1)
  let values ← writeAt values (offset + k.ICON_K_INDEX) ((connection.getK : Int) + 1)
  let values ← writeAt values (offset + k.ICON_DIRECTION_INDEX) connection.dir
  writeAt values (offset + k.ICON_STATUS_INDEX)
    (if connection.state = WellCompletion.StateEnum.OPEN then 1 else 0)

/-- The connection loop of `serialize_ICON` (lines 294-310). -/
def iconConnections (k : WellConst) :
    List Connection → Nat → Nat → List Int → Except RestartError (List Int)
  | [], _, _, values => .ok values
  | connection :: rest, well_offset, connection_offset, values => do
    let offset := well_offset + connection_offset
    let values ← iconConnection k connection offset values
    iconConnections k rest well_offset (connection_offset + NICONZ) values

/-- The well loop of `serialize_ICON` (lines 291-312). -/
def iconWells (k : WellConst) (sim_step ncwmax : Nat) :
    List Well → Nat → List Int → Except RestartError (List Int)
  | [], _, values => .ok values
  | well :: rest, well_offset, values => do
    let values ← iconConnections k (well.getConnections sim_step) well_offset 0 values
    iconWells k sim_step ncwmax rest (well_offset + ncwmax * NICONZ) values

/-- The function `serialize_ICON` (lines 284-314).  The grid is not used. -/
def serialize_ICON (k : WellConst) (sim_step ncwmax : Nat) (sched_wells : List Well)
    (_grid : EclipseGrid) : Except RestartError (List Int) :=
  iconWells k sim_step ncwmax sched_wells 0
    (List.replicate (sched_wells.length * ncwmax * NICONZ) 0)

/-- One assignment `data[ index ] = value` of `serialize_ICON`, with the
position in `sched_wells` of the well in whose iteration it is made. -/
structure IconWrite where
  well : Nat
  index : Nat
  value : Int
  deriving DecidableEq, Repr

/-- The six assignments of the body of the connection loop of `serialize_ICON`
(lines 295-307), in program order, for the well at position `w`. -/
def iconConnectionWrites (k : WellConst) (w : Nat) (connection : Connection) (offset : Nat) :
    List IconWrite :=
  [ { well := w, index := offset + k.ICON_IC_INDEX, value := 1 },
    { well := w, index := offset + k.ICON_I_INDEX, value := (connection.getI : Int) + 1 },
    { well := w, index := offset + k.ICON_J_INDEX, value := (connection.getJ : Int) + 1 },
    { well := w, index := offset + k.ICON_K_INDEX, value := (connection.getK : Int) + 1 },
    { well := w, index := offset + k.ICON_DIRECTION_INDEX, value := connection.dir },
    { well := w, index := offset + k.ICON_STATUS_INDEX,
      value := if connection.state = WellCompletion.StateEnum.OPEN then 1 else 0 } ]

/-- The assignments of the connection loop of `serialize_ICON` (lines 294-310),
in program order, for the well at position `w`. -/
def iconConnectionsWrites (k : WellConst) (w : Nat) :
    List Connection → Nat → Nat → List IconWrite
  | [], _, _ => []
  | connection :: rest, well_offset, connection_offset =>
    iconConnectionWrites k w connection (well_offset + connection_offset)
      ++ iconConnectionsWrites k w rest well_offset (connection_offset + NICONZ)

/-- The assignments of the well loop of `serialize_ICON` (lines 291-312), in
program order; `w` is the position of the first well of the list. -/
def iconWellsWrites (k : WellConst) (sim_step ncwmax : Nat) :
    List Well → Nat → Nat → List IconWrite
  | [], _, _ => []
  | well :: rest, w, well_offset =>
    iconConnectionsWrites k w (well.getConnections sim_step) well_offset 0
      ++ iconWellsWrites k sim_step ncwmax rest (w + 1) (well_offset + ncwmax * NICONZ)

/-- The assignments of `serialize_ICON` (lines 284-314), in program order. -/
def iconWrites (k : WellConst) (sim_step ncwmax : Nat) (sched_wells : List Well) :
    List IconWrite :=
  iconWellsWrites k sim_step ncwmax sched_wells 0 0

/-- The vector after a sequence of assignments, each one checked as `writeAt`
checks it. -/
def applyWrites : List IconWrite → List Int → Except RestartError (List Int)
  | [], values => .ok values
  | x :: xs, values => do
    let values ← writeAt values x.index x.value
    applyWrites xs values

/-- The body of the loop of `serialize_IWEL` (lines 323-332): the six
assignments at `offset`. -/
def iwelWell (k : WellConst) (step : Nat) (grid : EclipseGrid) (well : Well) (offset : Nat)
    (values : List Int) : Except RestartError (List Int) := do
  let connections := well.getActiveConnections step grid
  let values ← writeAt values (offset + k.IWEL_HEADI_INDEX) ((well.getHeadI step : Int) + 1)
  let values ← writeAt values (offset + k.IWEL_HEADJ_INDEX) ((well.getHeadJ step : Int) + 1)
  let values ← writeAt values (offset + k.IWEL_CONNECTIONS_INDEX) (connections.length : Int)
  let values ← writeAt values (offset + k.IWEL_GROUP_INDEX) 1
  let values ← writeAt values (offset + k.IWEL_TYPE_INDEX) (to_ert_welltype k well step)
  writeAt values (offset + k.IWEL_STATUS_INDEX)
    (if well.getStatus step = WellCommon.StatusEnum.OPEN then 1 else 0)

/-- The loop of `serialize_IWEL` (lines 322-335). -/
def iwelWells (k : WellConst) (step : Nat) (grid : EclipseGrid) :
    List Well → Nat → List Int → Except RestartError (List Int)
  | [], _, values => .ok values
  | well :: rest, offset, values => do
    let values ← iwelWell k step grid well offset values
    iwelWells k step grid rest (offset + NIWELZ) values

/-- The function `serialize_IWEL` (lines 316-337). -/
def serialize_IWEL (k : WellConst) (step : Nat) (wells : List Well) (grid : EclipseGrid) :
    Except RestartError (List Int) :=
  iwelWells k step grid wells 0 (List.replicate (wells.length * NIWELZ) 0)

/-- The loop of `serialize_ZWEL` (lines 432-435). -/
def zwelWells : List Well → Nat → List String → Except RestartError (List String)
  | [], _, values => .ok values
  | well :: rest, offset, values => do
    let values ← writeAt values offset well.name
    zwelWells rest (offset + NZWELZ) values

/-- The function `serialize_ZWEL` (lines 428-437). -/
def serialize_ZWEL (wells : List Well) : Except RestartError (List String) :=
  zwelWells wells 0 (List.replicate (wells.length * NZWELZ) "")

/-! ## Writing (`writeHeader`, `writeSolution`, `writeExtraData`, `writeWell`, `save`) -/

section Save

variable {M D : Type} [Zero D]

/-- The function `writeHeader` (lines 448-480): the header operation. -/
def writeHeader (sim_step : Nat) (report_step : Int) (seconds_elapsed : D) (sim_days : D)
    (ert_phase_mask : Int) (units : UnitSystem M D) (schedule : Schedule)
    (grid : EclipseGrid) : FileOp D :=
  FileOp.fwrite_header report_step
    { posixStartTime := schedule.posixStartTime,
      seconds_elapsed := seconds_elapsed,
      nactive := grid.getNumActive,
      nx := grid.getNX,
      ny := grid.getNY,
      nz := grid.getNZ,
      nwells := schedule.numWells sim_step,
      niwelz := NIWELZ,
      nzwelz := NZWELZ,
      niconz := NICONZ,
      ncwmax := schedule.getMaxNumConnectionsForWells sim_step,
      phase_sum := ert_phase_mask,
      sim_days := sim_days,
      unit_system := units.getEclType }

/-- The function `ecl_kw` (lines 482-498): the elements of the keyword, as
`double` or as `float`. -/
def ecl_kw (values : List D) (write_double : Bool) : KwData D :=
  if write_double then KwData.double values else KwData.float values

/-- One of the two loops of `writeSolution` (lines 504-507 and 510-513): the
keywords added for the entries of the given target. -/
def writeSolutionPass (target : data.TargetType) (write_double : Bool) :
    data.Solution M D → List (FileOp D)
  | [] => []
  | elm :: rest =>
    if elm.2.target = target then
      FileOp.add_kw elm.1 (ecl_kw elm.2.data write_double)
        :: writeSolutionPass target write_double rest
    else
      writeSolutionPass target write_double rest

/-- The function `writeSolution` (lines 502-514). -/
def writeSolution (solution : data.Solution M D) (write_double : Bool) : List (FileOp D) :=
  [FileOp.start_solution]
    ++ writeSolutionPass data.TargetType.RESTART_SOLUTION write_double solution
    ++ [FileOp.end_solution]
    ++ writeSolutionPass data.TargetType.RESTART_AUXILIARY write_double solution

/-- The function `writeExtraData` (lines 517-527). -/
def writeExtraData : List (RestartKey M × List D) → List (FileOp D)
  | [] => []
  | extra_value :: rest =>
    FileOp.add_kw extra_value.1.key (KwData.double extra_value.2) :: writeExtraData rest

/-- The function `writeWell` (lines 531-547): the five arrays are built, then
the five keywords are added. -/
def writeWell (k : WellConst) (sim_step : Nat) (es : EclipseState) (grid : EclipseGrid)
    (schedule : Schedule) (wells : data.Wells D) : Except RestartError (List (FileOp D)) := do
  let sched_wells := schedule.getWells sim_step
  let phases := es.runspec.phases
  let ncwmax := schedule.getMaxNumConnectionsForWells sim_step
  let opm_xwel ← serialize_OPM_XWEL wells sim_step sched_wells phases grid
  let opm_iwel := serialize_OPM_IWEL wells sched_wells
  let iwel_data ← serialize_IWEL k sim_step sched_wells grid
  let icon_data ← serialize_ICON k sim_step ncwmax sched_wells grid
  let zwel_data ← serialize_ZWEL sched_wells
  pure [ FileOp.add_kw IWEL_KW (KwData.int iwel_data),
         FileOp.add_kw ZWEL_KW (KwData.char zwel_data),
         FileOp.add_kw OPM_XWEL (KwData.double opm_xwel),
         FileOp.add_kw OPM_IWEL (KwData.int opm_iwel),
         FileOp.add_kw ICON_KW (KwData.int icon_data) ]

/-- The loop of `checkSaveArguments` over the solution (lines 553-555). -/
def checkSolutionSizes (numActive : Nat) : data.Solution M D → Except RestartError Unit
  | [] => .ok ()
  | elm :: rest =>
    if elm.2.data.length ≠ numActive then
      .error (.wrongSolutionSize elm.1)
    else
      checkSolutionSizes numActive rest

/-- The warning of `checkSaveArguments` when THPRES is active and absent. -/
def thpresWarning : String :=
  "This model has THPRES active - should have THPRES as part of restart data."

/-- The function `checkSaveArguments` (lines 549-572); it returns the warnings
it logged. -/
def checkSaveArguments (es : EclipseState) (restart_value : RestartValue M D)
    (grid : EclipseGrid) : Except RestartError (List String) := do
  checkSolutionSizes grid.getNumActive restart_value.solution
  if es.getSimulationConfig.getThresholdPressure.size > 0 then
    if restart_value.hasExtra "THPRES" = false then
      pure [thpresWarning]
    else
      let num_regions := es.getTableManager.getEqldims.getNumEquilRegions
      let thpres ← restart_value.getExtra "THPRES"
      if thpres.length ≠ num_regions * num_regions then
        .error .invalidThpres
      else
        pure []
  else
    pure []

/-- The outcome of `save`: the operations performed on the file, in order, and
the result of the call. -/
structure SaveOutcome (D : Type) where
  trace : List (FileOp D)
  result : Except RestartError Unit

/-- The function `save` (lines 576-613).  The unit system `units` is the one
of the configuration (`es.getUnits()`). -/
def save (store : KeywordStore M D) (k : WellConst) (filename : String) (report_step : Int)
    (seconds_elapsed : D) (value : RestartValue M D) (es : EclipseState)
    (units : UnitSystem M D) (grid : EclipseGrid) (schedule : Schedule)
    (write_double : Bool) : SaveOutcome D :=
  match checkSaveArguments es value grid with
  | .error e => { trace := [], result := .error e }
  | .ok _ =>
    let sim_step := (max (report_step - 1) 0).toNat
    let ert_phase_mask := es.runspec.eclPhaseMask
    let sim_time := units.from_si units.time seconds_elapsed
    let rst_file :=
      if store.unified filename then FileOp.open_write_seek filename report_step
      else FileOp.open_write filename
    let solution := value.solution.convertFromSI units
    let extra := value.extra.map
      (fun extra_value => (extra_value.1, extra_value.2.map (units.from_si extra_value.1.dim)))
    let header := writeHeader sim_step report_step seconds_elapsed sim_time ert_phase_mask
      units schedule grid
    match writeWell k sim_step es grid schedule value.wells with
    | .error e => { trace := [rst_file, header, FileOp.close], result := .error e }
    | .ok well_keywords =>
      { trace := [rst_file, header] ++ well_keywords ++ writeSolution solution write_double
          ++ writeExtraData extra ++ [FileOp.close],
        result := .ok () }

end Save

/-! ## Reading (`load`) -/

section Load

variable {M D : Type} [Zero D]

/-- The loop of `load` over the requested extra keys (lines 252-264). -/
def loadExtra (file_view : FileView D) :
    List (RestartKey M) → RestartValue M D → Except RestartError (RestartValue M D)
  | [], rst_value => .ok rst_value
  | extra :: rest, rst_value =>
    if ecl_file_view_has_kw file_view extra.key then
      match ecl_file_view_iget_named_kw file_view extra.key 0 with
      | none => .error (.noKeyword extra.key)
      | some ecl_kw => loadExtra file_view rest (rst_value.addExtra extra.key extra.dim ecl_kw.data)
    else if extra.required then
      .error (.noSuchKey extra.key)
    else
      loadExtra file_view rest rst_value

/-- The function `load` (lines 219-276).  The two arguments of the constructor
of the restart value are evaluated solution first. -/
def load (store : KeywordStore M D) (filename : String) (report_step : Int)
    (solution_keys : List (RestartKey M)) (es : EclipseState) (grid : EclipseGrid)
    (schedule : Schedule) (extra_keys : List (RestartKey M)) :
    Except RestartError (RestartValue M D) := do
  let sim_step := (max (report_step - 1) 0).toNat
  let unified := store.unified filename
  match store.ecl_file_open filename with
  | none => .error (.fileNotFound filename)
  | some file =>
    let file_view ←
      if unified then
        match file.ecl_file_get_restart_view report_step with
        | none => .error (.noReportStep filename report_step)
        | some view => pure view
      else
        pure file.ecl_file_get_global_view
    let units := store.headerUnits file_view.intehead
    let solution ← restoreSOLUTION file_view.keywords solution_keys grid.getNumActive
    let wells ← restore_wells file_view.opm_xwel file_view.opm_iwel sim_step es grid schedule
    let rst_value ← loadExtra file_view.keywords extra_keys
      { solution := solution, wells := wells, extra := [] }
    pure { rst_value with
      solution := rst_value.solution.convertToSI units,
      extra := rst_value.extra.map
        (fun extra_value => (extra_value.1, extra_value.2.map (units.to_si extra_value.1.dim))) }

end Load

/-! ## Statement-level definitions -/

section Statements

variable {D : Type} [Zero D]

/-- The number of `OPM_XWEL` elements of one scheduled well:
`2 + |P| + connectionCount * (|P| + 2)`. -/
def perWellExtensionWidth (phases : List data.rt) (sim_step : Nat) (w : Well) : Nat :=
  2 + phases.length + (w.getConnections sim_step).length * (phases.length + 2)

/-- Every well of the map that a scheduled well which is not SHUT names has a
value for each rate in `phases`, and so has each of its connections: no
`rates.get` of `serialize_OPM_XWEL` can raise. -/
def RatesInitialized (wells : data.Wells D) (sim_step : Nat) (phases : List data.rt)
    (sched_wells : List Well) : Prop :=
  ∀ sw ∈ sched_wells, sw.getStatus sim_step ≠ WellCommon.StatusEnum.SHUT →
    ∀ well, wells sw.name = some well →
      (∀ p ∈ phases, well.rates.has p = true)
        ∧ ∀ c ∈ well.connections, ∀ p ∈ phases, c.rates.has p = true

/-- Whether `restore_wells` materialises a scheduled connection: its cell is
active and its state is not SHUT. -/
def materialised (grid : EclipseGrid) (sc : Connection) : Bool :=
  grid.cellActive sc.getI sc.getJ sc.getK && decide (sc.state ≠ WellCompletion.StateEnum.SHUT)

/-- The rates after setting the options of `phases`, in order, to the
successive elements of `seg`. -/
def setRates (rates : data.Rates D) : List data.rt → List D → data.Rates D
  | p :: ps, x :: xs => setRates (rates.set p x) ps xs
  | _, _ => rates

/-- The connection read from the segment that starts the list `seg`: index the
active index of the cell of `sc`, pressure and reservoir rate the first two
elements, one rate per phase of `phases` from the following elements. -/
def segmentConnection (phases : List data.rt) (grid : EclipseGrid) (sc : Connection)
    (seg : List D) : data.Connection D :=
  { index := grid.activeIndex sc.getI sc.getJ sc.getK,
    rates := setRates {} phases (seg.drop 2),
    pressure := seg.getD 0 0,
    reservoir_rate := seg.getD 1 0 }

/-- One connection per scheduled connection whose cell is active and whose
state is not SHUT, in schedule order, each read from its own segment of
`|P| + 2` elements; the segments of the scheduled connections follow each other
from the start of `seg`. -/
def segmentConnections (phases : List data.rt) (grid : EclipseGrid) :
    List Connection → List D → List (data.Connection D)
  | [], _ => []
  | sc :: scs, seg =>
    if grid.cellActive sc.getI sc.getJ sc.getK = false
        ∨ sc.state = WellCompletion.StateEnum.SHUT then
      segmentConnections phases grid scs (seg.drop (phases.length + 2))
    else
      segmentConnection phases grid sc seg
        :: segmentConnections phases grid scs (seg.drop (phases.length + 2))

/-- The well read from the segment that starts the list `seg`, with the given
control value: bhp, temperature, one rate per phase, then the connections. -/
def segmentWell (phases : List data.rt) (grid : EclipseGrid) (scs : List Connection)
    (control : Int) (seg : List D) : data.Well D :=
  { rates := setRates {} phases (seg.drop 2),
    bhp := seg.getD 0 0,
    temperature := seg.getD 1 0,
    control := control,
    connections := segmentConnections phases grid scs (seg.drop (2 + phases.length)) }

/-- Whether a read is at an index strictly below the length of its array. -/
def ArrayRead.inBounds (xwel_length iwel_length : Nat) : ArrayRead → Prop
  | .xwel index => index < xwel_length
  | .iwel index => index < iwel_length

/-- The reads of `n` successive elements of `OPM_XWEL` from `start`. -/
def xwelReads (start n : Nat) : List ArrayRead :=
  (List.range' start n).map ArrayRead.xwel

/-- The reads of the scheduled connection number `c.1` of a well whose
connections start at `start`: its segment starts `c.1 * (|P| + 2)` elements
further, whatever the connections before it; its `|P| + 2` elements are read
when the connection is materialised, and none otherwise. -/
def connectionReads (phases : List data.rt) (grid : EclipseGrid) (start : Nat)
    (c : Nat × Connection) : List ArrayRead :=
  if materialised grid c.2 then
    xwelReads (start + c.1 * (phases.length + 2)) (phases.length + 2)
  else []

/-- The reads of the scheduled well number `i`, whose segment starts at
`start`: bhp, temperature, the control at `i` of `OPM_IWEL`, the `|P|` rates,
then the reads of its scheduled connections, in schedule order. -/
def wellReads (phases : List data.rt) (grid : EclipseGrid) (sim_step : Nat) (start i : Nat)
    (w : Well) : List ArrayRead :=
  [ArrayRead.xwel start, ArrayRead.xwel (start + 1), ArrayRead.iwel i]
    ++ xwelReads (start + 2) phases.length
    ++ (((w.getConnections sim_step).enum).map
        (connectionReads phases grid (start + 2 + phases.length))).flatten

/-- The reads of the scheduled wells, in schedule order: the segment of each
well starts at `expected_xwel_size` of the wells before it. -/
def scheduleReads (phases : List data.rt) (grid : EclipseGrid) (sim_step : Nat)
    (ws : List Well) : List ArrayRead :=
  ((ws.enum).map (fun iw =>
    wellReads phases grid sim_step (expected_xwel_size phases sim_step (ws.take iw.1))
      iw.1 iw.2)).flatten

/-- The phase of the run that a rate option of the codec stands for
(lines 152-154 and 370-372). -/
def phaseOf : data.rt → Phase
  | .wat => Phase.WATER
  | .oil => Phase.OIL
  | .gas => Phase.GAS

/-- The values of the rates of `phases`, in order. -/
def rateValues (rates : data.Rates D) (phases : List data.rt) : List D :=
  phases.map (fun p => (rates.value p).getD 0)

/-- The elements that the layout of `OPM_XWEL` gives to a scheduled connection
of a well of the map: pressure, reservoir rate and the rates of `phases` of the
first connection of the well whose index is the active index of the cell, or
`|P| + 2` zeros when the cell is inactive, the connection is SHUT or the well
has no connection of that index. -/
def connectionLayout (well : data.Well D) (phases : List data.rt) (grid : EclipseGrid)
    (sc : Connection) : List D :=
  if materialised grid sc = false then
    List.replicate (phases.length + 2) 0
  else
    match well.connections.find?
        (fun c => decide (c.index = grid.activeIndex sc.getI sc.getJ sc.getK)) with
    | none => List.replicate (phases.length + 2) 0
    | some c => c.pressure :: c.reservoir_rate :: rateValues c.rates phases

end Statements

/-! ## Statement-level definitions for the fixed-stride arrays -/

/-- The six positions of a connection record are below `NICONZ` and pairwise
distinct. -/
def WellConst.iconValid (k : WellConst) : Prop :=
  k.ICON_IC_INDEX < NICONZ ∧ k.ICON_I_INDEX < NICONZ ∧ k.ICON_J_INDEX < NICONZ
    ∧ k.ICON_K_INDEX < NICONZ ∧ k.ICON_DIRECTION_INDEX < NICONZ ∧ k.ICON_STATUS_INDEX < NICONZ
    ∧ [k.ICON_IC_INDEX, k.ICON_I_INDEX, k.ICON_J_INDEX, k.ICON_K_INDEX,
        k.ICON_DIRECTION_INDEX, k.ICON_STATUS_INDEX].Nodup

/-- The six positions of a well record are below `NIWELZ` and pairwise
distinct. -/
def WellConst.iwelValid (k : WellConst) : Prop :=
  k.IWEL_HEADI_INDEX < NIWELZ ∧ k.IWEL_HEADJ_INDEX < NIWELZ
    ∧ k.IWEL_CONNECTIONS_INDEX < NIWELZ ∧ k.IWEL_GROUP_INDEX < NIWELZ
    ∧ k.IWEL_TYPE_INDEX < NIWELZ ∧ k.IWEL_STATUS_INDEX < NIWELZ
    ∧ [k.IWEL_HEADI_INDEX, k.IWEL_HEADJ_INDEX, k.IWEL_CONNECTIONS_INDEX, k.IWEL_GROUP_INDEX,
        k.IWEL_TYPE_INDEX, k.IWEL_STATUS_INDEX].Nodup

instance (k : WellConst) : Decidable k.iconValid := by
  unfold WellConst.iconValid
  infer_instance

instance (k : WellConst) : Decidable k.iwelValid := by
  unfold WellConst.iwelValid
  infer_instance

/-- The record of `NICONZ` elements that the six assignments of
`serialize_ICON` make of a record of zeros. -/
def iconRecord (k : WellConst) (connection : Connection) : List Int :=
  ((((((List.replicate NICONZ (0 : Int)).set k.ICON_IC_INDEX 1).set k.ICON_I_INDEX
    ((connection.getI : Int) + 1)).set k.ICON_J_INDEX ((connection.getJ : Int) + 1)).set
    k.ICON_K_INDEX ((connection.getK : Int) + 1)).set k.ICON_DIRECTION_INDEX
    connection.dir).set k.ICON_STATUS_INDEX
    (if connection.state = WellCompletion.StateEnum.OPEN then 1 else 0)

/-- The block of `ncwmax * NICONZ` elements of a well in `ICON`: the records of
its connections, then zeros. -/
def iconBlock (k : WellConst) (sim_step ncwmax : Nat) (well : Well) : List Int :=
  ((well.getConnections sim_step).map (iconRecord k)).flatten
    ++ List.replicate ((ncwmax - (well.getConnections sim_step).length) * NICONZ) 0

/-- The record of `NIWELZ` elements that the six assignments of
`serialize_IWEL` make of a record of zeros. -/
def iwelRecord (k : WellConst) (step : Nat) (grid : EclipseGrid) (well : Well) : List Int :=
  ((((((List.replicate NIWELZ (0 : Int)).set k.IWEL_HEADI_INDEX
    ((well.getHeadI step : Int) + 1)).set k.IWEL_HEADJ_INDEX
    ((well.getHeadJ step : Int) + 1)).set k.IWEL_CONNECTIONS_INDEX
    ((well.getActiveConnections step grid).length : Int)).set k.IWEL_GROUP_INDEX 1).set
    k.IWEL_TYPE_INDEX (to_ert_welltype k well step)).set k.IWEL_STATUS_INDEX
    (if well.getStatus step = WellCommon.StatusEnum.OPEN then 1 else 0)

/-! ## A concrete case

Two phases (water, oil), a grid whose layer `k = 2` is inactive, a producer
with four scheduled connections (one SHUT, one in an inactive cell), an
injector with one connection, and a SHUT well that is scheduled from step 1. -/

namespace Example

/-- Active phases water and oil. -/
def phases : Phases :=
  { active := fun p => decide (p = Phase.WATER ∨ p = Phase.OIL) }

/-- The configuration holding `phases`. -/
def es : EclipseState :=
  { runspec := { phases := phases, eclPhaseMask := 5 },
    getSimulationConfig := { getThresholdPressure := { size := 3 } },
    getTableManager := { getEqldims := { getNumEquilRegions := 3 } } }

/-- Active phases water, oil and gas. -/
def threePhases : Phases :=
  { active := fun p => decide (p = Phase.WATER ∨ p = Phase.OIL ∨ p = Phase.GAS) }

/-- A configuration in which water, oil and gas are all active. -/
def esThreePhase : EclipseState :=
  { runspec := { phases := threePhases, eclPhaseMask := 7 },
    getSimulationConfig := { getThresholdPressure := { size := 3 } },
    getTableManager := { getEqldims := { getNumEquilRegions := 3 } } }

/-- Cells with `k < 2` are active; the active index of `(i, j, k)` is `2 * i + k`. -/
def grid : EclipseGrid :=
  { cellActive := fun _ _ k => decide (k < 2),
    activeIndex := fun i _ k => 2 * i + k,
    getNumActive := 4,
    getNX := 2, getNY := 1, getNZ := 3 }

/-- The producer. -/
def producer : Well :=
  { name := "PROD",
    getConnections := fun _ =>
      [ { getI := 0, getJ := 0, getK := 0, state := .OPEN, dir := 3 },
        { getI := 0, getJ := 0, getK := 1, state := .SHUT, dir := 3 },
        { getI := 0, getJ := 0, getK := 2, state := .OPEN, dir := 3 },
        { getI := 1, getJ := 0, getK := 1, state := .OPEN, dir := 3 } ],
    getStatus := fun _ => .OPEN,
    getHeadI := fun _ => 0,
    getHeadJ := fun _ => 0,
    isProducer := fun _ => true,
    injectorType := fun _ => .MULTI }

/-- The injector. -/
def injector : Well :=
  { name := "INJ",
    getConnections := fun _ =>
      [ { getI := 1, getJ := 0, getK := 0, state := .OPEN, dir := 3 } ],
    getStatus := fun _ => .OPEN,
    getHeadI := fun _ => 1,
    getHeadJ := fun _ => 0,
    isProducer := fun _ => false,
    injectorType := fun _ => .WATER }

/-- A well that is SHUT. -/
def shutIn : Well :=
  { name := "OLD",
    getConnections := fun _ =>
      [ { getI := 0, getJ := 0, getK := 1, state := .OPEN, dir := 3 } ],
    getStatus := fun _ => .SHUT,
    getHeadI := fun _ => 0,
    getHeadJ := fun _ => 0,
    isProducer := fun _ => true,
    injectorType := fun _ => .MULTI }

/-- Step 0 schedules the producer and the injector, later steps also the SHUT
well, between them. -/
def schedule : Schedule :=
  { getWells := fun step => if step = 0 then [producer, injector]
      else [producer, shutIn, injector],
    posixStartTime := 1262304000 }

/-- The dynamic data of the producer. -/
def producerData : data.Well Int :=
  { rates := { wat := some 10, oil := some 20 },
    bhp := 100, temperature := 50, control := 1,
    connections :=
      [ { index := 0, rates := { wat := some 1, oil := some 2 },
          pressure := 30, reservoir_rate := 4 },
        { index := 3, rates := { wat := some 5, oil := some 6 },
          pressure := 31, reservoir_rate := 7 } ] }

/-- The dynamic data of the injector. -/
def injectorData : data.Well Int :=
  { rates := { wat := some (-8), oil := some 0 },
    bhp := 200, temperature := 60, control := 2,
    connections :=
      [ { index := 2, rates := { wat := some (-8), oil := some 0 },
          pressure := 35, reservoir_rate := -9 } ] }

/-- The wells map: data for the producer and the injector. -/
def wells : data.Wells Int := fun n =>
  if n = "PROD" then some producerData
  else if n = "INJ" then some injectorData
  else none

/-- Measure dimensions of the concrete case. -/
inductive Measure where
  | pressure | gas_oil_ratio
  deriving DecidableEq, Repr

/-- The requested solution keys: PRESSURE required, RS optional. -/
def solutionKeys : List (RestartKey Measure) :=
  [ { key := "PRESSURE", dim := Measure.pressure, required := true },
    { key := "RS", dim := Measure.gas_oil_ratio, required := false } ]

/-- A file view holding only PRESSURE. -/
def fileView : FileView Int :=
  [ { header := "PRESSURE", data := [200, 201, 202, 203] } ]

/-- A file view whose optional keyword RS has three elements instead of four. -/
def shortFileView : FileView Int :=
  [ { header := "PRESSURE", data := [200, 201, 202, 203] },
    { header := "RS", data := [7, 8, 9] } ]

/-- A solution with two primary fields, an auxiliary field and a summary
field, each with one value per active cell. -/
def solution : data.Solution Measure Int :=
  [ ("PRESSURE", { dim := Measure.pressure, data := [200, 201, 202, 203],
                   target := data.TargetType.RESTART_SOLUTION }),
    ("RSSAT", { dim := Measure.gas_oil_ratio, data := [1, 2, 3, 4],
                target := data.TargetType.RESTART_AUXILIARY }),
    ("FIP", { dim := Measure.pressure, data := [0, 0, 0, 0],
              target := data.TargetType.SUMMARY }),
    ("RS", { dim := Measure.gas_oil_ratio, data := [7, 8, 9, 10],
             target := data.TargetType.RESTART_SOLUTION }) ]

/-- The restart value of the concrete case, with the given extra arrays. -/
def restartValue (extra : List (RestartKey Measure × List Int)) : RestartValue Measure Int :=
  { solution := solution, wells := wells, extra := extra }

/-- The key of the threshold-pressure array. -/
def thpresKey : RestartKey Measure :=
  { key := "THPRES", dim := Measure.pressure, required := true }

/-- The positions and codes of the keyword library. -/
def wellConst : WellConst :=
  { ICON_IC_INDEX := 0, ICON_I_INDEX := 1, ICON_J_INDEX := 2, ICON_K_INDEX := 3,
    ICON_STATUS_INDEX := 5, ICON_DIRECTION_INDEX := 13,
    IWEL_HEADI_INDEX := 0, IWEL_HEADJ_INDEX := 1, IWEL_CONNECTIONS_INDEX := 4,
    IWEL_GROUP_INDEX := 5, IWEL_TYPE_INDEX := 6, IWEL_STATUS_INDEX := 10,
    IWEL_UNDOCUMENTED_ZERO := 0, IWEL_PRODUCER := 1, IWEL_OIL_INJECTOR := 2,
    IWEL_WATER_INJECTOR := 3, IWEL_GAS_INJECTOR := 4 }

/-- A unit system that stores pressures in hundredths and gas-oil ratios
unchanged. -/
def units : UnitSystem Measure Int :=
  { getEclType := 1,
    time := Measure.gas_oil_ratio,
    from_si := fun m x => match m with
      | Measure.pressure => 100 * x
      | Measure.gas_oil_ratio => x,
    to_si := fun m x => match m with
      | Measure.pressure => x / 100
      | Measure.gas_oil_ratio => x }

/-- The view of the report step of the concrete case: the extension arrays of
step 0, the field PRESSURE and the extra array THPRES. -/
def restartView : RestartView Int :=
  { intehead := [0, 0, 1],
    opm_xwel := [100, 50, 10, 20, 30, 4, 1, 2, 0, 0, 0, 0, 0, 0, 0, 0, 31, 7, 5, 6,
      200, 60, -8, 0, 35, -9, -8, 0],
    opm_iwel := [1, 2],
    keywords :=
      [ { header := "PRESSURE", data := [200, 201, 202, 203] },
        { header := "THPRES", data := [0, 100, 200, 100, 0, 300, 200, 300, 0] } ] }

/-- A keyword container in which "CASE.UNRST" is a unified file that holds
`restartView` at report steps 0 and 1. -/
def store : KeywordStore Measure Int :=
  { unified := fun filename => decide (filename = "CASE.UNRST"),
    ecl_file_open := fun filename =>
      if filename = "CASE.UNRST" then
        some { ecl_file_get_restart_view := fun report_step =>
                 if report_step = 0 ∨ report_step = 1 then some restartView else none,
               ecl_file_get_global_view := restartView }
      else none,
    headerUnits := fun _ => units }

/-- Dynamic data for the SHUT well. -/
def shutData : data.Well Int :=
  { rates := { wat := some 3, oil := some 4 },
    bhp := 300, temperature := 80, control := 7, connections := [] }

/-- The wells map with an entry for the SHUT well too. -/
def wellsWithShut : data.Wells Int := fun n =>
  if n = "OLD" then some shutData else wells n

/-- The wells map with one more entry, for a name that is never scheduled. -/
def wellsWithUnscheduled : data.Wells Int := fun n =>
  if n = "GHOST" then
    some { rates := { gas := some 77 }, bhp := 1, temperature := 2, control := 9,
           connections := [] }
  else wells n

/-- The requested extra keys: THPRES required, SWATINIT optional. -/
def extraKeys : List (RestartKey Measure) :=
  [ thpresKey, { key := "SWATINIT", dim := Measure.gas_oil_ratio, required := false } ]

end Example

/-! # Theorems -/

/-! ## Lemmas on the layout -/

theorem well_size_acc (phases : List data.rt) (sim_step acc : Nat) (w : Well) :
    well_size phases sim_step acc w = acc + perWellExtensionWidth phases sim_step w := by
  simp only [well_size, perWellExtensionWidth, data.Connection.restart_size]
  omega

theorem foldl_well_size (phases : List data.rt) (sim_step : Nat) (ws : List Well) (acc : Nat) :
    ws.foldl (well_size phases sim_step) acc
      = acc + (ws.map (perWellExtensionWidth phases sim_step)).sum := by
  induction ws generalizing acc with
  | nil => simp
  | cons w ws ih =>
    simp only [List.foldl_cons, List.map_cons, List.sum_cons, ih, well_size_acc]
    omega

theorem expected_xwel_size_eq_sum (phases : List data.rt) (sim_step : Nat) (ws : List Well) :
    expected_xwel_size phases sim_step ws
      = (ws.map (perWellExtensionWidth phases sim_step)).sum := by
  simp [expected_xwel_size, foldl_well_size]

theorem expected_xwel_size_nil (phases : List data.rt) (sim_step : Nat) :
    expected_xwel_size phases sim_step [] = 0 := rfl

theorem expected_xwel_size_cons (phases : List data.rt) (sim_step : Nat) (w : Well)
    (ws : List Well) :
    expected_xwel_size phases sim_step (w :: ws)
      = perWellExtensionWidth phases sim_step w + expected_xwel_size phases sim_step ws := by
  simp [expected_xwel_size_eq_sum]

theorem expected_xwel_size_append (phases : List data.rt) (sim_step : Nat) (ws vs : List Well) :
    expected_xwel_size phases sim_step (ws ++ vs)
      = expected_xwel_size phases sim_step ws + expected_xwel_size phases sim_step vs := by
  simp [expected_xwel_size_eq_sum]

/-! ## Lemmas on `serialize_OPM_XWEL` -/

section SerializeLemmas

variable {D : Type}

theorem pushRates_length (rates : data.Rates D) (phases : List data.rt) (rs : List D)
    (h : pushRates rates phases = .ok rs) : rs.length = phases.length := by
  induction phases generalizing rs with
  | nil =>
    simp only [pushRates, Except.ok.injEq] at h
    simp [← h]
  | cons p ps ih =>
    simp only [pushRates] at h
    cases hg : rates.get p with
    | error e => simp [hg, bind, Except.bind] at h
    | ok x =>
      cases hr : pushRates rates ps with
      | error e => simp [hg, hr, bind, Except.bind] at h
      | ok xs =>
        simp only [hg, hr, bind, Except.bind, pure, Except.pure, Except.ok.injEq] at h
        simp [← h, ih xs hr]

theorem pushRates_ok (rates : data.Rates D) (phases : List data.rt)
    (h : ∀ p ∈ phases, rates.has p = true) : ∃ rs, pushRates rates phases = .ok rs := by
  induction phases with
  | nil => exact ⟨[], rfl⟩
  | cons p ps ih =>
    obtain ⟨xs, hxs⟩ := ih (fun q hq => h q (List.mem_cons_of_mem _ hq))
    have hp := h p (List.mem_cons_self _ _)
    simp only [data.Rates.has] at hp
    obtain ⟨x, hx⟩ := Option.isSome_iff_exists.mp hp
    refine ⟨x :: xs, ?_⟩
    simp [pushRates, data.Rates.get, hx, hxs, bind, Except.bind, pure, Except.pure]

variable [Zero D]

theorem xwelConnection_length (well : data.Well D) (phases : List data.rt) (grid : EclipseGrid)
    (sc : Connection) (seg : List D) (h : xwelConnection well phases grid sc = .ok seg) :
    seg.length = phases.length + 2 := by
  unfold xwelConnection at h
  simp only [data.Connection.restart_size] at h
  split at h
  · simp only [Except.ok.injEq] at h
    simp [← h]
  · split at h
    · simp only [Except.ok.injEq] at h
      simp [← h]
    · rename_i connection _
      cases hr : pushRates connection.rates phases with
      | error e => simp [hr, bind, Except.bind] at h
      | ok rs =>
        simp only [hr, bind, Except.bind, pure, Except.pure, Except.ok.injEq] at h
        simp [← h, pushRates_length _ _ _ hr]

theorem xwelConnections_length (well : data.Well D) (phases : List data.rt) (grid : EclipseGrid)
    (scs : List Connection) (seg : List D) (h : xwelConnections well phases grid scs = .ok seg) :
    seg.length = scs.length * (phases.length + 2) := by
  induction scs generalizing seg with
  | nil =>
    simp only [xwelConnections, Except.ok.injEq] at h
    simp [← h]
  | cons sc scs ih =>
    simp only [xwelConnections] at h
    cases hc : xwelConnection well phases grid sc with
    | error e => simp [hc, bind, Except.bind] at h
    | ok s1 =>
      cases hr : xwelConnections well phases grid scs with
      | error e => simp [hc, hr, bind, Except.bind] at h
      | ok s2 =>
        simp only [hc, hr, bind, Except.bind, pure, Except.pure, Except.ok.injEq] at h
        simp only [← h, List.length_append, xwelConnection_length _ _ _ _ _ hc, ih s2 hr,
          List.length_cons]
        ring

theorem xwelWell_length (wells : data.Wells D) (sim_step : Nat) (phases : List data.rt)
    (grid : EclipseGrid) (w : Well) (seg : List D)
    (h : xwelWell wells sim_step phases grid w = .ok seg) :
    seg.length = perWellExtensionWidth phases sim_step w := by
  unfold xwelWell at h
  simp only [data.Connection.restart_size] at h
  split at h
  · simp only [Except.ok.injEq] at h
    simp only [← h, List.length_replicate, perWellExtensionWidth]
    omega
  · cases ha : wells.at_ w.name with
    | error e => simp [ha, bind, Except.bind] at h
    | ok well =>
      cases hr : pushRates well.rates phases with
      | error e => simp [ha, hr, bind, Except.bind] at h
      | ok rs =>
        cases hc : xwelConnections well phases grid (w.getConnections sim_step) with
        | error e => simp [ha, hr, hc, bind, Except.bind] at h
        | ok cs =>
          simp only [ha, hr, hc, bind, Except.bind, pure, Except.pure, Except.ok.injEq] at h
          simp only [← h, List.length_cons, List.length_append, pushRates_length _ _ _ hr,
            xwelConnections_length _ _ _ _ _ hc, perWellExtensionWidth]
          omega

theorem xwelLoop_acc (wells : data.Wells D) (sim_step : Nat) (phases : List data.rt)
    (grid : EclipseGrid) (ws : List Well) (acc : List D) :
    xwelLoop wells sim_step phases grid ws acc
      = (xwelLoop wells sim_step phases grid ws []).map (acc ++ ·) := by
  induction ws generalizing acc with
  | nil => simp [xwelLoop, Except.map]
  | cons w ws ih =>
    simp only [xwelLoop]
    cases hw : xwelWell wells sim_step phases grid w with
    | error e => simp [bind, Except.bind, Except.map]
    | ok seg =>
      simp only [bind, Except.bind, List.nil_append]
      rw [ih (acc ++ seg), ih seg]
      cases xwelLoop wells sim_step phases grid ws [] with
      | error e => simp [Except.map]
      | ok t => simp [Except.map]

theorem xwelLoop_cons_ok (wells : data.Wells D) (sim_step : Nat) (phases : List data.rt)
    (grid : EclipseGrid) (w : Well) (ws : List Well) (xs : List D) :
    xwelLoop wells sim_step phases grid (w :: ws) [] = .ok xs
      ↔ ∃ seg rest, xwelWell wells sim_step phases grid w = .ok seg
          ∧ xwelLoop wells sim_step phases grid ws [] = .ok rest ∧ xs = seg ++ rest := by
  simp only [xwelLoop, List.nil_append]
  cases hw : xwelWell wells sim_step phases grid w with
  | error e => simp [bind, Except.bind]
  | ok seg =>
    simp only [bind, Except.bind]
    rw [xwelLoop_acc]
    cases hr : xwelLoop wells sim_step phases grid ws [] with
    | error e => simp [Except.map]
    | ok t =>
      simp only [Except.map, Except.ok.injEq, exists_and_left, exists_eq_left']
      exact eq_comm

theorem xwelLoop_length (wells : data.Wells D) (sim_step : Nat) (phases : List data.rt)
    (grid : EclipseGrid) (ws : List Well) (xs : List D)
    (h : xwelLoop wells sim_step phases grid ws [] = .ok xs) :
    xs.length = expected_xwel_size phases sim_step ws := by
  induction ws generalizing xs with
  | nil =>
    simp only [xwelLoop, Except.ok.injEq] at h
    simp [← h, expected_xwel_size_nil]
  | cons w ws ih =>
    obtain ⟨seg, rest, hseg, hrest, rfl⟩ := (xwelLoop_cons_ok _ _ _ _ _ _ _).mp h
    simp [expected_xwel_size_cons, xwelWell_length _ _ _ _ _ _ hseg, ih rest hrest]

theorem xwelLoop_append_ok (wells : data.Wells D) (sim_step : Nat) (phases : List data.rt)
    (grid : EclipseGrid) (pre post : List Well) (xs : List D) :
    xwelLoop wells sim_step phases grid (pre ++ post) [] = .ok xs
      ↔ ∃ a b, xwelLoop wells sim_step phases grid pre [] = .ok a
          ∧ xwelLoop wells sim_step phases grid post [] = .ok b ∧ xs = a ++ b := by
  induction pre generalizing xs with
  | nil => simp [xwelLoop]
  | cons w pre ih =>
    simp only [List.cons_append, xwelLoop_cons_ok, ih]
    constructor
    · rintro ⟨seg, rest, hseg, ⟨a, b, ha, hb, rfl⟩, rfl⟩
      exact ⟨seg ++ a, b, ⟨seg, a, hseg, ha, rfl⟩, hb, by simp⟩
    · rintro ⟨a', b, ⟨seg, a, hseg, ha, rfl⟩, hb, rfl⟩
      exact ⟨seg, a ++ b, hseg, ⟨a, b, ha, hb, rfl⟩, by simp⟩

/-- The output of the well loop on `pre ++ w :: post` is the output on `pre`,
of length `expected_xwel_size pre`, followed by the segment of `w` and by the
output on `post`. -/
theorem xwelLoop_split (wells : data.Wells D) (sim_step : Nat) (phases : List data.rt)
    (grid : EclipseGrid) (pre post : List Well) (w : Well) (xs : List D)
    (h : xwelLoop wells sim_step phases grid (pre ++ w :: post) [] = .ok xs) :
    ∃ a seg b, xwelLoop wells sim_step phases grid pre [] = .ok a
      ∧ xwelWell wells sim_step phases grid w = .ok seg
      ∧ xwelLoop wells sim_step phases grid post [] = .ok b
      ∧ xs = a ++ (seg ++ b)
      ∧ a.length = expected_xwel_size phases sim_step pre
      ∧ seg.length = perWellExtensionWidth phases sim_step w := by
  obtain ⟨a, r, ha, hr, rfl⟩ := (xwelLoop_append_ok _ _ _ _ _ _ _).mp h
  obtain ⟨seg, b, hseg, hb, rfl⟩ := (xwelLoop_cons_ok _ _ _ _ _ _ _).mp hr
  exact ⟨a, seg, b, ha, hseg, hb, rfl, xwelLoop_length _ _ _ _ _ _ ha,
    xwelWell_length _ _ _ _ _ _ hseg⟩

theorem xwelConnections_cons_ok (well : data.Well D) (phases : List data.rt) (grid : EclipseGrid)
    (sc : Connection) (scs : List Connection) (xs : List D) :
    xwelConnections well phases grid (sc :: scs) = .ok xs
      ↔ ∃ seg rest, xwelConnection well phases grid sc = .ok seg
          ∧ xwelConnections well phases grid scs = .ok rest ∧ xs = seg ++ rest := by
  simp only [xwelConnections]
  cases hc : xwelConnection well phases grid sc with
  | error e => simp [bind, Except.bind]
  | ok seg =>
    cases hr : xwelConnections well phases grid scs with
    | error e => simp [bind, Except.bind]
    | ok t =>
      simp only [bind, Except.bind, pure, Except.pure, Except.ok.injEq, exists_and_left,
        exists_eq_left']
      exact eq_comm

theorem xwelConnections_split (well : data.Well D) (phases : List data.rt) (grid : EclipseGrid)
    (cpre cpost : List Connection) (sc : Connection) (xs : List D)
    (h : xwelConnections well phases grid (cpre ++ sc :: cpost) = .ok xs) :
    ∃ a seg b, xwelConnections well phases grid cpre = .ok a
      ∧ xwelConnection well phases grid sc = .ok seg
      ∧ xwelConnections well phases grid cpost = .ok b
      ∧ xs = a ++ (seg ++ b)
      ∧ a.length = cpre.length * (phases.length + 2)
      ∧ seg.length = phases.length + 2 := by
  induction cpre generalizing xs with
  | nil =>
    obtain ⟨seg, b, hseg, hb, rfl⟩ := (xwelConnections_cons_ok _ _ _ _ _ _).mp h
    exact ⟨[], seg, b, rfl, hseg, hb, rfl, by simp, xwelConnection_length _ _ _ _ _ hseg⟩
  | cons c cpre ih =>
    obtain ⟨s0, r, hs0, hr, rfl⟩ := (xwelConnections_cons_ok _ _ _ _ _ _).mp h
    obtain ⟨a, seg, b, ha, hseg, hb, rfl, hla, hls⟩ := ih r hr
    refine ⟨s0 ++ a, seg, b, ?_, hseg, hb, by simp, ?_, hls⟩
    · exact (xwelConnections_cons_ok _ _ _ _ _ _).mpr ⟨s0, a, hs0, ha, rfl⟩
    · simp only [List.length_append, xwelConnection_length _ _ _ _ _ hs0, hla, List.length_cons]
      ring

theorem xwelConnection_ok (well : data.Well D) (phases : List data.rt) (grid : EclipseGrid)
    (sc : Connection) (h : ∀ c ∈ well.connections, ∀ p ∈ phases, c.rates.has p = true) :
    ∃ seg, xwelConnection well phases grid sc = .ok seg := by
  unfold xwelConnection
  simp only
  split
  · exact ⟨_, rfl⟩
  · split
    · exact ⟨_, rfl⟩
    · rename_i connection hfind
      obtain ⟨rs, hrs⟩ := pushRates_ok connection.rates phases
        (h connection (List.mem_of_find?_eq_some hfind))
      exact ⟨connection.pressure :: connection.reservoir_rate :: rs,
        by simp [hrs, bind, Except.bind, pure, Except.pure]⟩

theorem xwelConnections_ok (well : data.Well D) (phases : List data.rt) (grid : EclipseGrid)
    (scs : List Connection) (h : ∀ c ∈ well.connections, ∀ p ∈ phases, c.rates.has p = true) :
    ∃ seg, xwelConnections well phases grid scs = .ok seg := by
  induction scs with
  | nil => exact ⟨[], rfl⟩
  | cons sc scs ih =>
    obtain ⟨s0, hs0⟩ := xwelConnection_ok well phases grid sc h
    obtain ⟨r, hr⟩ := ih
    exact ⟨s0 ++ r, (xwelConnections_cons_ok _ _ _ _ _ _).mpr ⟨s0, r, hs0, hr, rfl⟩⟩

theorem xwelWell_absent_or_shut (wells : data.Wells D) (sim_step : Nat) (phases : List data.rt)
    (grid : EclipseGrid) (w : Well)
    (hw : wells w.name = none ∨ w.getStatus sim_step = WellCommon.StatusEnum.SHUT) :
    xwelWell wells sim_step phases grid w
      = .ok (List.replicate (perWellExtensionWidth phases sim_step w) 0) := by
  have hc : wells.count w.name = 0 ∨ w.getStatus sim_step = WellCommon.StatusEnum.SHUT := by
    rcases hw with hw | hw
    · left; simp [data.Wells.count, hw]
    · right; exact hw
  unfold xwelWell
  rw [if_pos hc]
  simp only [perWellExtensionWidth, data.Connection.restart_size]
  congr 2
  omega

theorem xwelWell_live (wells : data.Wells D) (sim_step : Nat) (phases : List data.rt)
    (grid : EclipseGrid) (w : Well) (well : data.Well D) (hwell : wells w.name = some well)
    (hst : w.getStatus sim_step ≠ WellCommon.StatusEnum.SHUT) :
    xwelWell wells sim_step phases grid w = (do
      let rs ← pushRates well.rates phases
      let cs ← xwelConnections well phases grid (w.getConnections sim_step)
      pure (well.bhp :: well.temperature :: rs ++ cs)) := by
  have hc : ¬ (wells.count w.name = 0 ∨ w.getStatus sim_step = WellCommon.StatusEnum.SHUT) := by
    simp [data.Wells.count, hwell, hst]
  unfold xwelWell
  rw [if_neg hc]
  simp [data.Wells.at_, hwell, bind, Except.bind]

theorem xwelWell_ok (wells : data.Wells D) (sim_step : Nat) (phases : List data.rt)
    (grid : EclipseGrid) (w : Well)
    (h : w.getStatus sim_step ≠ WellCommon.StatusEnum.SHUT →
      ∀ well, wells w.name = some well →
        (∀ p ∈ phases, well.rates.has p = true)
          ∧ ∀ c ∈ well.connections, ∀ p ∈ phases, c.rates.has p = true) :
    ∃ seg, xwelWell wells sim_step phases grid w = .ok seg := by
  by_cases hst : w.getStatus sim_step = WellCommon.StatusEnum.SHUT
  · exact ⟨_, xwelWell_absent_or_shut wells sim_step phases grid w (Or.inr hst)⟩
  · cases hwell : wells w.name with
    | none => exact ⟨_, xwelWell_absent_or_shut wells sim_step phases grid w (Or.inl hwell)⟩
    | some well =>
      obtain ⟨hr, hc⟩ := h hst well hwell
      obtain ⟨rs, hrs⟩ := pushRates_ok well.rates phases hr
      obtain ⟨cs, hcs⟩ := xwelConnections_ok well phases grid (w.getConnections sim_step) hc
      rw [xwelWell_live wells sim_step phases grid w well hwell hst]
      exact ⟨well.bhp :: well.temperature :: rs ++ cs,
        by simp [hrs, hcs, bind, Except.bind, pure, Except.pure]⟩

/-- With the rates it reads initialised, `serialize_OPM_XWEL` returns. -/
theorem serialize_OPM_XWEL_ok (wells : data.Wells D) (sim_step : Nat) (sched_wells : List Well)
    (phase_spec : Phases) (grid : EclipseGrid)
    (h : RatesInitialized wells sim_step (activeRates phase_spec) sched_wells) :
    ∃ xwel, serialize_OPM_XWEL wells sim_step sched_wells phase_spec grid = .ok xwel := by
  unfold serialize_OPM_XWEL
  induction sched_wells with
  | nil => exact ⟨[], rfl⟩
  | cons w ws ih =>
    obtain ⟨seg, hseg⟩ := xwelWell_ok wells sim_step (activeRates phase_spec) grid w
      (h w (List.mem_cons_self _ _))
    obtain ⟨r, hr⟩ := ih (fun sw hsw => h sw (List.mem_cons_of_mem _ hsw))
    exact ⟨seg ++ r, (xwelLoop_cons_ok _ _ _ _ _ _ _).mpr ⟨seg, r, hseg, hr, rfl⟩⟩

end SerializeLemmas

/-! ## Theorems on the width and the zero-fill of `OPM_XWEL` -/

section SerializeTheorems

variable {D : Type} [Zero D]

/-- C2 (extension-array width): for every wells map, scheduled well list,
phase set and grid, every array that `serialize_OPM_XWEL` returns has length
the sum over the scheduled wells of `2 + |P| + connectionCount * (|P| + 2)`,
which is the `expected_xwel_size` of `restore_wells`; and it does return an
array when the rates it reads are initialised. -/
theorem serialize_OPM_XWEL_width (wells : data.Wells D) (sim_step : Nat)
    (sched_wells : List Well) (phase_spec : Phases) (grid : EclipseGrid) :
    (∀ xwel, serialize_OPM_XWEL wells sim_step sched_wells phase_spec grid = .ok xwel →
        xwel.length
            = (sched_wells.map fun w => 2 + (activeRates phase_spec).length
                + (w.getConnections sim_step).length * ((activeRates phase_spec).length + 2)).sum
          ∧ xwel.length = expected_xwel_size (activeRates phase_spec) sim_step sched_wells)
      ∧ (RatesInitialized wells sim_step (activeRates phase_spec) sched_wells →
          ∃ xwel, serialize_OPM_XWEL wells sim_step sched_wells phase_spec grid = .ok xwel) := by
  refine ⟨fun xwel h => ?_, serialize_OPM_XWEL_ok wells sim_step sched_wells phase_spec grid⟩
  have hl := xwelLoop_length _ _ _ _ _ _ h
  refine ⟨?_, hl⟩
  rw [hl, expected_xwel_size_eq_sum]
  rfl

/-- C4 (zero-fill on write): for a scheduled well that is absent from the wells
map or SHUT at the step, the slice of every array returned by
`serialize_OPM_XWEL` that starts at the sum of the widths of the preceding
scheduled wells and has the width `2 + |P| + connectionCount * (|P| + 2)` of
the well lies inside the array and holds only zeros; and an array is returned
when the rates read are initialised. -/
theorem serialize_OPM_XWEL_zero_fill (wells : data.Wells D) (sim_step : Nat)
    (pre post : List Well) (w : Well) (phase_spec : Phases) (grid : EclipseGrid)
    (hw : wells w.name = none ∨ w.getStatus sim_step = WellCommon.StatusEnum.SHUT) :
    (∀ xwel, serialize_OPM_XWEL wells sim_step (pre ++ w :: post) phase_spec grid = .ok xwel →
        ((xwel.drop (pre.map fun v => 2 + (activeRates phase_spec).length
              + (v.getConnections sim_step).length * ((activeRates phase_spec).length + 2)).sum).take
            (2 + (activeRates phase_spec).length
              + (w.getConnections sim_step).length * ((activeRates phase_spec).length + 2)))
          = List.replicate (2 + (activeRates phase_spec).length
              + (w.getConnections sim_step).length * ((activeRates phase_spec).length + 2)) 0)
      ∧ (RatesInitialized wells sim_step (activeRates phase_spec) (pre ++ w :: post) →
          ∃ xwel, serialize_OPM_XWEL wells sim_step (pre ++ w :: post) phase_spec grid
            = .ok xwel) := by
  refine ⟨fun xwel h => ?_, serialize_OPM_XWEL_ok wells sim_step _ phase_spec grid⟩
  obtain ⟨a, seg, b, _, hseg, _, rfl, hla, _⟩ := xwelLoop_split _ _ _ _ _ _ _ _ h
  rw [xwelWell_absent_or_shut wells sim_step _ grid w hw] at hseg
  simp only [Except.ok.injEq] at hseg
  have hstart : (pre.map fun v => 2 + (activeRates phase_spec).length
      + (v.getConnections sim_step).length * ((activeRates phase_spec).length + 2)).sum
      = a.length := by
    rw [hla, expected_xwel_size_eq_sum]; rfl
  rw [hstart, List.drop_left, ← hseg]
  simp [perWellExtensionWidth]

/-- C6 (inactive-cell zero-fill on write): for a scheduled well that is in the
wells map and not SHUT, and a scheduled connection of it whose cell is inactive
or whose state is SHUT, the `|P| + 2` elements at the position of that
connection in every array returned by `serialize_OPM_XWEL` are zeros, whatever
connection entries the map holds for the well; and an array is returned when
the rates read are initialised. -/
theorem serialize_OPM_XWEL_connection_zero_fill (wells : data.Wells D) (sim_step : Nat)
    (pre post : List Well) (w : Well) (phase_spec : Phases) (grid : EclipseGrid)
    (well : data.Well D) (cpre cpost : List Connection) (sc : Connection)
    (hwell : wells w.name = some well)
    (hst : w.getStatus sim_step ≠ WellCommon.StatusEnum.SHUT)
    (hconns : w.getConnections sim_step = cpre ++ sc :: cpost)
    (hsc : grid.cellActive sc.getI sc.getJ sc.getK = false
      ∨ sc.state = WellCompletion.StateEnum.SHUT) :
    (∀ xwel, serialize_OPM_XWEL wells sim_step (pre ++ w :: post) phase_spec grid = .ok xwel →
        ((xwel.drop ((pre.map fun v => 2 + (activeRates phase_spec).length
              + (v.getConnections sim_step).length * ((activeRates phase_spec).length + 2)).sum
            + (2 + (activeRates phase_spec).length)
            + cpre.length * ((activeRates phase_spec).length + 2))).take
            ((activeRates phase_spec).length + 2))
          = List.replicate ((activeRates phase_spec).length + 2) 0)
      ∧ (RatesInitialized wells sim_step (activeRates phase_spec) (pre ++ w :: post) →
          ∃ xwel, serialize_OPM_XWEL wells sim_step (pre ++ w :: post) phase_spec grid
            = .ok xwel) := by
  refine ⟨fun xwel h => ?_, serialize_OPM_XWEL_ok wells sim_step _ phase_spec grid⟩
  obtain ⟨a, seg, b, _, hseg, _, rfl, hla, _⟩ := xwelLoop_split _ _ _ _ _ _ _ _ h
  rw [xwelWell_live wells sim_step _ grid w well hwell hst, hconns] at hseg
  cases hr : pushRates well.rates (activeRates phase_spec) with
  | error e => simp [hr, bind, Except.bind] at hseg
  | ok rs =>
    cases hc : xwelConnections well (activeRates phase_spec) grid (cpre ++ sc :: cpost) with
    | error e => simp [hr, hc, bind, Except.bind] at hseg
    | ok cs =>
      simp only [hr, hc, bind, Except.bind, pure, Except.pure, Except.ok.injEq] at hseg
      obtain ⟨ca, cseg, cb, _, hcseg, _, rfl, hlca, _⟩ := xwelConnections_split _ _ _ _ _ _ _ hc
      have hz : cseg = List.replicate ((activeRates phase_spec).length + 2) 0 := by
        unfold xwelConnection at hcseg
        simp only [if_pos hsc, Except.ok.injEq, data.Connection.restart_size] at hcseg
        exact hcseg.symm
      have hstart : (pre.map fun v => 2 + (activeRates phase_spec).length
          + (v.getConnections sim_step).length * ((activeRates phase_spec).length + 2)).sum
          = a.length := by
        rw [hla, expected_xwel_size_eq_sum]; rfl
      have hrs := pushRates_length _ _ _ hr
      have hsplit : a ++ (seg ++ b)
          = (a ++ (well.bhp :: well.temperature :: rs) ++ ca) ++ (cseg ++ (cb ++ b)) := by
        rw [← hseg]; simp
      have hlen : (a ++ (well.bhp :: well.temperature :: rs) ++ ca).length
          = a.length + (2 + (activeRates phase_spec).length)
            + cpre.length * ((activeRates phase_spec).length + 2) := by
        simp only [List.length_append, List.length_cons, hrs, hlca]; omega
      rw [hstart, hsplit, ← hlen, List.drop_left, hz]
      simp

/-- Witness of C2: the concrete case serialises to 28 elements, 20 for the
producer and 8 for the injector. -/
theorem serialize_OPM_XWEL_width_witness :
    ∃ xwel : List Int,
      serialize_OPM_XWEL Example.wells 0 (Example.schedule.getWells 0) Example.phases
          Example.grid = .ok xwel
        ∧ xwel.length = 28
        ∧ expected_xwel_size (activeRates Example.phases) 0 (Example.schedule.getWells 0) = 28 :=
  ⟨[100, 50, 10, 20, 30, 4, 1, 2, 0, 0, 0, 0, 0, 0, 0, 0, 31, 7, 5, 6,
      200, 60, -8, 0, 35, -9, -8, 0], rfl,
    ((serialize_OPM_XWEL_width Example.wells 0 (Example.schedule.getWells 0) Example.phases
      Example.grid).1 _ rfl).1, rfl⟩

/-- Witness of C4: at step 1 the SHUT well, absent from the map, owns the 8
elements from offset 20, all zero. -/
theorem serialize_OPM_XWEL_zero_fill_witness :
    ∃ xwel : List Int,
      serialize_OPM_XWEL Example.wells 1
          ([Example.producer] ++ Example.shutIn :: [Example.injector]) Example.phases
          Example.grid = .ok xwel
        ∧ (xwel.drop 20).take 8 = List.replicate 8 0 :=
  ⟨[100, 50, 10, 20, 30, 4, 1, 2, 0, 0, 0, 0, 0, 0, 0, 0, 31, 7, 5, 6,
      0, 0, 0, 0, 0, 0, 0, 0, 200, 60, -8, 0, 35, -9, -8, 0], rfl,
    (serialize_OPM_XWEL_zero_fill Example.wells 1 [Example.producer] [Example.injector]
      Example.shutIn Example.phases Example.grid (Or.inr rfl)).1 _ rfl⟩

/-- Witness of C6: the second connection of the producer is SHUT; its 4
elements, from offset 8, are zero. -/
theorem serialize_OPM_XWEL_connection_zero_fill_witness :
    ∃ xwel : List Int,
      serialize_OPM_XWEL Example.wells 0 ([] ++ Example.producer :: [Example.injector])
          Example.phases Example.grid = .ok xwel
        ∧ (xwel.drop 8).take 4 = List.replicate 4 0 :=
  ⟨[100, 50, 10, 20, 30, 4, 1, 2, 0, 0, 0, 0, 0, 0, 0, 0, 31, 7, 5, 6,
      200, 60, -8, 0, 35, -9, -8, 0], rfl,
    (serialize_OPM_XWEL_connection_zero_fill Example.wells 0 [] [Example.injector]
      Example.producer Example.phases Example.grid Example.producerData
      [{ getI := 0, getJ := 0, getK := 0, state := .OPEN, dir := 3 }]
      [{ getI := 0, getJ := 0, getK := 2, state := .OPEN, dir := 3 },
       { getI := 1, getJ := 0, getK := 1, state := .OPEN, dir := 3 }]
      { getI := 0, getJ := 0, getK := 1, state := .SHUT, dir := 3 }
      rfl (by decide) rfl (Or.inr rfl)).1 _ rfl⟩

end SerializeTheorems

/-! ## Lemmas on `restore_wells` -/

section RestoreLemmas

variable {D : Type}

theorem readAt_of_lt {α : Type} (xs : List α) (i : Nat) (d : α) (h : i < xs.length) :
    readAt xs i = .ok (xs.getD i d) := by
  simp [readAt, List.getD_eq_getElem?_getD, List.getElem?_eq_getElem h]

theorem drop_eq_getD_cons {α : Type} (xs : List α) (i : Nat) (d : α) (h : i < xs.length) :
    xs.drop i = xs.getD i d :: xs.drop (i + 1) := by
  rw [List.drop_eq_getElem_cons h]
  simp [List.getD_eq_getElem?_getD, List.getElem?_eq_getElem h]

theorem getD_drop {α : Type} (xs : List α) (i j : Nat) (d : α) :
    (xs.drop i).getD j d = xs.getD (i + j) d := by
  simp [List.getD_eq_getElem?_getD, List.getElem?_drop]

theorem restoreRates_eq (xs : List D) (phases : List data.rt) (rates : data.Rates D) (cur : Nat)
    (h : cur + phases.length ≤ xs.length) :
    restoreRates xs phases rates cur
      = .ok (setRates rates phases (xs.drop cur), cur + phases.length) := by
  induction phases generalizing rates cur with
  | nil => cases hd : xs.drop cur <;> simp [restoreRates, setRates]
  | cons p ps ih =>
    simp only [List.length_cons] at h
    have hlt : cur < xs.length := by omega
    cases xs with
    | nil => simp at hlt
    | cons x0 xt =>
      have hd := drop_eq_getD_cons (x0 :: xt) cur x0 hlt
      simp only [restoreRates, readAt_of_lt (x0 :: xt) cur x0 hlt, bind, Except.bind]
      rw [ih _ (cur + 1) (by omega), hd]
      simp only [setRates, List.length_cons]
      congr 2
      omega

theorem restoreRates_cursor (xs : List D) (phases : List data.rt) (rates : data.Rates D)
    (cur : Nat) (r : data.Rates D × Nat) (h : restoreRates xs phases rates cur = .ok r) :
    r.2 = cur + phases.length := by
  induction phases generalizing rates cur with
  | nil =>
    simp only [restoreRates, Except.ok.injEq] at h
    simp [← h]
  | cons p ps ih =>
    simp only [restoreRates] at h
    cases hr : readAt xs cur with
    | error e => simp [hr, bind, Except.bind] at h
    | ok x =>
      simp only [hr, bind, Except.bind] at h
      rw [ih _ _ h, List.length_cons]
      omega

theorem restoreConnections_cursor (xs : List D) (phases : List data.rt) (grid : EclipseGrid)
    (scs : List Connection) (acc : List (data.Connection D)) (cur : Nat)
    (r : List (data.Connection D) × Nat)
    (h : restoreConnections xs phases grid scs acc cur = .ok r) :
    r.2 = cur + scs.length * (phases.length + 2) := by
  induction scs generalizing acc cur with
  | nil =>
    simp only [restoreConnections, Except.ok.injEq] at h
    simp [← h]
  | cons sc scs ih =>
    simp only [restoreConnections, data.Connection.restart_size] at h
    split at h
    · rw [ih _ _ h, List.length_cons]
      ring
    · cases hp : readAt xs cur with
      | error e => simp [hp, bind, Except.bind] at h
      | ok x =>
        cases hq : readAt xs (cur + 1) with
        | error e => simp [hp, hq, bind, Except.bind] at h
        | ok y =>
          cases hr : restoreRates xs phases {} (cur + 2) with
          | error e => simp [hp, hq, hr, bind, Except.bind] at h
          | ok rc =>
            simp only [hp, hq, hr, bind, Except.bind] at h
            rw [ih _ _ h, restoreRates_cursor _ _ _ _ _ hr, List.length_cons]
            ring

variable [Zero D]

theorem restoreConnections_eq (xs : List D) (phases : List data.rt) (grid : EclipseGrid)
    (scs : List Connection) (acc : List (data.Connection D)) (cur : Nat)
    (h : cur + scs.length * (phases.length + 2) ≤ xs.length) :
    restoreConnections xs phases grid scs acc cur
      = .ok (acc ++ segmentConnections phases grid scs (xs.drop cur),
          cur + scs.length * (phases.length + 2)) := by
  induction scs generalizing acc cur with
  | nil => simp [restoreConnections, segmentConnections]
  | cons sc scs ih =>
    have hw : cur + (phases.length + 2) + scs.length * (phases.length + 2) ≤ xs.length := by
      simp only [List.length_cons] at h
      calc cur + (phases.length + 2) + scs.length * (phases.length + 2)
          = cur + (scs.length + 1) * (phases.length + 2) := by ring
        _ ≤ xs.length := h
    have hcur : cur + (phases.length + 2) + scs.length * (phases.length + 2)
        = cur + (scs.length + 1) * (phases.length + 2) := by ring
    by_cases hdead : grid.cellActive sc.getI sc.getJ sc.getK = false
        ∨ sc.state = WellCompletion.StateEnum.SHUT
    · simp only [restoreConnections, segmentConnections, if_pos hdead,
        data.Connection.restart_size, List.length_cons]
      rw [show cur + (2 + phases.length) = cur + (phases.length + 2) by omega, ih _ _ hw,
        List.drop_drop, hcur]
    · simp only [restoreConnections, segmentConnections, if_neg hdead, List.length_cons]
      rw [readAt_of_lt xs cur 0 (by omega), readAt_of_lt xs (cur + 1) 0 (by omega),
        restoreRates_eq xs phases _ (cur + 2) (by omega)]
      simp only [bind, Except.bind]
      rw [show cur + 2 + phases.length = cur + (phases.length + 2) by omega, ih _ _ hw,
        List.drop_drop, hcur]
      simp only [segmentConnection, getD_drop, List.drop_drop, Nat.add_zero, List.append_assoc,
        List.singleton_append]

/-- One iteration of the well loop of `restore_wells`, when the arrays are long
enough for it. -/
theorem restoreLoop_cons (xs : List D) (iwel : List Int) (sim_step : Nat)
    (phases : List data.rt) (grid : EclipseGrid) (w : Well) (ws : List Well)
    (st : RestoreState D)
    (hx : st.xwel_cursor + perWellExtensionWidth phases sim_step w ≤ xs.length)
    (hi : st.iwel_cursor < iwel.length) :
    restoreLoop xs iwel sim_step phases grid (w :: ws) st
      = restoreLoop xs iwel sim_step phases grid ws
          { wells := st.wells.insert w.name
              { rates := setRates ((st.wells w.name).getD (data.Well.empty D)).rates phases
                  (xs.drop (st.xwel_cursor + 2)),
                bhp := xs.getD st.xwel_cursor 0,
                temperature := xs.getD (st.xwel_cursor + 1) 0,
                control := iwel.getD st.iwel_cursor 0,
                connections := ((st.wells w.name).getD (data.Well.empty D)).connections
                  ++ segmentConnections phases grid (w.getConnections sim_step)
                      (xs.drop (st.xwel_cursor + 2 + phases.length)) },
            xwel_cursor := st.xwel_cursor + perWellExtensionWidth phases sim_step w,
            iwel_cursor := st.iwel_cursor + 1 } := by
  simp only [perWellExtensionWidth] at hx
  simp only [restoreLoop]
  rw [readAt_of_lt xs st.xwel_cursor 0 (by omega),
    readAt_of_lt xs (st.xwel_cursor + 1) 0 (by omega),
    readAt_of_lt iwel st.iwel_cursor 0 hi,
    restoreRates_eq xs phases _ (st.xwel_cursor + 2) (by omega)]
  simp only [bind, Except.bind]
  rw [restoreConnections_eq xs phases grid _ _ _ (by omega)]
  simp only [perWellExtensionWidth]
  congr 2
  omega

theorem restoreLoop_eq (xs : List D) (iwel : List Int) (sim_step : Nat)
    (phases : List data.rt) (grid : EclipseGrid) (ws : List Well) (st : RestoreState D)
    (hx : st.xwel_cursor + expected_xwel_size phases sim_step ws ≤ xs.length)
    (hi : st.iwel_cursor + ws.length ≤ iwel.length) :
    ∃ st', restoreLoop xs iwel sim_step phases grid ws st = .ok st'
      ∧ st'.xwel_cursor = st.xwel_cursor + expected_xwel_size phases sim_step ws
      ∧ st'.iwel_cursor = st.iwel_cursor + ws.length
      ∧ (∀ n, (∀ v ∈ ws, v.name ≠ n) → st'.wells n = st.wells n)
      ∧ (∀ v ∈ ws, (st'.wells v.name).isSome = true)
      ∧ (∀ pre w post, ws = pre ++ w :: post → (∀ v ∈ pre, v.name ≠ w.name) →
          (∀ v ∈ post, v.name ≠ w.name) → st.wells w.name = none →
          st'.wells w.name = some (segmentWell phases grid (w.getConnections sim_step)
            (iwel.getD (st.iwel_cursor + pre.length) 0)
            (xs.drop (st.xwel_cursor + expected_xwel_size phases sim_step pre)))) := by
  induction ws generalizing st with
  | nil =>
    refine ⟨st, rfl, by simp [expected_xwel_size_nil], by simp, fun _ _ => rfl, ?_, ?_⟩
    · intro v hv; simp at hv
    · intro pre w post h; simp at h
  | cons w0 ws ih =>
    rw [expected_xwel_size_cons] at hx
    simp only [List.length_cons] at hi
    rw [restoreLoop_cons xs iwel sim_step phases grid w0 ws st (by omega) (by omega)]
    obtain ⟨st', hrun, hxc, hic, hkeep, hsome, hat⟩ := ih
      (RestoreState.mk (st.wells.insert w0.name _)
        (st.xwel_cursor + perWellExtensionWidth phases sim_step w0) (st.iwel_cursor + 1))
      (by dsimp only; omega) (by dsimp only; omega)
    dsimp only at hxc hic hkeep hat
    refine ⟨st', hrun, ?_, ?_, ?_, ?_, ?_⟩
    · rw [hxc, expected_xwel_size_cons]; omega
    · rw [hic]; simp only [List.length_cons]; omega
    · intro n hn
      rw [hkeep n (fun v hv => hn v (List.mem_cons_of_mem _ hv))]
      have : n ≠ w0.name := fun h => hn w0 (List.mem_cons_self _ _) h.symm
      simp [data.Wells.insert, this]
    · intro v hv
      rcases List.mem_cons.mp hv with rfl | hv
      · by_cases hin : ∃ u ∈ ws, u.name = v.name
        · obtain ⟨u, hu, hname⟩ := hin
          rw [← hname]; exact hsome u hu
        · rw [hkeep v.name (fun u hu hname => hin ⟨u, hu, hname⟩)]
          simp [data.Wells.insert]
      · exact hsome v hv
    · intro pre w post hsplit hpre hpost hnone
      cases pre with
      | nil =>
        simp only [List.nil_append, List.cons.injEq] at hsplit
        obtain ⟨rfl, rfl⟩ := hsplit
        rw [hkeep w0.name hpost]
        simp only [data.Wells.insert, if_true, hnone, Option.getD_none, data.Well.empty,
          segmentWell, List.length_nil, Nat.add_zero, expected_xwel_size_nil, List.nil_append,
          getD_drop, List.drop_drop, Nat.add_assoc]
      | cons p pre =>
        simp only [List.cons_append, List.cons.injEq] at hsplit
        obtain ⟨rfl, rfl⟩ := hsplit
        have hne : w.name ≠ w0.name := fun h => hpre w0 (List.mem_cons_self _ _) h.symm
        have := hat pre w post rfl (fun v hv => hpre v (List.mem_cons_of_mem _ hv)) hpost
          (by simp [data.Wells.insert, hne, hnone])
        rw [this, expected_xwel_size_cons]
        simp only [List.length_cons]
        rw [show st.iwel_cursor + 1 + pre.length = st.iwel_cursor + (pre.length + 1) by omega,
          show st.xwel_cursor + perWellExtensionWidth phases sim_step w0
              + expected_xwel_size phases sim_step pre
            = st.xwel_cursor + (perWellExtensionWidth phases sim_step w0
              + expected_xwel_size phases sim_step pre) by omega]

/-- When the two size checks pass, `restore_wells` runs to the end: its cursors
finish at the lengths of the two arrays, every scheduled well name has an
entry, and a well whose name no other scheduled well carries is the well read
from its own segment. -/
theorem restore_wells_run_eq (xwel : List D) (iwel : List Int) (sim_step : Nat)
    (es : EclipseState) (grid : EclipseGrid) (schedule : Schedule)
    (hx : xwel.length
      = expected_xwel_size (activeRates es.runspec.phases) sim_step (schedule.getWells sim_step))
    (hi : iwel.length = (schedule.getWells sim_step).length) :
    ∃ st, restore_wells_run xwel iwel sim_step es grid schedule = .ok st
      ∧ st.xwel_cursor = xwel.length
      ∧ st.iwel_cursor = iwel.length
      ∧ (∀ n, (∀ v ∈ schedule.getWells sim_step, v.name ≠ n) → st.wells n = none)
      ∧ (∀ v ∈ schedule.getWells sim_step, (st.wells v.name).isSome = true)
      ∧ (∀ pre w post, schedule.getWells sim_step = pre ++ w :: post →
          (∀ v ∈ pre, v.name ≠ w.name) → (∀ v ∈ post, v.name ≠ w.name) →
          st.wells w.name = some (segmentWell (activeRates es.runspec.phases) grid
            (w.getConnections sim_step) (iwel.getD pre.length 0)
            (xwel.drop (expected_xwel_size (activeRates es.runspec.phases) sim_step pre)))) := by
  obtain ⟨st, hrun, hxc, hic, hkeep, hsome, hat⟩ :=
    restoreLoop_eq xwel iwel sim_step (activeRates es.runspec.phases) grid
      (schedule.getWells sim_step)
      { wells := data.Wells.empty, xwel_cursor := 0, iwel_cursor := 0 }
      (by dsimp only; omega) (by dsimp only; omega)
  dsimp only at hxc hic hkeep hat
  refine ⟨st, ?_, by omega, by omega, hkeep, hsome, ?_⟩
  · simp only [restore_wells_run]
    rw [if_neg (by simpa using hx), if_neg (by simpa using hi)]
    exact hrun
  · intro pre w post hs hpre hpost
    have := hat pre w post hs hpre hpost rfl
    simpa using this

end RestoreLemmas

/-! ## Theorems on the cursors and the size checks of `restore_wells` -/

section RestoreTheorems

variable {D : Type} [Zero D]

/-- C8 (size validation on read): `restore_wells` fails if and only if the
length of `OPM_XWEL` differs from the sum over the scheduled wells of
`2 + |P| + connectionCount * (|P| + 2)` or the length of `OPM_IWEL` differs
from the number of scheduled wells; when both lengths match it returns a wells
map. -/
theorem restore_wells_size_validation (xwel : List D) (iwel : List Int) (sim_step : Nat)
    (es : EclipseState) (grid : EclipseGrid) (schedule : Schedule) :
    ((∃ e, restore_wells xwel iwel sim_step es grid schedule = .error e)
      ↔ (xwel.length
            ≠ ((schedule.getWells sim_step).map fun w =>
                2 + (activeRates es.runspec.phases).length
                  + (w.getConnections sim_step).length
                    * ((activeRates es.runspec.phases).length + 2)).sum
          ∨ iwel.length ≠ (schedule.getWells sim_step).length))
    ∧ ((xwel.length
            = ((schedule.getWells sim_step).map fun w =>
                2 + (activeRates es.runspec.phases).length
                  + (w.getConnections sim_step).length
                    * ((activeRates es.runspec.phases).length + 2)).sum
          ∧ iwel.length = (schedule.getWells sim_step).length)
        → ∃ wells, restore_wells xwel iwel sim_step es grid schedule = .ok wells) := by
  have hsum : ((schedule.getWells sim_step).map fun w =>
      2 + (activeRates es.runspec.phases).length
        + (w.getConnections sim_step).length * ((activeRates es.runspec.phases).length + 2)).sum
      = expected_xwel_size (activeRates es.runspec.phases) sim_step
          (schedule.getWells sim_step) := by
    rw [expected_xwel_size_eq_sum]; rfl
  rw [hsum]
  have hok : xwel.length = expected_xwel_size (activeRates es.runspec.phases) sim_step
        (schedule.getWells sim_step) ∧ iwel.length = (schedule.getWells sim_step).length →
      ∃ wells, restore_wells xwel iwel sim_step es grid schedule = .ok wells := by
    rintro ⟨hx, hi⟩
    obtain ⟨st, hrun, -⟩ := restore_wells_run_eq xwel iwel sim_step es grid schedule hx hi
    exact ⟨st.wells, by simp [restore_wells, hrun, Except.map]⟩
  refine ⟨⟨?_, ?_⟩, hok⟩
  · rintro ⟨e, he⟩
    by_contra hcon
    obtain ⟨wells, hw⟩ := hok ⟨by omega, by omega⟩
    rw [hw] at he
    cases he
  · intro h
    by_cases hx : xwel.length = expected_xwel_size (activeRates es.runspec.phases) sim_step
        (schedule.getWells sim_step)
    · have hi : iwel.length ≠ (schedule.getWells sim_step).length := by
        rcases h with h | h
        · exact absurd hx h
        · exact h
      exact ⟨_, by simp [restore_wells, restore_wells_run, hx, hi, Except.map]; rfl⟩
    · exact ⟨_, by simp [restore_wells, restore_wells_run, hx, Except.map]; rfl⟩

/-- Witness of C8: the arrays of the concrete case are accepted, and an
`OPM_XWEL` array that is one element short is rejected. -/
theorem restore_wells_size_validation_witness :
    (∃ wells, restore_wells
        ([100, 50, 10, 20, 30, 4, 1, 2, 0, 0, 0, 0, 0, 0, 0, 0, 31, 7, 5, 6,
          200, 60, -8, 0, 35, -9, -8, 0] : List Int) [1, 2] 0
        Example.es Example.grid Example.schedule = .ok wells)
    ∧ ∃ e, restore_wells
        ([100, 50, 10, 20, 30, 4, 1, 2, 0, 0, 0, 0, 0, 0, 0, 0, 31, 7, 5, 6,
          200, 60, -8, 0, 35, -9, -8] : List Int) [1, 2] 0
        Example.es Example.grid Example.schedule = .error e :=
  ⟨(restore_wells_size_validation _ [1, 2] 0 Example.es Example.grid Example.schedule).2
      ⟨rfl, rfl⟩,
    (restore_wells_size_validation _ [1, 2] 0 Example.es Example.grid Example.schedule).1.mpr
      (Or.inl (by decide))⟩

end RestoreTheorems

/-! ## Lemmas on the connections read from a segment -/

section SegmentLemmas

variable {D : Type} [Zero D]

theorem materialised_eq_false (grid : EclipseGrid) (sc : Connection) :
    materialised grid sc = false
      ↔ (grid.cellActive sc.getI sc.getJ sc.getK = false
          ∨ sc.state = WellCompletion.StateEnum.SHUT) := by
  simp only [materialised, Bool.and_eq_false_iff, decide_eq_false_iff_not, ne_eq, not_not]

theorem segmentConnections_dead (phases : List data.rt) (grid : EclipseGrid) (sc : Connection)
    (scs : List Connection) (seg : List D) (h : materialised grid sc = false) :
    segmentConnections phases grid (sc :: scs) seg
      = segmentConnections phases grid scs (seg.drop (phases.length + 2)) := by
  simp only [segmentConnections, if_pos ((materialised_eq_false grid sc).mp h)]

theorem segmentConnections_live (phases : List data.rt) (grid : EclipseGrid) (sc : Connection)
    (scs : List Connection) (seg : List D) (h : materialised grid sc = true) :
    segmentConnections phases grid (sc :: scs) seg
      = segmentConnection phases grid sc seg
          :: segmentConnections phases grid scs (seg.drop (phases.length + 2)) := by
  have hn : ¬ (grid.cellActive sc.getI sc.getJ sc.getK = false
      ∨ sc.state = WellCompletion.StateEnum.SHUT) := by
    rw [← materialised_eq_false]; simp [h]
  simp only [segmentConnections, if_neg hn]

theorem segmentConnections_map_index (phases : List data.rt) (grid : EclipseGrid)
    (scs : List Connection) (seg : List D) :
    (segmentConnections phases grid scs seg).map (·.index)
      = (scs.filter (materialised grid)).map
          (fun sc => grid.activeIndex sc.getI sc.getJ sc.getK) := by
  induction scs generalizing seg with
  | nil => simp [segmentConnections]
  | cons sc scs ih =>
    cases h : materialised grid sc with
    | false => rw [segmentConnections_dead _ _ _ _ _ h, ih, List.filter_cons_of_neg (by simp [h])]
    | true =>
      rw [segmentConnections_live _ _ _ _ _ h, List.filter_cons_of_pos h]
      simp [ih, segmentConnection]

theorem segmentConnections_append (phases : List data.rt) (grid : EclipseGrid)
    (cpre cpost : List Connection) (seg : List D) :
    segmentConnections phases grid (cpre ++ cpost) seg
      = segmentConnections phases grid cpre seg
          ++ segmentConnections phases grid cpost
              (seg.drop (cpre.length * (phases.length + 2))) := by
  induction cpre generalizing seg with
  | nil => simp [segmentConnections]
  | cons sc scs ih =>
    have hd : List.drop (scs.length * (phases.length + 2)) (List.drop (phases.length + 2) seg)
        = List.drop ((scs.length + 1) * (phases.length + 2)) seg := by
      rw [List.drop_drop]; congr 1; ring
    cases h : materialised grid sc with
    | false =>
      rw [List.cons_append, segmentConnections_dead _ _ _ _ _ h,
        segmentConnections_dead _ _ _ _ _ h, ih, List.length_cons, hd]
    | true =>
      rw [List.cons_append, segmentConnections_live _ _ _ _ _ h,
        segmentConnections_live _ _ _ _ _ h, ih, List.length_cons, hd, List.cons_append]

/-- The entry of a materialised scheduled connection: it stands at the position
given by the number of materialised connections before it, and is read from
the segment of the connection. -/
theorem segmentConnections_getElem? (phases : List data.rt) (grid : EclipseGrid)
    (cpre cpost : List Connection) (sc : Connection) (seg : List D)
    (h : materialised grid sc = true) :
    (segmentConnections phases grid (cpre ++ sc :: cpost) seg)[
        (cpre.filter (materialised grid)).length]?
      = some (segmentConnection phases grid sc
          (seg.drop (cpre.length * (phases.length + 2)))) := by
  have hlen : (segmentConnections phases grid cpre seg).length
      = (cpre.filter (materialised grid)).length := by
    have := congrArg List.length (segmentConnections_map_index phases grid cpre seg)
    simpa using this
  rw [segmentConnections_append, segmentConnections_live _ _ _ _ _ h, ← hlen,
    List.getElem?_append_right (Nat.le_refl _)]
  simp

end SegmentLemmas

/-! ## Lemmas on reading back what `serialize_OPM_XWEL` wrote -/

section RoundTripLemmas

variable {D : Type}

theorem rates_ext_value {r s : data.Rates D} (h : ∀ q, r.value q = s.value q) : r = s := by
  cases r
  cases s
  have h1 := h .wat
  have h2 := h .oil
  have h3 := h .gas
  simp only [data.Rates.value] at h1 h2 h3
  simp [h1, h2, h3]

theorem rates_value_set (r : data.Rates D) (p q : data.rt) (x : D) :
    (r.set p x).value q = if q = p then some x else r.value q := by
  cases p <;> cases q <;> simp [data.Rates.set, data.Rates.value]

theorem pushRates_cons_ok (r : data.Rates D) (p : data.rt) (ps : List data.rt) (rs : List D) :
    pushRates r (p :: ps) = .ok rs
      ↔ ∃ x rest, r.value p = some x ∧ pushRates r ps = .ok rest ∧ rs = x :: rest := by
  simp only [pushRates, data.Rates.get]
  cases hv : r.value p with
  | none => simp [bind, Except.bind]
  | some x =>
    cases hr : pushRates r ps with
    | error e => simp [bind, Except.bind]
    | ok rest =>
      simp only [bind, Except.bind, pure, Except.pure, Except.ok.injEq, Option.some.injEq,
        exists_and_left, exists_eq_left']
      exact eq_comm

theorem setRates_append (r : data.Rates D) (phases : List data.rt) (a t : List D)
    (h : phases.length ≤ a.length) : setRates r phases (a ++ t) = setRates r phases a := by
  induction phases generalizing r a with
  | nil => cases a <;> cases t <;> simp [setRates]
  | cons p ps ih =>
    cases a with
    | nil => simp at h
    | cons x a =>
      simp only [List.length_cons, Nat.add_le_add_iff_right] at h
      simp only [List.cons_append, setRates]
      exact ih _ _ h

/-- Reading back the rates that `pushRates` wrote: the phases written take the
value they had, the others keep the value of the rates written into. -/
theorem setRates_pushRates_value (r r0 : data.Rates D) (phases : List data.rt) (rs t : List D)
    (h : pushRates r phases = .ok rs) (q : data.rt) :
    (setRates r0 phases (rs ++ t)).value q = if q ∈ phases then r.value q else r0.value q := by
  induction phases generalizing r0 rs with
  | nil =>
    simp only [pushRates, Except.ok.injEq] at h
    subst h
    cases t <;> simp [setRates]
  | cons p ps ih =>
    obtain ⟨x, rest, hx, hrest, rfl⟩ := (pushRates_cons_ok r p ps rs).mp h
    rw [List.cons_append]
    show (setRates (r0.set p x) ps (rest ++ t)).value q = _
    rw [ih _ _ hrest, rates_value_set]
    by_cases hq : q ∈ ps
    · simp [hq]
    · by_cases hqp : q = p
      · subst hqp; simp [hx]
      · simp [hq, hqp]

/-- Rates that hold a value for exactly the phases written are read back
unchanged. -/
theorem setRates_pushRates (r : data.Rates D) (phases : List data.rt) (rs t : List D)
    (h : pushRates r phases = .ok rs) (hex : ∀ q, r.has q = true ↔ q ∈ phases) :
    setRates {} phases (rs ++ t) = r := by
  apply rates_ext_value
  intro q
  rw [setRates_pushRates_value r {} phases rs t h q]
  by_cases hq : q ∈ phases
  · simp [hq]
  · have : r.has q ≠ true := fun hh => hq ((hex q).mp hh)
    simp only [data.Rates.has, Option.isSome_iff_ne_none, ne_eq, not_not] at this
    rw [if_neg hq, this]
    cases q <;> rfl

variable [Zero D]

theorem segmentConnections_zero (phases : List data.rt) (grid : EclipseGrid)
    (scs : List Connection) (t : List D) :
    segmentConnections phases grid scs
        (List.replicate (scs.length * (phases.length + 2)) (0 : D) ++ t)
      = (scs.filter (materialised grid)).map (fun sc =>
          ({ index := grid.activeIndex sc.getI sc.getJ sc.getK,
             rates := setRates {} phases (List.replicate phases.length (0 : D)),
             pressure := 0, reservoir_rate := 0 } : data.Connection D)) := by
  induction scs generalizing t with
  | nil => simp [segmentConnections]
  | cons sc scs ih =>
    have hrep : (List.replicate ((scs.length + 1) * (phases.length + 2)) (0 : D)) ++ t
        = (0 : D) :: 0 :: (List.replicate phases.length (0 : D)
            ++ (List.replicate (scs.length * (phases.length + 2)) (0 : D) ++ t)) := by
      rw [show (scs.length + 1) * (phases.length + 2)
          = (phases.length + scs.length * (phases.length + 2)) + 1 + 1 by ring,
        List.replicate_succ, List.replicate_succ, List.replicate_add]
      simp only [List.cons_append, List.append_assoc]
    have hdrop : List.drop (phases.length + 2)
          ((0 : D) :: 0 :: (List.replicate phases.length (0 : D)
            ++ (List.replicate (scs.length * (phases.length + 2)) (0 : D) ++ t)))
        = List.replicate (scs.length * (phases.length + 2)) (0 : D) ++ t := by
      rw [List.drop_succ_cons, List.drop_succ_cons]
      exact List.drop_left' (by simp)
    rw [List.length_cons, hrep]
    cases h : materialised grid sc with
    | false =>
      rw [segmentConnections_dead _ _ _ _ _ h, hdrop, ih,
        List.filter_cons_of_neg (by simp [h])]
    | true =>
      rw [segmentConnections_live _ _ _ _ _ h, hdrop, ih, List.filter_cons_of_pos h,
        List.map_cons]
      congr 1
      simp only [segmentConnection, List.drop_succ_cons, List.drop_zero, List.getD_cons_zero,
        List.getD_cons_succ]
      rw [setRates_append _ _ _ _ (by simp)]

/-- Reading back the connection segments that `xwelConnections` wrote for a
well whose connections have pairwise distinct indices and rates for exactly
the phases written: the connections `lsub` of the well that correspond, in
order, to the materialised scheduled connections are recovered. -/
theorem segmentConnections_xwelConnections (well : data.Well D) (phases : List data.rt)
    (grid : EclipseGrid)
    (hnd : (well.connections.map (·.index)).Nodup)
    (hrates : ∀ c ∈ well.connections, ∀ q, c.rates.has q = true ↔ q ∈ phases)
    (scs : List Connection) (lsub : List (data.Connection D)) (cs t : List D)
    (hsub : ∀ c ∈ lsub, c ∈ well.connections)
    (hidx : lsub.map (·.index)
      = (scs.filter (materialised grid)).map
          (fun sc => grid.activeIndex sc.getI sc.getJ sc.getK))
    (hcs : xwelConnections well phases grid scs = .ok cs) :
    segmentConnections phases grid scs (cs ++ t) = lsub := by
  induction scs generalizing lsub cs with
  | nil =>
    simp only [List.filter_nil, List.map_nil, List.map_eq_nil_iff] at hidx
    simp [segmentConnections, hidx]
  | cons sc scs ih =>
    obtain ⟨seg0, rest, hseg0, hrest, rfl⟩ := (xwelConnections_cons_ok _ _ _ _ _ _).mp hcs
    have hlen := xwelConnection_length _ _ _ _ _ hseg0
    have hdrop : List.drop (phases.length + 2) (seg0 ++ rest ++ t) = rest ++ t := by
      rw [List.append_assoc]
      exact List.drop_left' hlen
    cases h : materialised grid sc with
    | false =>
      rw [List.filter_cons_of_neg (by simp [h])] at hidx
      rw [segmentConnections_dead _ _ _ _ _ h, hdrop]
      exact ih lsub rest hsub hidx hrest
    | true =>
      rw [List.filter_cons_of_pos h, List.map_cons] at hidx
      cases lsub with
      | nil => simp at hidx
      | cons c0 lsub =>
        simp only [List.map_cons, List.cons.injEq] at hidx
        obtain ⟨hc0, hidx⟩ := hidx
        have hc0mem : c0 ∈ well.connections := hsub c0 (List.mem_cons_self _ _)
        have hn : ¬ (grid.cellActive sc.getI sc.getJ sc.getK = false
            ∨ sc.state = WellCompletion.StateEnum.SHUT) := by
          rw [← materialised_eq_false]; simp [h]
        unfold xwelConnection at hseg0
        simp only [if_neg hn] at hseg0
        cases hf : well.connections.find?
            (fun c => decide (c.index = grid.activeIndex sc.getI sc.getJ sc.getK)) with
        | none =>
          have := List.find?_eq_none.mp hf c0 hc0mem
          simp [hc0] at this
        | some c1 =>
          have hc1mem : c1 ∈ well.connections := List.mem_of_find?_eq_some hf
          have hc1 : c1.index = grid.activeIndex sc.getI sc.getJ sc.getK := by
            simpa using List.find?_some hf
          have heq : c1 = c0 :=
            List.inj_on_of_nodup_map hnd hc1mem hc0mem (hc1.trans hc0.symm)
          subst heq
          simp only [hf] at hseg0
          cases hr : pushRates c1.rates phases with
          | error e => simp [hr, bind, Except.bind] at hseg0
          | ok rs0 =>
            simp only [hr, bind, Except.bind, pure, Except.pure, Except.ok.injEq] at hseg0
            rw [segmentConnections_live _ _ _ _ _ h, hdrop,
              ih lsub rest (fun c hc => hsub c (List.mem_cons_of_mem _ hc)) hidx hrest]
            congr 1
            subst hseg0
            simp only [segmentConnection, List.cons_append, List.drop_succ_cons, List.drop_zero,
              List.getD_cons_zero, List.getD_cons_succ, List.append_assoc]
            rw [setRates_pushRates c1.rates phases rs0 _ hr (hrates c1 hc1mem), ← hc1]

end RoundTripLemmas

/-! ## Theorems on the connections returned by `restore_wells` -/

section ConnectionTheorems

variable {D : Type} [Zero D]

/-- C7 (connection materialisation on read): for every input passing the size
checks and every scheduled well (whose name no other scheduled well carries),
`restore_wells` returns a map whose well of that name has one connection per
scheduled connection with an active cell and a state other than SHUT, in
schedule order, with index the active index of the cell; the entry of such a
connection is read from its own segment of `OPM_XWEL`, which lies inside the
array: pressure and reservoir rate are its first two elements and the rates of
the active phases the following ones.  Connections in inactive cells or SHUT
have no entry. -/
theorem restore_wells_connections (xwel : List D) (iwel : List Int) (sim_step : Nat)
    (es : EclipseState) (grid : EclipseGrid) (schedule : Schedule)
    (pre post : List Well) (w : Well)
    (hx : xwel.length
      = expected_xwel_size (activeRates es.runspec.phases) sim_step (schedule.getWells sim_step))
    (hi : iwel.length = (schedule.getWells sim_step).length)
    (hs : schedule.getWells sim_step = pre ++ w :: post)
    (hname : ∀ v ∈ pre ++ post, v.name ≠ w.name) :
    ∃ wells well, restore_wells xwel iwel sim_step es grid schedule = .ok wells
      ∧ wells w.name = some well
      ∧ well.connections.map (·.index)
          = ((w.getConnections sim_step).filter (materialised grid)).map
              (fun sc => grid.activeIndex sc.getI sc.getJ sc.getK)
      ∧ ∀ cpre sc cpost, w.getConnections sim_step = cpre ++ sc :: cpost →
          materialised grid sc = true →
          (pre.map fun v => 2 + (activeRates es.runspec.phases).length
              + (v.getConnections sim_step).length
                * ((activeRates es.runspec.phases).length + 2)).sum
            + (2 + (activeRates es.runspec.phases).length)
            + cpre.length * ((activeRates es.runspec.phases).length + 2)
            + ((activeRates es.runspec.phases).length + 2) ≤ xwel.length
          ∧ well.connections[(cpre.filter (materialised grid)).length]?
            = some (segmentConnection (activeRates es.runspec.phases) grid sc
                (xwel.drop ((pre.map fun v => 2 + (activeRates es.runspec.phases).length
                    + (v.getConnections sim_step).length
                      * ((activeRates es.runspec.phases).length + 2)).sum
                  + (2 + (activeRates es.runspec.phases).length)
                  + cpre.length * ((activeRates es.runspec.phases).length + 2)))) := by
  obtain ⟨st, hrun, -, -, -, -, hat⟩ :=
    restore_wells_run_eq xwel iwel sim_step es grid schedule hx hi
  have hw := hat pre w post hs (fun v hv => hname v (List.mem_append_left _ hv))
    (fun v hv => hname v (List.mem_append_right _ hv))
  have hsum : (pre.map fun v => 2 + (activeRates es.runspec.phases).length
      + (v.getConnections sim_step).length * ((activeRates es.runspec.phases).length + 2)).sum
      = expected_xwel_size (activeRates es.runspec.phases) sim_step pre := by
    rw [expected_xwel_size_eq_sum]; rfl
  refine ⟨st.wells, _, by simp [restore_wells, hrun, Except.map], hw, ?_, ?_⟩
  · simp only [segmentWell, segmentConnections_map_index]
  · intro cpre sc cpost hc hm
    constructor
    · rw [hsum, hx, hs, expected_xwel_size_append, expected_xwel_size_cons]
      simp only [perWellExtensionWidth, hc, List.length_append, List.length_cons]
      have : (cpre.length + (cpost.length + 1)) * ((activeRates es.runspec.phases).length + 2)
          = cpre.length * ((activeRates es.runspec.phases).length + 2)
            + ((activeRates es.runspec.phases).length + 2)
            + cpost.length * ((activeRates es.runspec.phases).length + 2) := by ring
      omega
    · simp only [segmentWell, hc]
      rw [segmentConnections_getElem? _ _ _ _ _ _ hm, hsum, List.drop_drop, List.drop_drop]
      congr 3
      omega

/-- Witness of C7: in the concrete case the producer gets two connections, for
its first and fourth scheduled connections; the second one is read from the
segment at offset 16. -/
theorem restore_wells_connections_witness :
    ∃ wells well, restore_wells
          ([100, 50, 10, 20, 30, 4, 1, 2, 0, 0, 0, 0, 0, 0, 0, 0, 31, 7, 5, 6,
            200, 60, -8, 0, 35, -9, -8, 0] : List Int) [1, 2] 0
          Example.es Example.grid Example.schedule = .ok wells
      ∧ wells "PROD" = some well
      ∧ well.connections.map (·.index) = [0, 3]
      ∧ well.connections[1]?
          = some { index := 3, rates := { wat := some 5, oil := some 6 },
                   pressure := 31, reservoir_rate := 7 } := by
  obtain ⟨wells, well, hrun, hwell, hidx, hat⟩ := restore_wells_connections
    ([100, 50, 10, 20, 30, 4, 1, 2, 0, 0, 0, 0, 0, 0, 0, 0, 31, 7, 5, 6,
      200, 60, -8, 0, 35, -9, -8, 0] : List Int) [1, 2] 0
    Example.es Example.grid Example.schedule [] [Example.injector] Example.producer
    rfl rfl rfl (by decide)
  exact ⟨wells, well, hrun, hwell, hidx,
    (hat [{ getI := 0, getJ := 0, getK := 0, state := .OPEN, dir := 3 },
          { getI := 0, getJ := 0, getK := 1, state := .SHUT, dir := 3 },
          { getI := 0, getJ := 0, getK := 2, state := .OPEN, dir := 3 }]
      { getI := 1, getJ := 0, getK := 1, state := .OPEN, dir := 3 } [] rfl rfl).2⟩

/-- C5, as stated, fails: at step 1 of the concrete case the well "OLD" is
SHUT and absent from the wells map, its segment is written as zeros, and
`restore_wells` returns for it a well with one connection, because the
scheduled connection of "OLD" is open and in an active cell. -/
theorem restore_wells_zero_segment_counterexample :
    Example.shutIn ∈ Example.schedule.getWells 1
      ∧ Example.wells Example.shutIn.name = none
      ∧ Example.shutIn.getStatus 1 = WellCommon.StatusEnum.SHUT
      ∧ serialize_OPM_XWEL Example.wells 1 (Example.schedule.getWells 1)
          Example.es.runspec.phases Example.grid
        = .ok [100, 50, 10, 20, 30, 4, 1, 2, 0, 0, 0, 0, 0, 0, 0, 0, 31, 7, 5, 6,
            0, 0, 0, 0, 0, 0, 0, 0, 200, 60, -8, 0, 35, -9, -8, 0]
      ∧ serialize_OPM_IWEL Example.wells (Example.schedule.getWells 1) = [1, 0, 2]
      ∧ (restore_wells
            ([100, 50, 10, 20, 30, 4, 1, 2, 0, 0, 0, 0, 0, 0, 0, 0, 31, 7, 5, 6,
              0, 0, 0, 0, 0, 0, 0, 0, 200, 60, -8, 0, 35, -9, -8, 0] : List Int)
            [1, 0, 2] 1 Example.es Example.grid Example.schedule).map
          (fun wells => (wells "OLD").map (·.connections))
        = .ok (some [{ index := 1, rates := { wat := some 0, oil := some 0 },
                       pressure := 0, reservoir_rate := 0 }]) :=
  ⟨by simp [Example.schedule], rfl, rfl, rfl, rfl, rfl⟩

/-- C5, amended: for a scheduled well that is absent from the wells map or SHUT
at the step, and whose name no other scheduled well carries, `restore_wells`
applied to the two serialised arrays returns for that name a well with one
connection per scheduled connection of the well whose cell is active and whose
state is not SHUT, each with pressure 0, reservoir rate 0 and rate 0 for every
active phase; its connections sequence is empty exactly when the well has no
such scheduled connection. -/
theorem restore_wells_zero_segment (wells : data.Wells D) (sim_step : Nat)
    (es : EclipseState) (grid : EclipseGrid) (schedule : Schedule)
    (pre post : List Well) (w : Well) (xwel : List D)
    (hs : schedule.getWells sim_step = pre ++ w :: post)
    (hname : ∀ v ∈ pre ++ post, v.name ≠ w.name)
    (hw : wells w.name = none ∨ w.getStatus sim_step = WellCommon.StatusEnum.SHUT)
    (hser : serialize_OPM_XWEL wells sim_step (schedule.getWells sim_step)
      es.runspec.phases grid = .ok xwel) :
    ∃ restored well,
      restore_wells xwel (serialize_OPM_IWEL wells (schedule.getWells sim_step)) sim_step
          es grid schedule = .ok restored
        ∧ restored w.name = some well
        ∧ well.connections
            = ((w.getConnections sim_step).filter (materialised grid)).map (fun sc =>
                ({ index := grid.activeIndex sc.getI sc.getJ sc.getK,
                   rates := setRates {} (activeRates es.runspec.phases)
                     (List.replicate (activeRates es.runspec.phases).length (0 : D)),
                   pressure := 0, reservoir_rate := 0 } : data.Connection D))
        ∧ (well.connections = []
            ↔ ∀ sc ∈ w.getConnections sim_step, materialised grid sc = false) := by
  have hx := xwelLoop_length _ _ _ _ _ _ hser
  have hi : (serialize_OPM_IWEL wells (schedule.getWells sim_step)).length
      = (schedule.getWells sim_step).length := by simp [serialize_OPM_IWEL]
  obtain ⟨st, hrun, -, -, -, -, hat⟩ :=
    restore_wells_run_eq xwel _ sim_step es grid schedule hx hi
  have hwell := hat pre w post hs (fun v hv => hname v (List.mem_append_left _ hv))
    (fun v hv => hname v (List.mem_append_right _ hv))
  unfold serialize_OPM_XWEL at hser
  rw [hs] at hser
  obtain ⟨a, seg, b, _, hseg, _, rfl, hla, _⟩ := xwelLoop_split _ _ _ _ _ _ _ _ hser
  rw [xwelWell_absent_or_shut wells sim_step _ grid w hw] at hseg
  simp only [Except.ok.injEq] at hseg
  have hconn : (segmentWell (activeRates es.runspec.phases) grid (w.getConnections sim_step)
      ((serialize_OPM_IWEL wells (schedule.getWells sim_step)).getD pre.length 0)
      (List.drop (expected_xwel_size (activeRates es.runspec.phases) sim_step pre)
        (a ++ (seg ++ b)))).connections
      = ((w.getConnections sim_step).filter (materialised grid)).map (fun sc =>
          ({ index := grid.activeIndex sc.getI sc.getJ sc.getK,
             rates := setRates {} (activeRates es.runspec.phases)
               (List.replicate (activeRates es.runspec.phases).length (0 : D)),
             pressure := 0, reservoir_rate := 0 } : data.Connection D)) := by
    rw [← hla, List.drop_left, ← hseg]
    simp only [segmentWell, perWellExtensionWidth]
    rw [List.replicate_add, List.append_assoc, List.drop_left' (by simp),
      segmentConnections_zero]
  refine ⟨st.wells, _, by simp [restore_wells, hrun, Except.map], hwell, hconn, ?_⟩
  rw [hconn]
  simp [List.filter_eq_nil_iff]

/-- Witness of C5, amended: the well "OLD" of the concrete case, step 1. -/
theorem restore_wells_zero_segment_witness :
    ∃ restored well,
      restore_wells
          ([100, 50, 10, 20, 30, 4, 1, 2, 0, 0, 0, 0, 0, 0, 0, 0, 31, 7, 5, 6,
            0, 0, 0, 0, 0, 0, 0, 0, 200, 60, -8, 0, 35, -9, -8, 0] : List Int)
          (serialize_OPM_IWEL Example.wells (Example.schedule.getWells 1)) 1
          Example.es Example.grid Example.schedule = .ok restored
        ∧ restored "OLD" = some well
        ∧ well.connections
            = [{ index := 1, rates := { wat := some 0, oil := some 0 },
                 pressure := 0, reservoir_rate := 0 }] := by
  obtain ⟨restored, well, hrun, hwell, hconn, -⟩ := restore_wells_zero_segment
    Example.wells 1 Example.es Example.grid Example.schedule
    [Example.producer] [Example.injector] Example.shutIn
    ([100, 50, 10, 20, 30, 4, 1, 2, 0, 0, 0, 0, 0, 0, 0, 0, 31, 7, 5, 6,
      0, 0, 0, 0, 0, 0, 0, 0, 200, 60, -8, 0, 35, -9, -8, 0] : List Int)
    rfl (by decide) (Or.inr rfl) rfl
  exact ⟨restored, well, hrun, hwell, hconn⟩

end ConnectionTheorems

/-! ## The round trip of the wells -/

section RoundTrip

variable {D : Type} [Zero D]

/-- The well read back from the segment that `xwelWell` wrote for a well of the
map that is not SHUT, has connections matching the materialised scheduled
connections with pairwise distinct indices, and rates for exactly the phases
written, is that well. -/
theorem segmentWell_xwelWell (wells : data.Wells D) (sim_step : Nat) (phases : List data.rt)
    (grid : EclipseGrid) (w : Well) (well : data.Well D) (seg t : List D)
    (hwell : wells w.name = some well)
    (hst : w.getStatus sim_step ≠ WellCommon.StatusEnum.SHUT)
    (hidx : well.connections.map (·.index)
      = ((w.getConnections sim_step).filter (materialised grid)).map
          (fun sc => grid.activeIndex sc.getI sc.getJ sc.getK))
    (hnd : (well.connections.map (·.index)).Nodup)
    (hwr : ∀ q, well.rates.has q = true ↔ q ∈ phases)
    (hcr : ∀ c ∈ well.connections, ∀ q, c.rates.has q = true ↔ q ∈ phases)
    (hseg : xwelWell wells sim_step phases grid w = .ok seg) :
    segmentWell phases grid (w.getConnections sim_step) well.control (seg ++ t) = well := by
  rw [xwelWell_live wells sim_step phases grid w well hwell hst] at hseg
  cases hr : pushRates well.rates phases with
  | error e => simp [hr, bind, Except.bind] at hseg
  | ok rs =>
    cases hc : xwelConnections well phases grid (w.getConnections sim_step) with
    | error e => simp [hr, hc, bind, Except.bind] at hseg
    | ok cs =>
      simp only [hr, hc, bind, Except.bind, pure, Except.pure, Except.ok.injEq] at hseg
      subst hseg
      have hrs := pushRates_length _ _ _ hr
      have hdrop : List.drop (2 + phases.length)
          (well.bhp :: well.temperature :: rs ++ cs ++ t) = cs ++ t := by
        rw [List.append_assoc]
        exact List.drop_left' (by simp only [List.length_cons, hrs]; omega)
      simp only [segmentWell]
      rw [hdrop, segmentConnections_xwelConnections well phases grid hnd hcr _ well.connections
        cs t (fun c hc => hc) hidx hc]
      simp only [List.cons_append, List.drop_succ_cons, List.drop_zero, List.getD_cons_zero,
        List.getD_cons_succ, List.append_assoc]
      rw [setRates_pushRates well.rates phases rs _ hr hwr]

/-- C1 (well round trip): for a schedule step with unique scheduled well names,
a grid and a phase set, and a wells map `v` whose keys are exactly the
scheduled well names, such that no scheduled well is SHUT, the connections of
each well are exactly its scheduled connections with an active cell and a
state other than SHUT, in schedule order, indexed by the active index of their
cell, these indices being pairwise distinct, and well rates and connection
rates hold a value for exactly the active phases: `serialize_OPM_XWEL` returns
an array, and `restore_wells` applied to it and to `serialize_OPM_IWEL v`
returns exactly `v`. -/
theorem restore_serialize_round_trip (v : data.Wells D) (sim_step : Nat)
    (es : EclipseState) (grid : EclipseGrid) (schedule : Schedule)
    (hnodup : ((schedule.getWells sim_step).map (·.name)).Nodup)
    (hkeys : ∀ n, (v n).isSome = true ↔ ∃ w ∈ schedule.getWells sim_step, w.name = n)
    (hopen : ∀ w ∈ schedule.getWells sim_step,
      w.getStatus sim_step ≠ WellCommon.StatusEnum.SHUT)
    (hconn : ∀ w ∈ schedule.getWells sim_step, ∀ well, v w.name = some well →
      well.connections.map (·.index)
          = ((w.getConnections sim_step).filter (materialised grid)).map
              (fun sc => grid.activeIndex sc.getI sc.getJ sc.getK)
        ∧ (well.connections.map (·.index)).Nodup)
    (hrates : ∀ w ∈ schedule.getWells sim_step, ∀ well, v w.name = some well →
      (∀ q, well.rates.has q = true ↔ q ∈ activeRates es.runspec.phases)
        ∧ ∀ c ∈ well.connections, ∀ q,
            c.rates.has q = true ↔ q ∈ activeRates es.runspec.phases) :
    ∃ xwel,
      serialize_OPM_XWEL v sim_step (schedule.getWells sim_step) es.runspec.phases grid
          = .ok xwel
        ∧ restore_wells xwel (serialize_OPM_IWEL v (schedule.getWells sim_step)) sim_step
            es grid schedule = .ok v := by
  have hinit : RatesInitialized v sim_step (activeRates es.runspec.phases)
      (schedule.getWells sim_step) := by
    intro sw hsw _ well hwell
    obtain ⟨hwr, hcr⟩ := hrates sw hsw well hwell
    exact ⟨fun q hq => (hwr q).mpr hq, fun c hc q hq => (hcr c hc q).mpr hq⟩
  obtain ⟨xwel, hser⟩ := serialize_OPM_XWEL_ok v sim_step _ es.runspec.phases grid hinit
  refine ⟨xwel, hser, ?_⟩
  have hx := xwelLoop_length _ _ _ _ _ _ hser
  have hi : (serialize_OPM_IWEL v (schedule.getWells sim_step)).length
      = (schedule.getWells sim_step).length := by simp [serialize_OPM_IWEL]
  obtain ⟨st, hrun, -, -, hkeep, -, hat⟩ :=
    restore_wells_run_eq xwel _ sim_step es grid schedule hx hi
  have hst : st.wells = v := by
    funext n
    by_cases hn : ∃ w ∈ schedule.getWells sim_step, w.name = n
    · obtain ⟨w, hw, rfl⟩ := hn
      obtain ⟨pre, post, hs⟩ := List.append_of_mem hw
      have hnd := hnodup
      rw [hs, List.map_append, List.map_cons] at hnd
      have hnot := (List.nodup_cons.mp (List.nodup_middle.mp hnd)).1
      have hpre : ∀ u ∈ pre, u.name ≠ w.name := fun u hu h =>
        hnot (List.mem_append_left _ (List.mem_map.mpr ⟨u, hu, h⟩))
      have hpost : ∀ u ∈ post, u.name ≠ w.name := fun u hu h =>
        hnot (List.mem_append_right _ (List.mem_map.mpr ⟨u, hu, h⟩))
      rw [hat pre w post hs hpre hpost]
      obtain ⟨well, hwell⟩ := Option.isSome_iff_exists.mp ((hkeys w.name).mpr ⟨w, hw, rfl⟩)
      rw [hwell]
      congr 1
      have hctrl : (serialize_OPM_IWEL v (schedule.getWells sim_step)).getD pre.length 0
          = well.control := by
        simp only [serialize_OPM_IWEL, hs, List.map_append, List.map_cons,
          List.getD_eq_getElem?_getD]
        rw [List.getElem?_append_right (by simp)]
        simp [getctrl, hwell]
      unfold serialize_OPM_XWEL at hser
      rw [hs] at hser
      obtain ⟨a, seg, b, _, hseg, _, rfl, hla, _⟩ := xwelLoop_split _ _ _ _ _ _ _ _ hser
      rw [hctrl, ← hla, List.drop_left]
      obtain ⟨hidx, hndi⟩ := hconn w hw well hwell
      obtain ⟨hwr, hcr⟩ := hrates w hw well hwell
      exact segmentWell_xwelWell v sim_step _ grid w well seg b hwell (hopen w hw) hidx hndi
        hwr hcr hseg
    · rw [hkeep n (fun u hu h => hn ⟨u, hu, h⟩)]
      have : (v n).isSome ≠ true := fun h => hn ((hkeys n).mp h)
      simp only [Option.isSome_iff_ne_none, ne_eq, not_not] at this
      exact this.symm
  simp [restore_wells, hrun, Except.map, hst]

/-- Witness of C1: the wells map of the concrete case, at step 0, is written
and read back unchanged. -/
theorem restore_serialize_round_trip_witness :
    ∃ xwel,
      serialize_OPM_XWEL Example.wells 0 (Example.schedule.getWells 0)
          Example.es.runspec.phases Example.grid = .ok xwel
        ∧ restore_wells xwel (serialize_OPM_IWEL Example.wells (Example.schedule.getWells 0)) 0
            Example.es Example.grid Example.schedule = .ok Example.wells := by
  have hmem : ∀ w ∈ Example.schedule.getWells 0, w = Example.producer ∨ w = Example.injector := by
    intro w hw
    simpa [Example.schedule] using hw
  have hprod : ∀ well, Example.wells "PROD" = some well → well = Example.producerData := by
    intro well h
    simpa [Example.wells] using h.symm
  have hinj : ∀ well, Example.wells "INJ" = some well → well = Example.injectorData := by
    intro well h
    simpa [Example.wells] using h.symm
  apply restore_serialize_round_trip Example.wells 0 Example.es Example.grid Example.schedule
  · decide
  · intro n
    simp only [Example.wells, Example.schedule, if_true, List.mem_cons, List.mem_singleton,
      exists_eq_or_imp, exists_eq_left, List.not_mem_nil, false_and, exists_false, or_false]
    by_cases h1 : n = "PROD"
    · simp [h1, Example.producer]
    · by_cases h2 : n = "INJ"
      · simp [h2, Example.injector]
      · simp [h1, h2, Example.producer, Example.injector, eq_comm]
  · intro w hw
    rcases hmem w hw with rfl | rfl <;> decide
  · intro w hw well hwell
    rcases hmem w hw with rfl | rfl
    · rw [hprod well hwell]; decide
    · rw [hinj well hwell]; decide
  · intro w hw well hwell
    rcases hmem w hw with rfl | rfl
    · rw [hprod well hwell]; decide
    · rw [hinj well hwell]; decide

end RoundTrip

/-! ## Lemmas on `restoreSOLUTION` -/

section SolutionLemmas

variable {M D : Type}

theorem ecl_file_view_iget_named_kw_cons (k : EclKw D) (file_view : FileView D) (name : String) :
    ecl_file_view_iget_named_kw (k :: file_view) name 0
      = if k.header = name then some k else ecl_file_view_iget_named_kw file_view name 0 := by
  unfold ecl_file_view_iget_named_kw
  by_cases h : k.header = name
  · rw [List.filter_cons_of_pos (by simpa using h), if_pos h]
    simp
  · rw [List.filter_cons_of_neg (by simpa using h), if_neg h]

theorem ecl_file_view_has_kw_iff (file_view : FileView D) (name : String) :
    ecl_file_view_has_kw file_view name = true
      ↔ ∃ kw, ecl_file_view_iget_named_kw file_view name 0 = some kw := by
  induction file_view with
  | nil => simp [ecl_file_view_has_kw, ecl_file_view_iget_named_kw]
  | cons k ks ih =>
    rw [ecl_file_view_iget_named_kw_cons]
    have hc : ecl_file_view_has_kw (k :: ks) name
        = (decide (k.header = name) || ecl_file_view_has_kw ks name) := by
      simp [ecl_file_view_has_kw]
    rw [hc]
    by_cases h : k.header = name
    · simp [h]
    · simp [h, ih]

theorem ecl_file_view_has_kw_eq_false (file_view : FileView D) (name : String) :
    ecl_file_view_has_kw file_view name = false
      ↔ ecl_file_view_iget_named_kw file_view name 0 = none := by
  rw [← Bool.not_eq_true, ecl_file_view_has_kw_iff]
  cases ecl_file_view_iget_named_kw file_view name 0 <;> simp

theorem solution_lookup_insert (sol : data.Solution M D) (key : String) (dim : M)
    (values : List D) (target : data.TargetType) (name : String) :
    (sol.insert key dim values target).lookup name
      = (sol.lookup name).or
          (if key = name then some { dim := dim, data := values, target := target } else none) := by
  unfold data.Solution.insert
  by_cases hhas : sol.has key = true
  · rw [if_pos hhas]
    by_cases hk : key = name
    · subst hk
      simp only [data.Solution.has] at hhas
      obtain ⟨c, hc⟩ := Option.isSome_iff_exists.mp hhas
      simp [hc]
    · simp [hk]
  · rw [if_neg hhas]
    simp only [data.Solution.lookup, List.find?_append]
    by_cases hk : key = name
    · cases hf : List.find? (fun e => decide (e.1 = name)) sol <;> simp [hk]
    · cases hf : List.find? (fun e => decide (e.1 = name)) sol <;> simp [hk]

theorem solution_nodup_insert (sol : data.Solution M D) (key : String) (dim : M)
    (values : List D) (target : data.TargetType) (h : (sol.map (·.1)).Nodup) :
    ((sol.insert key dim values target).map (·.1)).Nodup := by
  unfold data.Solution.insert
  by_cases hhas : sol.has key = true
  · rw [if_pos hhas]; exact h
  · rw [if_neg hhas, List.map_append, List.map_cons, List.map_nil]
    refine List.Nodup.append h (List.nodup_singleton _) ?_
    rw [List.disjoint_singleton]
    intro hmem
    obtain ⟨e, he, hek⟩ := List.mem_map.mp hmem
    apply hhas
    simp only [data.Solution.has, data.Solution.lookup, Option.isSome_map']
    cases hf : List.find? (fun e => decide (e.1 = key)) sol with
    | some x => rfl
    | none =>
      have := List.find?_eq_none.mp hf e he
      simp [hek] at this

theorem requestedEntry_nil (file_view : FileView D) (name : String) :
    requestedEntry file_view ([] : List (RestartKey M)) name = none := by
  simp [requestedEntry]

theorem requestedEntry_cons_ne (file_view : FileView D) (k : RestartKey M)
    (ks : List (RestartKey M)) (name : String) (h : k.key ≠ name) :
    requestedEntry file_view (k :: ks) name = requestedEntry file_view ks name := by
  simp [requestedEntry, List.find?_cons, h]

theorem requestedEntry_cons_eq (file_view : FileView D) (k : RestartKey M)
    (ks : List (RestartKey M)) :
    requestedEntry file_view (k :: ks) k.key
      = (ecl_file_view_iget_named_kw file_view k.key 0).map (fun ecl_kw =>
          { dim := k.dim, data := ecl_kw.data, target := data.TargetType.RESTART_SOLUTION }) := by
  simp only [requestedEntry, List.find?_cons, decide_True]
  cases ecl_file_view_iget_named_kw file_view k.key 0 <;> rfl

theorem requestedEntry_absent (file_view : FileView D) (ks : List (RestartKey M))
    (name : String) (h : ecl_file_view_iget_named_kw file_view name 0 = none) :
    requestedEntry file_view ks name = none := by
  simp only [requestedEntry, h]
  cases List.find? (fun k => decide (k.key = name)) ks <;> rfl

/-- The loop of `restoreSOLUTION` on keys whose required ones are in the file
and whose keywords have the right length: it returns, and the solution holds
the entries it held, then those the requested keys determine. -/
theorem restoreSOLUTIONLoop_ok (file_view : FileView D) (numcells : Nat)
    (keys : List (RestartKey M)) (sol0 : data.Solution M D)
    (hreq : ∀ k ∈ keys, k.required = true → ecl_file_view_has_kw file_view k.key = true)
    (hlen : ∀ k ∈ keys, ∀ kw, ecl_file_view_iget_named_kw file_view k.key 0 = some kw →
      kw.data.length = numcells)
    (hnd : (sol0.map (·.1)).Nodup) :
    ∃ sol, restoreSOLUTIONLoop file_view numcells keys sol0 = .ok sol
      ∧ (∀ name, sol.lookup name
          = (sol0.lookup name).or (requestedEntry file_view keys name))
      ∧ (sol.map (·.1)).Nodup := by
  induction keys generalizing sol0 with
  | nil => exact ⟨sol0, rfl, fun name => by simp [requestedEntry_nil], hnd⟩
  | cons k ks ih =>
    have hreq' : ∀ k ∈ ks, k.required = true → ecl_file_view_has_kw file_view k.key = true :=
      fun q hq => hreq q (List.mem_cons_of_mem _ hq)
    have hlen' : ∀ k ∈ ks, ∀ kw, ecl_file_view_iget_named_kw file_view k.key 0 = some kw →
        kw.data.length = numcells := fun q hq => hlen q (List.mem_cons_of_mem _ hq)
    by_cases hhas : ecl_file_view_has_kw file_view k.key = false
    · have hnr : k.required = false := by
        cases hr : k.required with
        | false => rfl
        | true => rw [hreq k (List.mem_cons_self _ _) hr] at hhas; cases hhas
      obtain ⟨sol, hrun, hlook, hnd'⟩ := ih sol0 hreq' hlen' hnd
      refine ⟨sol, ?_, ?_, hnd'⟩
      · simp only [restoreSOLUTIONLoop, if_pos hhas, hnr]
        exact hrun
      · intro name
        rw [hlook name]
        by_cases hk : k.key = name
        · subst hk
          have hnone := (ecl_file_view_has_kw_eq_false file_view k.key).mp hhas
          rw [requestedEntry_absent _ _ _ hnone, requestedEntry_absent _ _ _ hnone]
        · rw [requestedEntry_cons_ne _ _ _ _ hk]
    · obtain ⟨kw, hkw⟩ := (ecl_file_view_has_kw_iff file_view k.key).mp (by simpa using hhas)
      have hsize : ecl_kw_get_size kw = numcells := hlen k (List.mem_cons_self _ _) kw hkw
      obtain ⟨sol, hrun, hlook, hnd'⟩ := ih
        (sol0.insert k.key k.dim (double_vector kw) data.TargetType.RESTART_SOLUTION)
        hreq' hlen' (solution_nodup_insert _ _ _ _ _ hnd)
      refine ⟨sol, ?_, ?_, hnd'⟩
      · simp only [restoreSOLUTIONLoop, if_neg hhas, hkw, hsize, ne_eq, not_true_eq_false,
          if_false]
        exact hrun
      · intro name
        rw [hlook name, solution_lookup_insert]
        by_cases hk : k.key = name
        · subst hk
          rw [requestedEntry_cons_eq, hkw, if_pos rfl]
          cases sol0.lookup k.key <;> simp [double_vector]
        · rw [requestedEntry_cons_ne _ _ _ _ hk, if_neg hk]
          cases sol0.lookup name <;> simp

/-- The loop of `restoreSOLUTION` raises exactly when some key is required and
absent, or present with a wrong length; the solution built so far plays no
part. -/
theorem restoreSOLUTIONLoop_error_iff (file_view : FileView D) (numcells : Nat)
    (keys : List (RestartKey M)) (sol0 : data.Solution M D) :
    (∃ e, restoreSOLUTIONLoop file_view numcells keys sol0 = .error e)
      ↔ ∃ k ∈ keys, (k.required = true ∧ ecl_file_view_has_kw file_view k.key = false)
          ∨ ∃ kw, ecl_file_view_iget_named_kw file_view k.key 0 = some kw
              ∧ kw.data.length ≠ numcells := by
  induction keys generalizing sol0 with
  | nil => simp [restoreSOLUTIONLoop]
  | cons k ks ih =>
    simp only [List.mem_cons, exists_eq_or_imp]
    by_cases hhas : ecl_file_view_has_kw file_view k.key = false
    · have hnone := (ecl_file_view_has_kw_eq_false file_view k.key).mp hhas
      cases hr : k.required with
      | true => simp [restoreSOLUTIONLoop, hhas, hr]
      | false =>
        simp only [restoreSOLUTIONLoop, if_pos hhas, hr, hnone, Bool.false_eq_true, false_and,
          exists_false, and_false, or_self, false_or, if_false, reduceCtorEq]
        exact ih sol0
    · obtain ⟨kw, hkw⟩ := (ecl_file_view_has_kw_iff file_view k.key).mp (by simpa using hhas)
      by_cases hsize : kw.data.length = numcells
      · simp only [restoreSOLUTIONLoop, if_neg hhas, hkw, ecl_kw_get_size, hsize, ne_eq,
          not_true_eq_false, if_false, Option.some.injEq, exists_eq_left', and_false, or_false,
          false_or]
        have hh : ecl_file_view_has_kw file_view k.key = true := by simpa using hhas
        simp only [hh, Bool.true_eq_false, and_false, false_or]
        exact ih _
      · simp [restoreSOLUTIONLoop, hhas, hkw, ecl_kw_get_size, hsize]

end SolutionLemmas

/-! ## Theorems on `restoreSOLUTION` -/

section SolutionTheorems

variable {M D : Type}

/-- C9 (required versus optional solution keys): for every file view and list
of requested keys in which every required key is in the file and every
requested key that is in the file has as many elements as there are active
cells, `restoreSOLUTION` returns a solution; it has an entry under a name
exactly when the name is requested and in the file (absent optional keys are
skipped, unrequested keywords of the file are left out); the entry under a
name carries the measure dimension of the request, the target
`RESTART_SOLUTION` and the stored array; and no name has two entries. -/
theorem restoreSOLUTION_required_optional (file_view : FileView D)
    (solution_keys : List (RestartKey M)) (numcells : Nat)
    (hreq : ∀ k ∈ solution_keys, k.required = true →
      ecl_file_view_has_kw file_view k.key = true)
    (hlen : ∀ k ∈ solution_keys, ∀ kw,
      ecl_file_view_iget_named_kw file_view k.key 0 = some kw → kw.data.length = numcells) :
    ∃ sol, restoreSOLUTION file_view solution_keys numcells = .ok sol
      ∧ (∀ name, sol.has name = true
          ↔ ((∃ k ∈ solution_keys, k.key = name)
              ∧ ecl_file_view_has_kw file_view name = true))
      ∧ (∀ name, sol.lookup name = requestedEntry file_view solution_keys name)
      ∧ (∀ k ∈ solution_keys, ∀ cell, sol.lookup k.key = some cell →
          cell.target = data.TargetType.RESTART_SOLUTION
            ∧ (∃ q ∈ solution_keys, q.key = k.key ∧ cell.dim = q.dim)
            ∧ ∃ kw, ecl_file_view_iget_named_kw file_view k.key 0 = some kw
                ∧ cell.data = kw.data)
      ∧ (sol.map (·.1)).Nodup := by
  obtain ⟨sol, hrun, hlook, hnd⟩ :=
    restoreSOLUTIONLoop_ok file_view numcells solution_keys [] hreq hlen (by simp)
  have hlook' : ∀ name, sol.lookup name = requestedEntry file_view solution_keys name := by
    intro name
    rw [hlook name]
    simp [data.Solution.lookup]
  refine ⟨sol, hrun, ?_, hlook', ?_, hnd⟩
  · intro name
    rw [data.Solution.has, hlook' name, ecl_file_view_has_kw_iff]
    unfold requestedEntry
    cases hf : List.find? (fun k => decide (k.key = name)) solution_keys with
    | none =>
      have hno := List.find?_eq_none.mp hf
      simp only [Option.isSome_none, Bool.false_eq_true, false_iff, not_and]
      rintro ⟨k, hk, hkey⟩
      exact absurd (by simpa using hkey) (hno k hk)
    | some k =>
      have hk : k ∈ solution_keys := List.mem_of_find?_eq_some hf
      have hkey : k.key = name := by simpa using List.find?_some hf
      cases hg : ecl_file_view_iget_named_kw file_view name 0 with
      | none => simp
      | some kw => simpa using ⟨k, hk, hkey⟩
  · intro k hk cell hcell
    rw [hlook' k.key] at hcell
    unfold requestedEntry at hcell
    cases hf : List.find? (fun q => decide (q.key = k.key)) solution_keys with
    | none => simp [hf] at hcell
    | some q =>
      have hq : q ∈ solution_keys := List.mem_of_find?_eq_some hf
      have hkey : q.key = k.key := by simpa using List.find?_some hf
      cases hg : ecl_file_view_iget_named_kw file_view k.key 0 with
      | none => simp [hf, hg] at hcell
      | some kw =>
        simp only [hf, hg, Option.some.injEq] at hcell
        subst hcell
        exact ⟨rfl, ⟨q, hq, hkey, rfl⟩, kw, rfl, rfl⟩

/-- Witness of C9: PRESSURE required and RS optional are requested, the file
holds only PRESSURE; the solution has PRESSURE, with the stored array, and
neither RS nor any other name such as SWAT. -/
theorem restoreSOLUTION_required_optional_witness :
    ∃ sol, restoreSOLUTION Example.fileView Example.solutionKeys 4 = .ok sol
      ∧ sol.has "PRESSURE" = true ∧ sol.has "RS" = false ∧ sol.has "SWAT" = false
      ∧ (sol.lookup "PRESSURE").map (·.data) = some [200, 201, 202, 203] := by
  obtain ⟨sol, hrun, hhas, hlook, -, -⟩ := restoreSOLUTION_required_optional
    Example.fileView Example.solutionKeys 4 (by decide) (by
      intro k hk kw hkw
      simp only [Example.solutionKeys, List.mem_cons, List.mem_singleton, List.not_mem_nil,
        or_false] at hk
      rcases hk with rfl | rfl
      · have : kw = { header := "PRESSURE", data := [200, 201, 202, 203] } := by
          have h : ecl_file_view_iget_named_kw Example.fileView "PRESSURE" 0
              = some { header := "PRESSURE", data := [200, 201, 202, 203] } := rfl
          rw [h] at hkw
          exact (Option.some.inj hkw).symm
        rw [this]; rfl
      · have h : ecl_file_view_iget_named_kw Example.fileView "RS" 0 = none := rfl
        rw [h] at hkw
        cases hkw)
  refine ⟨sol, hrun, (hhas "PRESSURE").mpr ⟨⟨_, List.mem_cons_self _ _, rfl⟩, rfl⟩, ?_, ?_, ?_⟩
  · rw [← Bool.not_eq_true, hhas "RS"]
    rintro ⟨-, h⟩
    exact absurd h (by decide)
  · rw [← Bool.not_eq_true, hhas "SWAT"]
    rintro ⟨⟨k, hk, hkey⟩, -⟩
    simp only [Example.solutionKeys, List.mem_cons, List.mem_singleton, List.not_mem_nil,
      or_false] at hk
    rcases hk with rfl | rfl <;> exact absurd hkey (by decide)
  · rw [hlook "PRESSURE"]
    rfl

/-- C10 (solution read failure): `restoreSOLUTION` fails, returning no
solution, if and only if some requested key is required and absent from the
file, or is in the file with a number of elements other than the number of
active cells; whether the key is required, and what was read before it, plays
no part in the second case. -/
theorem restoreSOLUTION_error_iff (file_view : FileView D)
    (solution_keys : List (RestartKey M)) (numcells : Nat) :
    ((∃ e, restoreSOLUTION file_view solution_keys numcells = .error e)
      ↔ ∃ k ∈ solution_keys,
          (k.required = true ∧ ecl_file_view_has_kw file_view k.key = false)
            ∨ ∃ kw, ecl_file_view_iget_named_kw file_view k.key 0 = some kw
                ∧ kw.data.length ≠ numcells)
    ∧ ((∃ e, restoreSOLUTION file_view solution_keys numcells = .error e)
      ↔ ¬ ∃ sol, restoreSOLUTION file_view solution_keys numcells = .ok sol) := by
  refine ⟨restoreSOLUTIONLoop_error_iff file_view numcells solution_keys [], ?_⟩
  cases restoreSOLUTION file_view solution_keys numcells <;> simp

/-- Witness of C10: RS is optional and PRESSURE was read before it, and the
three elements of RS where four are expected make `restoreSOLUTION` fail. -/
theorem restoreSOLUTION_error_iff_witness :
    restoreSOLUTION Example.shortFileView Example.solutionKeys 4
      = .error (.cellMismatch "RS")
      ∧ ∃ e, restoreSOLUTION Example.shortFileView Example.solutionKeys 4 = .error e :=
  ⟨rfl, (restoreSOLUTION_error_iff Example.shortFileView Example.solutionKeys 4).1.mpr
    ⟨{ key := "RS", dim := Example.Measure.gas_oil_ratio, required := false },
      by simp [Example.solutionKeys],
      Or.inr ⟨{ header := "RS", data := [7, 8, 9] }, rfl, by decide⟩⟩⟩

end SolutionTheorems

/-! ## Theorems on the layout of the extension arrays -/

section LayoutLemmas

variable {D : Type} [Zero D]

theorem pushRates_eq_rateValues (rates : data.Rates D) (phases : List data.rt) (rs : List D)
    (h : pushRates rates phases = .ok rs) :
    rs = rateValues rates phases ∧ ∀ p ∈ phases, rates.has p = true := by
  induction phases generalizing rs with
  | nil =>
    simp only [pushRates, Except.ok.injEq] at h
    simp [← h, rateValues]
  | cons p ps ih =>
    obtain ⟨x, rest, hx, hrest, rfl⟩ := (pushRates_cons_ok rates p ps rs).mp h
    obtain ⟨hr, hall⟩ := ih rest hrest
    refine ⟨?_, ?_⟩
    · simp only [rateValues, List.map_cons, hx, Option.getD_some, List.cons.injEq, true_and]
      exact hr
    · intro q hq
      rcases List.mem_cons.mp hq with rfl | hq
      · simp [data.Rates.has, hx]
      · exact hall q hq

theorem xwelConnection_eq_layout (well : data.Well D) (phases : List data.rt)
    (grid : EclipseGrid) (sc : Connection) (seg : List D)
    (h : xwelConnection well phases grid sc = .ok seg) :
    seg = connectionLayout well phases grid sc := by
  unfold xwelConnection at h
  unfold connectionLayout
  simp only [data.Connection.restart_size] at h
  by_cases hd : grid.cellActive sc.getI sc.getJ sc.getK = false
      ∨ sc.state = WellCompletion.StateEnum.SHUT
  · rw [if_pos hd] at h
    rw [if_pos ((materialised_eq_false grid sc).mpr hd)]
    simpa using h.symm
  · rw [if_neg hd] at h
    rw [if_neg (fun hm => hd ((materialised_eq_false grid sc).mp hm))]
    cases hf : well.connections.find?
        (fun c => decide (c.index = grid.activeIndex sc.getI sc.getJ sc.getK)) with
    | none =>
      simp only [hf] at h
      simpa using h.symm
    | some c =>
      simp only [hf] at h
      cases hr : pushRates c.rates phases with
      | error e => simp [hr, bind, Except.bind] at h
      | ok rs =>
        simp only [hr, bind, Except.bind, pure, Except.pure, Except.ok.injEq] at h
        rw [← h, (pushRates_eq_rateValues _ _ _ hr).1]

theorem xwelConnections_eq_layout (well : data.Well D) (phases : List data.rt)
    (grid : EclipseGrid) (scs : List Connection) (cs : List D)
    (h : xwelConnections well phases grid scs = .ok cs) :
    cs = (scs.map (connectionLayout well phases grid)).flatten := by
  induction scs generalizing cs with
  | nil =>
    simp only [xwelConnections, Except.ok.injEq] at h
    simp [← h]
  | cons sc scs ih =>
    obtain ⟨seg, rest, hseg, hrest, rfl⟩ := (xwelConnections_cons_ok _ _ _ _ _ _).mp h
    rw [List.map_cons, List.flatten_cons, ← ih rest hrest,
      ← xwelConnection_eq_layout _ _ _ _ _ hseg]

end LayoutLemmas

section LayoutTheorems

variable {D : Type} [Zero D]

/-- C13 (extension-data layout of a live well): for a scheduled well that is in
the wells map and not SHUT, the slice of every array returned by
`serialize_OPM_XWEL` that starts at the sum of the widths of the preceding
scheduled wells is bhp, temperature and the rate of each active phase (water,
oil, gas order), all of them set, followed for each scheduled connection, in
schedule order, by pressure, reservoir rate and the active-phase rates of the
first connection of the well whose index is the active index of the cell, or
by `|P| + 2` zeros when the cell is inactive, the connection is SHUT or no
connection of the well has that index; and an array is returned when the rates
read are initialised. -/
theorem serialize_OPM_XWEL_live_layout (wells : data.Wells D) (sim_step : Nat)
    (pre post : List Well) (w : Well) (phase_spec : Phases) (grid : EclipseGrid)
    (well : data.Well D)
    (hwell : wells w.name = some well)
    (hst : w.getStatus sim_step ≠ WellCommon.StatusEnum.SHUT) :
    (∀ xwel, serialize_OPM_XWEL wells sim_step (pre ++ w :: post) phase_spec grid = .ok xwel →
        ((xwel.drop (pre.map fun v => 2 + (activeRates phase_spec).length
              + (v.getConnections sim_step).length * ((activeRates phase_spec).length + 2)).sum).take
            (2 + (activeRates phase_spec).length
              + (w.getConnections sim_step).length * ((activeRates phase_spec).length + 2)))
          = well.bhp :: well.temperature :: rateValues well.rates (activeRates phase_spec)
              ++ ((w.getConnections sim_step).map
                  (connectionLayout well (activeRates phase_spec) grid)).flatten
        ∧ ∀ p ∈ activeRates phase_spec, well.rates.has p = true)
      ∧ (RatesInitialized wells sim_step (activeRates phase_spec) (pre ++ w :: post) →
          ∃ xwel, serialize_OPM_XWEL wells sim_step (pre ++ w :: post) phase_spec grid
            = .ok xwel) := by
  refine ⟨fun xwel h => ?_, serialize_OPM_XWEL_ok wells sim_step _ phase_spec grid⟩
  obtain ⟨a, seg, b, _, hseg, _, rfl, hla, hlseg⟩ := xwelLoop_split _ _ _ _ _ _ _ _ h
  have hstart : (pre.map fun v => 2 + (activeRates phase_spec).length
      + (v.getConnections sim_step).length * ((activeRates phase_spec).length + 2)).sum
      = a.length := by
    rw [hla, expected_xwel_size_eq_sum]; rfl
  have htake : ((a ++ (seg ++ b)).drop a.length).take
      (2 + (activeRates phase_spec).length
        + (w.getConnections sim_step).length * ((activeRates phase_spec).length + 2)) = seg := by
    rw [List.drop_left]
    exact List.take_left' hlseg
  rw [hstart, htake]
  rw [xwelWell_live wells sim_step _ grid w well hwell hst] at hseg
  cases hr : pushRates well.rates (activeRates phase_spec) with
  | error e => simp [hr, bind, Except.bind] at hseg
  | ok rs =>
    cases hc : xwelConnections well (activeRates phase_spec) grid
        (w.getConnections sim_step) with
    | error e => simp [hr, hc, bind, Except.bind] at hseg
    | ok cs =>
      simp only [hr, hc, bind, Except.bind, pure, Except.pure, Except.ok.injEq] at hseg
      obtain ⟨hrs, hall⟩ := pushRates_eq_rateValues _ _ _ hr
      exact ⟨by rw [← hseg, hrs, xwelConnections_eq_layout _ _ _ _ _ hc], hall⟩

/-- Witness of C13: the slice of the producer of the concrete case. -/
theorem serialize_OPM_XWEL_live_layout_witness :
    ∃ xwel : List Int,
      serialize_OPM_XWEL Example.wells 0 ([] ++ Example.producer :: [Example.injector])
          Example.phases Example.grid = .ok xwel
        ∧ (xwel.drop 0).take 20
          = [100, 50, 10, 20, 30, 4, 1, 2, 0, 0, 0, 0, 0, 0, 0, 0, 31, 7, 5, 6] :=
  ⟨[100, 50, 10, 20, 30, 4, 1, 2, 0, 0, 0, 0, 0, 0, 0, 0, 31, 7, 5, 6,
      200, 60, -8, 0, 35, -9, -8, 0], rfl,
    ((serialize_OPM_XWEL_live_layout Example.wells 0 [] [Example.injector] Example.producer
      Example.phases Example.grid Example.producerData rfl (by decide)).1 _ rfl).1⟩

end LayoutTheorems

section StatusArrayTheorems

variable {D : Type}

/-- C14 (extension-status array): for every wells map and scheduled well list,
`serialize_OPM_IWEL` returns an array with one element per scheduled well, the
element of a scheduled well being the control of the entry of its name in the
wells map if there is one and 0 otherwise; entries of the map under names that
are not scheduled play no part. -/
theorem serialize_OPM_IWEL_elements (wells : data.Wells D) (sched_wells : List Well) :
    (serialize_OPM_IWEL wells sched_wells).length = sched_wells.length
      ∧ (∀ (i : Nat) (w : Well), sched_wells[i]? = some w →
          (serialize_OPM_IWEL wells sched_wells)[i]?
            = some (match wells w.name with
                | some well => well.control
                | none => 0))
      ∧ (∀ other : data.Wells D, (∀ w ∈ sched_wells, other w.name = wells w.name) →
          serialize_OPM_IWEL other sched_wells = serialize_OPM_IWEL wells sched_wells) := by
  refine ⟨by simp [serialize_OPM_IWEL], ?_, ?_⟩
  · intro i w hw
    simp only [serialize_OPM_IWEL, List.getElem?_map, hw, Option.map_some', getctrl]
    cases wells w.name <;> rfl
  · intro other h
    simp only [serialize_OPM_IWEL]
    apply List.map_congr_left
    intro w hw
    simp only [getctrl, h w hw]

/-- Witness of C14: at step 1 of the concrete case the second scheduled well
has no entry in the map and gets 0, the third gets its control 2. -/
theorem serialize_OPM_IWEL_elements_witness :
    (serialize_OPM_IWEL Example.wells (Example.schedule.getWells 1))[1]? = some 0
      ∧ (serialize_OPM_IWEL Example.wells (Example.schedule.getWells 1))[2]? = some 2 :=
  ⟨(serialize_OPM_IWEL_elements Example.wells (Example.schedule.getWells 1)).2.1 1
      Example.shutIn rfl,
    (serialize_OPM_IWEL_elements Example.wells (Example.schedule.getWells 1)).2.1 2
      Example.injector rfl⟩

end StatusArrayTheorems

/-! ## Theorems on `checkSaveArguments` and `writeSolution` -/

section ValidationLemmas

variable {M D : Type}

theorem checkSolutionSizes_ok_iff (numActive : Nat) (sol : data.Solution M D) :
    checkSolutionSizes numActive sol = .ok ()
      ↔ ∀ elm ∈ sol, elm.2.data.length = numActive := by
  induction sol with
  | nil => simp [checkSolutionSizes]
  | cons elm rest ih =>
    simp only [checkSolutionSizes, List.mem_cons, forall_eq_or_imp]
    by_cases h : elm.2.data.length = numActive
    · simp [h, ih]
    · simp [h]

theorem checkSolutionSizes_error_iff (numActive : Nat) (sol : data.Solution M D) :
    (∃ e, checkSolutionSizes numActive sol = .error e)
      ↔ ∃ elm ∈ sol, elm.2.data.length ≠ numActive := by
  have h := checkSolutionSizes_ok_iff numActive sol
  cases hc : checkSolutionSizes numActive sol with
  | error e =>
    simp only [Except.error.injEq, exists_eq', true_iff]
    by_contra hcon
    push_neg at hcon
    rw [h.mpr hcon] at hc
    cases hc
  | ok u =>
    simp only [reduceCtorEq, exists_false, false_iff, not_exists, not_and, not_not]
    exact h.mp hc

theorem hasExtra_eq_false_iff (value : RestartValue M D) (key : String) :
    value.hasExtra key = false ↔ value.getExtra key = .error (.noExtraKey key) := by
  simp only [RestartValue.hasExtra, RestartValue.getExtra]
  cases hf : value.extra.find? (fun e => decide (e.1.key = key)) with
  | none =>
    have := List.find?_eq_none.mp hf
    simp only [iff_true]
    rw [← Bool.not_eq_true, List.any_eq_true]
    rintro ⟨x, hx, hp⟩
    exact this x hx hp
  | some e =>
    have hmem := List.mem_of_find?_eq_some hf
    have hp := List.find?_some hf
    simp only [reduceCtorEq, iff_false, Bool.not_eq_false, List.any_eq_true]
    exact ⟨e, hmem, hp⟩

/-- The result of `checkSaveArguments` once the sizes of the solution are
right. -/
theorem checkSaveArguments_of_sizes (es : EclipseState) (value : RestartValue M D)
    (grid : EclipseGrid) (hsol : ∀ elm ∈ value.solution, elm.2.data.length = grid.getNumActive) :
    checkSaveArguments es value grid
      = if es.getSimulationConfig.getThresholdPressure.size > 0 then
          match value.getExtra "THPRES" with
          | .error _ => .ok [thpresWarning]
          | .ok thpres =>
            if thpres.length ≠ es.getTableManager.getEqldims.getNumEquilRegions
                * es.getTableManager.getEqldims.getNumEquilRegions then
              .error .invalidThpres
            else .ok []
        else .ok [] := by
  unfold checkSaveArguments
  rw [(checkSolutionSizes_ok_iff _ _).mpr hsol]
  simp only [bind, Except.bind, pure, Except.pure]
  by_cases hth : es.getSimulationConfig.getThresholdPressure.size > 0
  · simp only [if_pos hth]
    by_cases hhas : value.hasExtra "THPRES" = false
    · rw [if_pos hhas, (hasExtra_eq_false_iff value "THPRES").mp hhas]
    · rw [if_neg hhas]
      cases hg : value.getExtra "THPRES" with
      | error e =>
        exfalso
        apply hhas
        rw [hasExtra_eq_false_iff, hg]
        unfold RestartValue.getExtra at hg
        cases hf : value.extra.find? (fun e => decide (e.1.key = "THPRES")) with
        | none => simp only [hf, Except.error.injEq] at hg; rw [hg]
        | some x => simp [hf] at hg
      | ok thpres => rfl
  · simp only [if_neg hth]

end ValidationLemmas

section ValidationTheorems

variable {M D : Type}

/-- C11 (pre-write validation): `checkSaveArguments` fails if and only if some
entry of the solution, of any target, has a number of values other than the
number of active cells, or threshold pressure is active and the extra
container has a THPRES array whose length is not the square of the number of
equilibration regions.  With every solution length right it succeeds with a
warning when threshold pressure is active and THPRES is absent, succeeds when
THPRES has the square length, and succeeds for any THPRES when threshold
pressure is inactive. -/
theorem checkSaveArguments_error_iff (es : EclipseState) (value : RestartValue M D)
    (grid : EclipseGrid) :
    ((∃ e, checkSaveArguments es value grid = .error e)
      ↔ ((∃ elm ∈ value.solution, elm.2.data.length ≠ grid.getNumActive)
          ∨ (0 < es.getSimulationConfig.getThresholdPressure.size
              ∧ ∃ thpres, value.getExtra "THPRES" = .ok thpres
                  ∧ thpres.length ≠ es.getTableManager.getEqldims.getNumEquilRegions
                      * es.getTableManager.getEqldims.getNumEquilRegions)))
    ∧ ((∀ elm ∈ value.solution, elm.2.data.length = grid.getNumActive) →
        (0 < es.getSimulationConfig.getThresholdPressure.size →
            value.hasExtra "THPRES" = false →
            checkSaveArguments es value grid = .ok [thpresWarning])
        ∧ (0 < es.getSimulationConfig.getThresholdPressure.size →
            ∀ thpres, value.getExtra "THPRES" = .ok thpres →
              thpres.length = es.getTableManager.getEqldims.getNumEquilRegions
                * es.getTableManager.getEqldims.getNumEquilRegions →
              checkSaveArguments es value grid = .ok [])
        ∧ (es.getSimulationConfig.getThresholdPressure.size = 0 →
            checkSaveArguments es value grid = .ok [])) := by
  constructor
  · by_cases hsol : ∀ elm ∈ value.solution, elm.2.data.length = grid.getNumActive
    · have hno : ¬ ∃ elm ∈ value.solution, elm.2.data.length ≠ grid.getNumActive := by
        rintro ⟨elm, hmem, hne⟩
        exact hne (hsol elm hmem)
      rw [checkSaveArguments_of_sizes es value grid hsol]
      simp only [hno, false_or]
      by_cases hth : es.getSimulationConfig.getThresholdPressure.size > 0
      · simp only [if_pos hth, hth, true_and]
        cases hg : value.getExtra "THPRES" with
        | error e => simp
        | ok thpres =>
          by_cases hl : thpres.length = es.getTableManager.getEqldims.getNumEquilRegions
              * es.getTableManager.getEqldims.getNumEquilRegions
          · simp [hl]
          · simp [hl]
      · have : ¬ 0 < es.getSimulationConfig.getThresholdPressure.size := hth
        simp [hth, this]
    · have hex : ∃ elm ∈ value.solution, elm.2.data.length ≠ grid.getNumActive := by
        push_neg at hsol
        exact hsol
      simp only [hex, true_or, iff_true]
      obtain ⟨e, he⟩ := (checkSolutionSizes_error_iff grid.getNumActive value.solution).mpr hex
      exact ⟨e, by simp [checkSaveArguments, he, bind, Except.bind]⟩
  · intro hsol
    rw [checkSaveArguments_of_sizes es value grid hsol]
    refine ⟨?_, ?_, ?_⟩
    · intro hth hhas
      rw [if_pos hth, (hasExtra_eq_false_iff value "THPRES").mp hhas]
    · intro hth thpres hg hl
      rw [if_pos hth, hg]
      simp [hl]
    · intro hth
      simp [hth]

/-- Witness of C11: with three equilibration regions and threshold pressure
active, a THPRES array of 9 values is accepted, one of 8 values is rejected,
and no THPRES array gives the warning only. -/
theorem checkSaveArguments_error_iff_witness :
    checkSaveArguments Example.es
        (Example.restartValue [(Example.thpresKey, [0, 1, 2, 1, 0, 3, 2, 3, 0])])
        Example.grid = .ok []
      ∧ (∃ e, checkSaveArguments Example.es
          (Example.restartValue [(Example.thpresKey, [0, 1, 2, 1, 0, 3, 2, 3])])
          Example.grid = .error e)
      ∧ checkSaveArguments Example.es (Example.restartValue []) Example.grid
          = .ok [thpresWarning] :=
  ⟨((checkSaveArguments_error_iff Example.es
        (Example.restartValue [(Example.thpresKey, [0, 1, 2, 1, 0, 3, 2, 3, 0])])
        Example.grid).2 (by decide)).2.1 (by decide) _ rfl rfl,
    (checkSaveArguments_error_iff Example.es
        (Example.restartValue [(Example.thpresKey, [0, 1, 2, 1, 0, 3, 2, 3])])
        Example.grid).1.mpr (Or.inr ⟨by decide, _, rfl, by decide⟩),
    ((checkSaveArguments_error_iff Example.es (Example.restartValue [])
        Example.grid).2 (by decide)).1 (by decide) rfl⟩

end ValidationTheorems

section SolutionWriteTheorems

variable {M D : Type}

theorem writeSolutionPass_eq (target : data.TargetType) (write_double : Bool)
    (solution : data.Solution M D) :
    writeSolutionPass target write_double solution
      = (solution.filter (fun elm => decide (elm.2.target = target))).map
          (fun elm => FileOp.add_kw elm.1 (ecl_kw elm.2.data write_double)) := by
  induction solution with
  | nil => rfl
  | cons elm rest ih =>
    by_cases h : elm.2.target = target
    · simp [writeSolutionPass, h, ih]
    · simp [writeSolutionPass, h, ih]

/-- C17 (two-pass solution write): the operations of `writeSolution` are the
start marker, one keyword per entry of target `RESTART_SOLUTION` in the order
of the solution, the end marker, then one keyword per entry of target
`RESTART_AUXILIARY` in the order of the solution; each keyword carries the key
and all values of its entry, and entries of any other target are not
written. -/
theorem writeSolution_two_pass (solution : data.Solution M D) (write_double : Bool) :
    writeSolution solution write_double
      = [FileOp.start_solution]
        ++ (solution.filter
              (fun elm => decide (elm.2.target = data.TargetType.RESTART_SOLUTION))).map
            (fun elm => FileOp.add_kw elm.1
              (if write_double then KwData.double elm.2.data else KwData.float elm.2.data))
        ++ [FileOp.end_solution]
        ++ (solution.filter
              (fun elm => decide (elm.2.target = data.TargetType.RESTART_AUXILIARY))).map
            (fun elm => FileOp.add_kw elm.1
              (if write_double then KwData.double elm.2.data else KwData.float elm.2.data)) := by
  simp only [writeSolution, writeSolutionPass_eq, ecl_kw]

end SolutionWriteTheorems

/-! ## Lemmas on the fixed-stride arrays -/

section StrideLemmas

theorem writeAt_mid {α : Type} (a r b : List α) (f : Nat) (v : α) (hf : f < r.length) :
    writeAt (a ++ (r ++ b)) (a.length + f) v = .ok (a ++ (r.set f v ++ b)) := by
  unfold writeAt
  rw [if_pos (by simp only [List.length_append]; omega),
    List.set_append_right _ _ (Nat.le_add_right _ _), Nat.add_sub_cancel_left,
    List.set_append_left _ _ hf]

theorem getElem?_flatten_uniform {α : Type} (L : List (List α)) (B : Nat)
    (h : ∀ l ∈ L, l.length = B) (w j : Nat) (hj : j < B) :
    L.flatten[w * B + j]? = (L[w]?).bind (fun l => l[j]?) := by
  induction L generalizing w with
  | nil => simp
  | cons l L ih =>
    have hl : l.length = B := h l (List.mem_cons_self _ _)
    cases w with
    | zero =>
      simp only [Nat.zero_mul, Nat.zero_add, List.flatten_cons, List.getElem?_cons_zero,
        Option.some_bind]
      exact List.getElem?_append_left (by omega)
    | succ w =>
      rw [List.flatten_cons, List.getElem?_append_right (by rw [hl, Nat.succ_mul]; omega)]
      have : (w + 1) * B + j - l.length = w * B + j := by rw [hl, Nat.succ_mul]; omega
      rw [this, ih (fun l hl => h l (List.mem_cons_of_mem _ hl))]
      simp

theorem length_flatten_uniform {α : Type} (L : List (List α)) (B : Nat)
    (h : ∀ l ∈ L, l.length = B) : L.flatten.length = L.length * B := by
  induction L with
  | nil => simp
  | cons l L ih =>
    rw [List.flatten_cons, List.length_append, h l (List.mem_cons_self _ _),
      ih (fun l hl => h l (List.mem_cons_of_mem _ hl)), List.length_cons, Nat.succ_mul]
    omega

theorem iconRecord_length (k : WellConst) (connection : Connection) :
    (iconRecord k connection).length = NICONZ := by
  simp [iconRecord]

theorem iconBlock_length (k : WellConst) (sim_step ncwmax : Nat) (well : Well)
    (h : (well.getConnections sim_step).length ≤ ncwmax) :
    (iconBlock k sim_step ncwmax well).length = ncwmax * NICONZ := by
  unfold iconBlock
  rw [List.length_append, length_flatten_uniform _ NICONZ, List.length_map,
    List.length_replicate, ← Nat.add_mul]
  · congr 1; omega
  · intro l hl
    obtain ⟨c, -, rfl⟩ := List.mem_map.mp hl
    exact iconRecord_length k c

/-- The six assignments of one connection, made in a record of zeros that
stands between two parts of the array. -/
theorem iconConnection_block (k : WellConst) (hk : k.iconValid) (connection : Connection)
    (a b : List Int) :
    iconConnection k connection a.length (a ++ (List.replicate NICONZ 0 ++ b))
      = .ok (a ++ (iconRecord k connection ++ b)) := by
  obtain ⟨h1, h2, h3, h4, h5, h6, -⟩ := hk
  unfold iconConnection iconRecord
  simp only [bind, Except.bind]
  rw [writeAt_mid _ _ _ _ _ (by simpa using h1)]
  simp only []
  rw [writeAt_mid _ _ _ _ _ (by simpa using h2)]
  simp only []
  rw [writeAt_mid _ _ _ _ _ (by simpa using h3)]
  simp only []
  rw [writeAt_mid _ _ _ _ _ (by simpa using h4)]
  simp only []
  rw [writeAt_mid _ _ _ _ _ (by simpa using h5)]
  simp only []
  rw [writeAt_mid _ _ _ _ _ (by simpa using h6)]

theorem replicate_succ_mul (m B : Nat) (b : List Int) :
    List.replicate ((m + 1) * B) (0 : Int) ++ b
      = List.replicate B 0 ++ (List.replicate (m * B) 0 ++ b) := by
  rw [Nat.succ_mul, Nat.add_comm, List.replicate_add, List.append_assoc]

/-- The connection loop of `serialize_ICON` on a block of zeros that stands
between two parts of the array: the records of the connections, then the zeros
left of the block. -/
theorem iconConnections_block (k : WellConst) (hk : k.iconValid) (cs : List Connection)
    (well_offset connection_offset m : Nat) (a b : List Int)
    (hoff : well_offset + connection_offset = a.length) (hm : cs.length ≤ m) :
    iconConnections k cs well_offset connection_offset
        (a ++ (List.replicate (m * NICONZ) 0 ++ b))
      = .ok (a ++ ((cs.map (iconRecord k)).flatten
          ++ (List.replicate ((m - cs.length) * NICONZ) 0 ++ b))) := by
  induction cs generalizing connection_offset m a with
  | nil => simp [iconConnections]
  | cons c cs ih =>
    cases m with
    | zero => simp at hm
    | succ m =>
      simp only [List.length_cons, Nat.add_le_add_iff_right] at hm
      simp only [iconConnections, hoff]
      rw [replicate_succ_mul, iconConnection_block k hk c a _]
      simp only [bind, Except.bind]
      have hlen : well_offset + (connection_offset + NICONZ) = (a ++ iconRecord k c).length := by
        rw [List.length_append, iconRecord_length]; omega
      have := ih (connection_offset + NICONZ) m (a ++ iconRecord k c) hlen hm
      rw [List.append_assoc] at this
      rw [this]
      simp only [List.map_cons, List.flatten_cons, List.append_assoc, List.length_cons,
        Nat.add_sub_add_right]

/-- The well loop of `serialize_ICON` on the zeros left for the wells it still
has to write: one block per well. -/
theorem iconWells_block (k : WellConst) (hk : k.iconValid) (sim_step ncwmax : Nat)
    (ws : List Well) (a : List Int)
    (hmax : ∀ w ∈ ws, (w.getConnections sim_step).length ≤ ncwmax) :
    iconWells k sim_step ncwmax ws a.length
        (a ++ List.replicate (ws.length * ncwmax * NICONZ) 0)
      = .ok (a ++ (ws.map (iconBlock k sim_step ncwmax)).flatten) := by
  induction ws generalizing a with
  | nil => simp [iconWells]
  | cons w ws ih =>
    have hw := hmax w (List.mem_cons_self _ _)
    have hsplit : List.replicate ((ws.length + 1) * ncwmax * NICONZ) (0 : Int)
        = List.replicate (ncwmax * NICONZ) 0
          ++ (List.replicate (ws.length * ncwmax * NICONZ) 0 ++ []) := by
      rw [List.append_nil, ← List.replicate_add]
      congr 1
      ring
    simp only [iconWells, List.length_cons]
    rw [hsplit, iconConnections_block k hk _ a.length 0 ncwmax a _ rfl hw]
    simp only [bind, Except.bind, List.append_nil]
    have hlen : a.length + ncwmax * NICONZ = (a ++ iconBlock k sim_step ncwmax w).length := by
      rw [List.length_append, iconBlock_length k sim_step ncwmax w hw]
    have := ih (a ++ iconBlock k sim_step ncwmax w)
      (fun v hv => hmax v (List.mem_cons_of_mem _ hv))
    rw [← hlen] at this
    simp only [iconBlock, List.append_assoc] at this ⊢
    rw [this]
    simp only [List.map_cons, List.flatten_cons, List.append_assoc, iconBlock]

/-- The array of `serialize_ICON`: the blocks of the scheduled wells. -/
theorem serialize_ICON_eq (k : WellConst) (hk : k.iconValid) (sim_step ncwmax : Nat)
    (sched_wells : List Well) (grid : EclipseGrid)
    (hmax : ∀ w ∈ sched_wells, (w.getConnections sim_step).length ≤ ncwmax) :
    serialize_ICON k sim_step ncwmax sched_wells grid
      = .ok ((sched_wells.map (iconBlock k sim_step ncwmax)).flatten) := by
  have := iconWells_block k hk sim_step ncwmax sched_wells [] hmax
  simpa [serialize_ICON] using this

theorem iconValid_ne (k : WellConst) (hk : k.iconValid) :
    k.ICON_IC_INDEX ≠ k.ICON_I_INDEX ∧ k.ICON_IC_INDEX ≠ k.ICON_J_INDEX
      ∧ k.ICON_IC_INDEX ≠ k.ICON_K_INDEX ∧ k.ICON_IC_INDEX ≠ k.ICON_DIRECTION_INDEX
      ∧ k.ICON_IC_INDEX ≠ k.ICON_STATUS_INDEX ∧ k.ICON_I_INDEX ≠ k.ICON_J_INDEX
      ∧ k.ICON_I_INDEX ≠ k.ICON_K_INDEX ∧ k.ICON_I_INDEX ≠ k.ICON_DIRECTION_INDEX
      ∧ k.ICON_I_INDEX ≠ k.ICON_STATUS_INDEX ∧ k.ICON_J_INDEX ≠ k.ICON_K_INDEX
      ∧ k.ICON_J_INDEX ≠ k.ICON_DIRECTION_INDEX ∧ k.ICON_J_INDEX ≠ k.ICON_STATUS_INDEX
      ∧ k.ICON_K_INDEX ≠ k.ICON_DIRECTION_INDEX ∧ k.ICON_K_INDEX ≠ k.ICON_STATUS_INDEX
      ∧ k.ICON_DIRECTION_INDEX ≠ k.ICON_STATUS_INDEX := by
  obtain ⟨-, -, -, -, -, -, hnd⟩ := hk
  simp only [List.nodup_cons, List.mem_cons, List.mem_singleton, List.not_mem_nil, not_or,
    List.nodup_nil, and_true, not_false_eq_true] at hnd
  tauto

/-- The elements of a connection record. -/
theorem iconRecord_elements (k : WellConst) (hk : k.iconValid) (connection : Connection) :
    (iconRecord k connection)[k.ICON_I_INDEX]? = some ((connection.getI : Int) + 1)
      ∧ (iconRecord k connection)[k.ICON_J_INDEX]? = some ((connection.getJ : Int) + 1)
      ∧ (iconRecord k connection)[k.ICON_K_INDEX]? = some ((connection.getK : Int) + 1)
      ∧ (iconRecord k connection)[k.ICON_DIRECTION_INDEX]? = some connection.dir
      ∧ (iconRecord k connection)[k.ICON_IC_INDEX]? = some 1
      ∧ (iconRecord k connection)[k.ICON_STATUS_INDEX]?
          = some (if connection.state = WellCompletion.StateEnum.OPEN then 1 else 0)
      ∧ ∀ f, f < NICONZ →
          f ∉ [k.ICON_IC_INDEX, k.ICON_I_INDEX, k.ICON_J_INDEX, k.ICON_K_INDEX,
            k.ICON_DIRECTION_INDEX, k.ICON_STATUS_INDEX] →
          (iconRecord k connection)[f]? = some 0 := by
  obtain ⟨n1, n2, n3, n4, n5, n6, n7, n8, n9, n10, n11, n12, n13, n14, n15⟩ := iconValid_ne k hk
  obtain ⟨h1, h2, h3, h4, h5, h6, -⟩ := hk
  unfold iconRecord
  refine ⟨?_, ?_, ?_, ?_, ?_, ?_, ?_⟩
  · rw [List.getElem?_set_ne n9.symm, List.getElem?_set_ne n8.symm,
      List.getElem?_set_ne n7.symm, List.getElem?_set_ne n6.symm,
      List.getElem?_set_self (by simpa using h2)]
  · rw [List.getElem?_set_ne n12.symm, List.getElem?_set_ne n11.symm,
      List.getElem?_set_ne n10.symm, List.getElem?_set_self (by simpa using h3)]
  · rw [List.getElem?_set_ne n14.symm, List.getElem?_set_ne n13.symm,
      List.getElem?_set_self (by simpa using h4)]
  · rw [List.getElem?_set_ne n15.symm, List.getElem?_set_self (by simpa using h5)]
  · rw [List.getElem?_set_ne n5.symm, List.getElem?_set_ne n4.symm,
      List.getElem?_set_ne n3.symm, List.getElem?_set_ne n2.symm,
      List.getElem?_set_ne n1.symm, List.getElem?_set_self (by simpa using h1)]
  · rw [List.getElem?_set_self (by simpa using h6)]
  · intro f hf hnot
    simp only [List.mem_cons, List.mem_singleton, List.not_mem_nil, not_or, or_false] at hnot
    obtain ⟨m1, m2, m3, m4, m5, m6⟩ := hnot
    rw [List.getElem?_set_ne (Ne.symm m6), List.getElem?_set_ne (Ne.symm m5),
      List.getElem?_set_ne (Ne.symm m4), List.getElem?_set_ne (Ne.symm m3),
      List.getElem?_set_ne (Ne.symm m2), List.getElem?_set_ne (Ne.symm m1),
      List.getElem?_replicate, if_pos hf]

/-- The element of the blocks of `ICON` at position `f` of the record of the
connection `c` of the well `w`. -/
theorem iconBlocks_getElem? (k : WellConst) (sim_step ncwmax : Nat) (sched_wells : List Well)
    (hmax : ∀ w ∈ sched_wells, (w.getConnections sim_step).length ≤ ncwmax)
    (w c f : Nat) (well : Well) (connection : Connection)
    (hw : sched_wells[w]? = some well)
    (hc : (well.getConnections sim_step)[c]? = some connection) (hf : f < NICONZ) :
    ((sched_wells.map (iconBlock k sim_step ncwmax)).flatten)[(w * ncwmax + c) * NICONZ + f]?
      = (iconRecord k connection)[f]? := by
  have hwmem : well ∈ sched_wells := List.getElem?_mem hw
  have hcl : c < (well.getConnections sim_step).length := by
    by_contra hcon
    rw [List.getElem?_eq_none (by omega)] at hc
    cases hc
  have hle := hmax well hwmem
  have hidx : (w * ncwmax + c) * NICONZ + f = w * (ncwmax * NICONZ) + (c * NICONZ + f) := by
    ring
  have hin : c * NICONZ + f < (well.getConnections sim_step).length * NICONZ := by
    calc c * NICONZ + f < c * NICONZ + NICONZ := by omega
      _ = (c + 1) * NICONZ := by ring
      _ ≤ (well.getConnections sim_step).length * NICONZ := Nat.mul_le_mul_right _ hcl
  have hin2 : c * NICONZ + f < ncwmax * NICONZ :=
    lt_of_lt_of_le hin (Nat.mul_le_mul_right _ hle)
  rw [hidx, getElem?_flatten_uniform _ (ncwmax * NICONZ) _ w _ hin2]
  · rw [List.getElem?_map, hw]
    simp only [Option.map_some', Option.some_bind, iconBlock]
    have hflen : (((well.getConnections sim_step).map (iconRecord k)).flatten).length
        = (well.getConnections sim_step).length * NICONZ := by
      rw [length_flatten_uniform _ NICONZ, List.length_map]
      intro l hl
      obtain ⟨x, -, rfl⟩ := List.mem_map.mp hl
      exact iconRecord_length k x
    rw [List.getElem?_append_left (by rw [hflen]; exact hin),
      getElem?_flatten_uniform _ NICONZ _ c f hf]
    · rw [List.getElem?_map, hc]
      rfl
    · intro l hl
      obtain ⟨x, -, rfl⟩ := List.mem_map.mp hl
      exact iconRecord_length k x
  · intro l hl
    obtain ⟨x, hx, rfl⟩ := List.mem_map.mp hl
    exact iconBlock_length k sim_step ncwmax x (hmax x hx)

/-- An element of the blocks of `ICON` is an element of the record of a
scheduled connection, or 0. -/
theorem iconBlocks_zero_or_record (k : WellConst) (sim_step ncwmax : Nat)
    (sched_wells : List Well)
    (hmax : ∀ w ∈ sched_wells, (w.getConnections sim_step).length ≤ ncwmax)
    (i : Nat) (hi : i < sched_wells.length * (ncwmax * NICONZ)) :
    ((sched_wells.map (iconBlock k sim_step ncwmax)).flatten)[i]? = some 0
      ∨ ∃ (w c f : Nat) (well : Well) (connection : Connection),
          sched_wells[w]? = some well
            ∧ (well.getConnections sim_step)[c]? = some connection
            ∧ f < NICONZ ∧ i = (w * ncwmax + c) * NICONZ + f
            ∧ ((sched_wells.map (iconBlock k sim_step ncwmax)).flatten)[i]?
                = (iconRecord k connection)[f]? := by
  have hB : 0 < ncwmax * NICONZ := by
    rcases Nat.eq_zero_or_pos (ncwmax * NICONZ) with h | h
    · rw [h] at hi; simp at hi
    · exact h
  have hj : i % (ncwmax * NICONZ) < ncwmax * NICONZ := Nat.mod_lt _ hB
  have hw : i / (ncwmax * NICONZ) < sched_wells.length :=
    Nat.div_lt_of_lt_mul (by rw [Nat.mul_comm (ncwmax * NICONZ)]; exact hi)
  have hi_eq : i = i / (ncwmax * NICONZ) * (ncwmax * NICONZ) + i % (ncwmax * NICONZ) :=
    (Nat.div_add_mod' i (ncwmax * NICONZ)).symm
  obtain ⟨well, hwell⟩ : ∃ well, sched_wells[i / (ncwmax * NICONZ)]? = some well :=
    ⟨_, List.getElem?_eq_getElem hw⟩
  have hle := hmax well (List.getElem?_mem hwell)
  by_cases hin : i % (ncwmax * NICONZ) < (well.getConnections sim_step).length * NICONZ
  · right
    have h15 : 0 < NICONZ := by decide
    have hc : i % (ncwmax * NICONZ) / NICONZ < (well.getConnections sim_step).length :=
      Nat.div_lt_of_lt_mul (by rw [Nat.mul_comm NICONZ]; exact hin)
    obtain ⟨connection, hconn⟩ : ∃ connection,
        (well.getConnections sim_step)[i % (ncwmax * NICONZ) / NICONZ]? = some connection :=
      ⟨_, List.getElem?_eq_getElem hc⟩
    have hf : i % (ncwmax * NICONZ) % NICONZ < NICONZ := Nat.mod_lt _ h15
    have hj_eq : i % (ncwmax * NICONZ)
        = i % (ncwmax * NICONZ) / NICONZ * NICONZ + i % (ncwmax * NICONZ) % NICONZ :=
      (Nat.div_add_mod' _ NICONZ).symm
    have hpos : i = (i / (ncwmax * NICONZ) * ncwmax + i % (ncwmax * NICONZ) / NICONZ) * NICONZ
        + i % (ncwmax * NICONZ) % NICONZ := by
      calc i = i / (ncwmax * NICONZ) * (ncwmax * NICONZ) + i % (ncwmax * NICONZ) := hi_eq
        _ = i / (ncwmax * NICONZ) * (ncwmax * NICONZ)
            + (i % (ncwmax * NICONZ) / NICONZ * NICONZ + i % (ncwmax * NICONZ) % NICONZ) := by
              rw [← hj_eq]
        _ = _ := by ring
    refine ⟨_, _, _, well, connection, hwell, hconn, hf, hpos, ?_⟩
    have := iconBlocks_getElem? k sim_step ncwmax sched_wells hmax _ _ _ well connection
      hwell hconn hf
    rw [← hpos] at this
    exact this
  · left
    rw [hi_eq, getElem?_flatten_uniform _ (ncwmax * NICONZ) _ _ _ hj]
    · rw [List.getElem?_map, hwell]
      simp only [Option.map_some', Option.some_bind, iconBlock]
      have hflen : (((well.getConnections sim_step).map (iconRecord k)).flatten).length
          = (well.getConnections sim_step).length * NICONZ := by
        rw [length_flatten_uniform _ NICONZ, List.length_map]
        intro l hl
        obtain ⟨x, -, rfl⟩ := List.mem_map.mp hl
        exact iconRecord_length k x
      rw [List.getElem?_append_right (by rw [hflen]; omega), List.getElem?_replicate, hflen,
        if_pos]
      have : (ncwmax - (well.getConnections sim_step).length) * NICONZ
          = ncwmax * NICONZ - (well.getConnections sim_step).length * NICONZ :=
        Nat.sub_mul _ _ _
      omega
    · intro l hl
      obtain ⟨x, hx, rfl⟩ := List.mem_map.mp hl
      exact iconBlock_length k sim_step ncwmax x (hmax x hx)

theorem iwelRecord_length (k : WellConst) (step : Nat) (grid : EclipseGrid) (well : Well) :
    (iwelRecord k step grid well).length = NIWELZ := by
  simp [iwelRecord]

/-- The six assignments of one well, made in a record of zeros that stands
between two parts of the array. -/
theorem iwelWell_block (k : WellConst) (hk : k.iwelValid) (step : Nat) (grid : EclipseGrid)
    (well : Well) (a b : List Int) :
    iwelWell k step grid well a.length (a ++ (List.replicate NIWELZ 0 ++ b))
      = .ok (a ++ (iwelRecord k step grid well ++ b)) := by
  obtain ⟨h1, h2, h3, h4, h5, h6, -⟩ := hk
  unfold iwelWell iwelRecord
  simp only [bind, Except.bind]
  rw [writeAt_mid _ _ _ _ _ (by simpa using h1)]
  simp only []
  rw [writeAt_mid _ _ _ _ _ (by simpa using h2)]
  simp only []
  rw [writeAt_mid _ _ _ _ _ (by simpa using h3)]
  simp only []
  rw [writeAt_mid _ _ _ _ _ (by simpa using h4)]
  simp only []
  rw [writeAt_mid _ _ _ _ _ (by simpa using h5)]
  simp only []
  rw [writeAt_mid _ _ _ _ _ (by simpa using h6)]

/-- The loop of `serialize_IWEL` on the zeros left for the wells it still has
to write: one record per well. -/
theorem iwelWells_block (k : WellConst) (hk : k.iwelValid) (step : Nat) (grid : EclipseGrid)
    (ws : List Well) (a : List Int) :
    iwelWells k step grid ws a.length (a ++ List.replicate (ws.length * NIWELZ) 0)
      = .ok (a ++ (ws.map (iwelRecord k step grid)).flatten) := by
  induction ws generalizing a with
  | nil => simp [iwelWells]
  | cons w ws ih =>
    have hsplit : List.replicate ((ws.length + 1) * NIWELZ) (0 : Int)
        = List.replicate NIWELZ 0 ++ (List.replicate (ws.length * NIWELZ) 0 ++ []) := by
      rw [List.append_nil, ← List.replicate_add]
      congr 1
      ring
    simp only [iwelWells, List.length_cons]
    rw [hsplit, iwelWell_block k hk step grid w a _]
    simp only [bind, Except.bind, List.append_nil]
    have hlen : a.length + NIWELZ = (a ++ iwelRecord k step grid w).length := by
      rw [List.length_append, iwelRecord_length]
    have := ih (a ++ iwelRecord k step grid w)
    rw [← hlen, List.append_assoc] at this
    rw [this]
    simp only [List.map_cons, List.flatten_cons, List.append_assoc]

/-- The array of `serialize_IWEL`: the records of the wells. -/
theorem serialize_IWEL_eq (k : WellConst) (hk : k.iwelValid) (step : Nat) (wells : List Well)
    (grid : EclipseGrid) :
    serialize_IWEL k step wells grid = .ok ((wells.map (iwelRecord k step grid)).flatten) := by
  have := iwelWells_block k hk step grid wells []
  simpa [serialize_IWEL] using this

theorem iwelValid_ne (k : WellConst) (hk : k.iwelValid) :
    k.IWEL_HEADI_INDEX ≠ k.IWEL_HEADJ_INDEX ∧ k.IWEL_HEADI_INDEX ≠ k.IWEL_CONNECTIONS_INDEX
      ∧ k.IWEL_HEADI_INDEX ≠ k.IWEL_GROUP_INDEX ∧ k.IWEL_HEADI_INDEX ≠ k.IWEL_TYPE_INDEX
      ∧ k.IWEL_HEADI_INDEX ≠ k.IWEL_STATUS_INDEX ∧ k.IWEL_HEADJ_INDEX ≠ k.IWEL_CONNECTIONS_INDEX
      ∧ k.IWEL_HEADJ_INDEX ≠ k.IWEL_GROUP_INDEX ∧ k.IWEL_HEADJ_INDEX ≠ k.IWEL_TYPE_INDEX
      ∧ k.IWEL_HEADJ_INDEX ≠ k.IWEL_STATUS_INDEX ∧ k.IWEL_CONNECTIONS_INDEX ≠ k.IWEL_GROUP_INDEX
      ∧ k.IWEL_CONNECTIONS_INDEX ≠ k.IWEL_TYPE_INDEX
      ∧ k.IWEL_CONNECTIONS_INDEX ≠ k.IWEL_STATUS_INDEX
      ∧ k.IWEL_GROUP_INDEX ≠ k.IWEL_TYPE_INDEX ∧ k.IWEL_GROUP_INDEX ≠ k.IWEL_STATUS_INDEX
      ∧ k.IWEL_TYPE_INDEX ≠ k.IWEL_STATUS_INDEX := by
  obtain ⟨-, -, -, -, -, -, hnd⟩ := hk
  simp only [List.nodup_cons, List.mem_cons, List.mem_singleton, List.not_mem_nil, not_or,
    List.nodup_nil, and_true, not_false_eq_true] at hnd
  tauto

/-- The elements of a well record. -/
theorem iwelRecord_elements (k : WellConst) (hk : k.iwelValid) (step : Nat)
    (grid : EclipseGrid) (well : Well) :
    (iwelRecord k step grid well)[k.IWEL_HEADI_INDEX]? = some ((well.getHeadI step : Int) + 1)
      ∧ (iwelRecord k step grid well)[k.IWEL_HEADJ_INDEX]?
          = some ((well.getHeadJ step : Int) + 1)
      ∧ (iwelRecord k step grid well)[k.IWEL_CONNECTIONS_INDEX]?
          = some ((well.getActiveConnections step grid).length : Int)
      ∧ (iwelRecord k step grid well)[k.IWEL_GROUP_INDEX]? = some 1
      ∧ (iwelRecord k step grid well)[k.IWEL_TYPE_INDEX]? = some (to_ert_welltype k well step)
      ∧ (iwelRecord k step grid well)[k.IWEL_STATUS_INDEX]?
          = some (if well.getStatus step = WellCommon.StatusEnum.OPEN then 1 else 0)
      ∧ ∀ f, f < NIWELZ →
          f ∉ [k.IWEL_HEADI_INDEX, k.IWEL_HEADJ_INDEX, k.IWEL_CONNECTIONS_INDEX,
            k.IWEL_GROUP_INDEX, k.IWEL_TYPE_INDEX, k.IWEL_STATUS_INDEX] →
          (iwelRecord k step grid well)[f]? = some 0 := by
  obtain ⟨n1, n2, n3, n4, n5, n6, n7, n8, n9, n10, n11, n12, n13, n14, n15⟩ := iwelValid_ne k hk
  obtain ⟨h1, h2, h3, h4, h5, h6, -⟩ := hk
  unfold iwelRecord
  refine ⟨?_, ?_, ?_, ?_, ?_, ?_, ?_⟩
  · rw [List.getElem?_set_ne n5.symm, List.getElem?_set_ne n4.symm,
      List.getElem?_set_ne n3.symm, List.getElem?_set_ne n2.symm,
      List.getElem?_set_ne n1.symm, List.getElem?_set_self (by simpa using h1)]
  · rw [List.getElem?_set_ne n9.symm, List.getElem?_set_ne n8.symm,
      List.getElem?_set_ne n7.symm, List.getElem?_set_ne n6.symm,
      List.getElem?_set_self (by simpa using h2)]
  · rw [List.getElem?_set_ne n12.symm, List.getElem?_set_ne n11.symm,
      List.getElem?_set_ne n10.symm, List.getElem?_set_self (by simpa using h3)]
  · rw [List.getElem?_set_ne n14.symm, List.getElem?_set_ne n13.symm,
      List.getElem?_set_self (by simpa using h4)]
  · rw [List.getElem?_set_ne n15.symm, List.getElem?_set_self (by simpa using h5)]
  · rw [List.getElem?_set_self (by simpa using h6)]
  · intro f hf hnot
    simp only [List.mem_cons, List.mem_singleton, List.not_mem_nil, not_or, or_false] at hnot
    obtain ⟨m1, m2, m3, m4, m5, m6⟩ := hnot
    rw [List.getElem?_set_ne (Ne.symm m6), List.getElem?_set_ne (Ne.symm m5),
      List.getElem?_set_ne (Ne.symm m4), List.getElem?_set_ne (Ne.symm m3),
      List.getElem?_set_ne (Ne.symm m2), List.getElem?_set_ne (Ne.symm m1),
      List.getElem?_replicate, if_pos hf]

theorem iwelRecords_getElem? (k : WellConst) (step : Nat) (grid : EclipseGrid)
    (wells : List Well) (w f : Nat) (well : Well) (hw : wells[w]? = some well)
    (hf : f < NIWELZ) :
    ((wells.map (iwelRecord k step grid)).flatten)[w * NIWELZ + f]?
      = (iwelRecord k step grid well)[f]? := by
  rw [getElem?_flatten_uniform _ NIWELZ _ w f hf]
  · rw [List.getElem?_map, hw]
    rfl
  · intro l hl
    obtain ⟨x, -, rfl⟩ := List.mem_map.mp hl
    exact iwelRecord_length k step grid x

theorem to_ert_welltype_eq (k : WellConst) (well : Well) (timestep : Nat) :
    to_ert_welltype k well timestep
      = if well.isProducer timestep = true then k.IWEL_PRODUCER
        else if well.injectorType timestep = WellInjector.TypeEnum.WATER then
          k.IWEL_WATER_INJECTOR
        else if well.injectorType timestep = WellInjector.TypeEnum.GAS then
          k.IWEL_GAS_INJECTOR
        else if well.injectorType timestep = WellInjector.TypeEnum.OIL then
          k.IWEL_OIL_INJECTOR
        else k.IWEL_UNDOCUMENTED_ZERO := by
  unfold to_ert_welltype
  cases well.isProducer timestep <;> cases well.injectorType timestep <;> simp

end StrideLemmas

/-! ## Theorems on the fixed-stride arrays -/

section StrideTheorems

/-- C15 (connection records): for every scheduled well list and `ncwmax` at
least the connection count of every well, and positions of the record fields
that are distinct and inside a record, `serialize_ICON` returns an array of
length `wellCount * ncwmax * 15` in which the record of the connection `c` of
the well `w`, at offset `(w * ncwmax + c) * 15`, holds the coordinates I + 1,
J + 1 and K + 1, the direction code, the is-defined flag 1 and an open flag
that is 1 exactly when the state of the connection is OPEN; every element that
is not one of these six elements of a scheduled connection is 0. -/
theorem serialize_ICON_records (k : WellConst) (hk : k.iconValid) (sim_step ncwmax : Nat)
    (sched_wells : List Well) (grid : EclipseGrid)
    (hmax : ∀ w ∈ sched_wells, (w.getConnections sim_step).length ≤ ncwmax) :
    ∃ values, serialize_ICON k sim_step ncwmax sched_wells grid = .ok values
      ∧ values.length = sched_wells.length * ncwmax * NICONZ
      ∧ (∀ (w c : Nat) (well : Well) (connection : Connection),
          sched_wells[w]? = some well →
          (well.getConnections sim_step)[c]? = some connection →
          values[(w * ncwmax + c) * NICONZ + k.ICON_I_INDEX]?
              = some ((connection.getI : Int) + 1)
            ∧ values[(w * ncwmax + c) * NICONZ + k.ICON_J_INDEX]?
              = some ((connection.getJ : Int) + 1)
            ∧ values[(w * ncwmax + c) * NICONZ + k.ICON_K_INDEX]?
              = some ((connection.getK : Int) + 1)
            ∧ values[(w * ncwmax + c) * NICONZ + k.ICON_DIRECTION_INDEX]?
              = some connection.dir
            ∧ values[(w * ncwmax + c) * NICONZ + k.ICON_IC_INDEX]? = some 1
            ∧ values[(w * ncwmax + c) * NICONZ + k.ICON_STATUS_INDEX]?
              = some (if connection.state = WellCompletion.StateEnum.OPEN then 1 else 0))
      ∧ (∀ i, i < values.length →
          values[i]? = some 0
            ∨ ∃ (w c f : Nat) (well : Well) (connection : Connection),
                sched_wells[w]? = some well
                  ∧ (well.getConnections sim_step)[c]? = some connection
                  ∧ f ∈ [k.ICON_IC_INDEX, k.ICON_I_INDEX, k.ICON_J_INDEX, k.ICON_K_INDEX,
                      k.ICON_DIRECTION_INDEX, k.ICON_STATUS_INDEX]
                  ∧ i = (w * ncwmax + c) * NICONZ + f) := by
  have hlen : ((sched_wells.map (iconBlock k sim_step ncwmax)).flatten).length
      = sched_wells.length * (ncwmax * NICONZ) := by
    rw [length_flatten_uniform _ (ncwmax * NICONZ), List.length_map]
    intro l hl
    obtain ⟨x, hx, rfl⟩ := List.mem_map.mp hl
    exact iconBlock_length k sim_step ncwmax x (hmax x hx)
  refine ⟨_, serialize_ICON_eq k hk sim_step ncwmax sched_wells grid hmax, ?_, ?_, ?_⟩
  · rw [hlen, Nat.mul_assoc]
  · intro w c well connection hw hc
    obtain ⟨e1, e2, e3, e4, e5, e6, -⟩ := iconRecord_elements k hk connection
    obtain ⟨h1, h2, h3, h4, h5, h6, -⟩ := hk
    refine ⟨?_, ?_, ?_, ?_, ?_, ?_⟩
    · rw [iconBlocks_getElem? k sim_step ncwmax sched_wells hmax w c _ well connection hw hc h2]
      exact e1
    · rw [iconBlocks_getElem? k sim_step ncwmax sched_wells hmax w c _ well connection hw hc h3]
      exact e2
    · rw [iconBlocks_getElem? k sim_step ncwmax sched_wells hmax w c _ well connection hw hc h4]
      exact e3
    · rw [iconBlocks_getElem? k sim_step ncwmax sched_wells hmax w c _ well connection hw hc h5]
      exact e4
    · rw [iconBlocks_getElem? k sim_step ncwmax sched_wells hmax w c _ well connection hw hc h1]
      exact e5
    · rw [iconBlocks_getElem? k sim_step ncwmax sched_wells hmax w c _ well connection hw hc h6]
      exact e6
  · intro i hi
    rw [hlen] at hi
    rcases iconBlocks_zero_or_record k sim_step ncwmax sched_wells hmax i hi with h0 | h
    · exact Or.inl h0
    · obtain ⟨w, c, f, well, connection, hw, hc, hf, hpos, hval⟩ := h
      by_cases hmem : f ∈ [k.ICON_IC_INDEX, k.ICON_I_INDEX, k.ICON_J_INDEX, k.ICON_K_INDEX,
          k.ICON_DIRECTION_INDEX, k.ICON_STATUS_INDEX]
      · exact Or.inr ⟨w, c, f, well, connection, hw, hc, hmem, hpos⟩
      · left
        rw [hval]
        exact (iconRecord_elements k hk connection).2.2.2.2.2.2 f hf hmem

/-- Witness of C15: the connection array of step 0 of the concrete case, with
room for four connections per well. -/
theorem serialize_ICON_records_witness :
    ∃ values, serialize_ICON Example.wellConst 0 4 (Example.schedule.getWells 0) Example.grid
        = .ok values
      ∧ values.length = 120
      ∧ values[(0 * 4 + 1) * 15 + 3]? = some 2
      ∧ values[(0 * 4 + 1) * 15 + 5]? = some 0
      ∧ values[(1 * 4 + 0) * 15 + 1]? = some 2 := by
  obtain ⟨values, hrun, hlen, hrec, -⟩ := serialize_ICON_records Example.wellConst
    (by decide) 0 4 (Example.schedule.getWells 0) Example.grid (by decide)
  obtain ⟨-, -, hk, -, -, hs⟩ := hrec 0 1 Example.producer
    { getI := 0, getJ := 0, getK := 1, state := .SHUT, dir := 3 } rfl rfl
  obtain ⟨hi, -⟩ := hrec 1 0 Example.injector
    { getI := 1, getJ := 0, getK := 0, state := .OPEN, dir := 3 } rfl rfl
  exact ⟨values, hrun, hlen, hk, hs, hi⟩

/-- C16 (well status/type records): for every scheduled well list, and
positions of the record fields that are distinct and inside a record,
`serialize_IWEL` returns an array of length `wellCount * 11` in which the
record of the well `w`, at offset `11 * w`, holds head I + 1 and head J + 1,
the number of active connections of the well, the group placeholder 1, an open
flag that is 1 exactly when the status of the well is OPEN, and a type code
that is PRODUCER when the well is a producer at the step, whatever its
injector type, and otherwise WATER_INJECTOR, GAS_INJECTOR or OIL_INJECTOR for
the injector types WATER, GAS and OIL and UNDOCUMENTED_ZERO for any other
injector type; every element that is not one of these six elements of a well
is 0. -/
theorem serialize_IWEL_records (k : WellConst) (hk : k.iwelValid) (step : Nat)
    (wells : List Well) (grid : EclipseGrid) :
    ∃ values, serialize_IWEL k step wells grid = .ok values
      ∧ values.length = wells.length * NIWELZ
      ∧ (∀ (w : Nat) (well : Well), wells[w]? = some well →
          values[NIWELZ * w + k.IWEL_HEADI_INDEX]? = some ((well.getHeadI step : Int) + 1)
            ∧ values[NIWELZ * w + k.IWEL_HEADJ_INDEX]? = some ((well.getHeadJ step : Int) + 1)
            ∧ values[NIWELZ * w + k.IWEL_CONNECTIONS_INDEX]?
              = some ((well.getActiveConnections step grid).length : Int)
            ∧ values[NIWELZ * w + k.IWEL_GROUP_INDEX]? = some 1
            ∧ values[NIWELZ * w + k.IWEL_STATUS_INDEX]?
              = some (if well.getStatus step = WellCommon.StatusEnum.OPEN then 1 else 0)
            ∧ values[NIWELZ * w + k.IWEL_TYPE_INDEX]?
              = some (if well.isProducer step = true then k.IWEL_PRODUCER
                  else if well.injectorType step = WellInjector.TypeEnum.WATER then
                    k.IWEL_WATER_INJECTOR
                  else if well.injectorType step = WellInjector.TypeEnum.GAS then
                    k.IWEL_GAS_INJECTOR
                  else if well.injectorType step = WellInjector.TypeEnum.OIL then
                    k.IWEL_OIL_INJECTOR
                  else k.IWEL_UNDOCUMENTED_ZERO))
      ∧ (∀ i, i < values.length →
          values[i]? = some 0
            ∨ ∃ (w f : Nat) (well : Well), wells[w]? = some well
                ∧ f ∈ [k.IWEL_HEADI_INDEX, k.IWEL_HEADJ_INDEX, k.IWEL_CONNECTIONS_INDEX,
                    k.IWEL_GROUP_INDEX, k.IWEL_TYPE_INDEX, k.IWEL_STATUS_INDEX]
                ∧ i = NIWELZ * w + f) := by
  have hlen : ((wells.map (iwelRecord k step grid)).flatten).length
      = wells.length * NIWELZ := by
    rw [length_flatten_uniform _ NIWELZ, List.length_map]
    intro l hl
    obtain ⟨x, -, rfl⟩ := List.mem_map.mp hl
    exact iwelRecord_length k step grid x
  refine ⟨_, serialize_IWEL_eq k hk step wells grid, hlen, ?_, ?_⟩
  · intro w well hw
    obtain ⟨e1, e2, e3, e4, e5, e6, -⟩ := iwelRecord_elements k hk step grid well
    obtain ⟨h1, h2, h3, h4, h5, h6, -⟩ := hk
    rw [Nat.mul_comm NIWELZ w]
    refine ⟨?_, ?_, ?_, ?_, ?_, ?_⟩
    · rw [iwelRecords_getElem? k step grid wells w _ well hw h1]; exact e1
    · rw [iwelRecords_getElem? k step grid wells w _ well hw h2]; exact e2
    · rw [iwelRecords_getElem? k step grid wells w _ well hw h3]; exact e3
    · rw [iwelRecords_getElem? k step grid wells w _ well hw h4]; exact e4
    · rw [iwelRecords_getElem? k step grid wells w _ well hw h6]; exact e6
    · rw [iwelRecords_getElem? k step grid wells w _ well hw h5, ← to_ert_welltype_eq]
      exact e5
  · intro i hi
    rw [hlen] at hi
    have h11 : 0 < NIWELZ := by decide
    have hw : i / NIWELZ < wells.length :=
      Nat.div_lt_of_lt_mul (by rw [Nat.mul_comm NIWELZ]; exact hi)
    have hf : i % NIWELZ < NIWELZ := Nat.mod_lt _ h11
    obtain ⟨well, hwell⟩ : ∃ well, wells[i / NIWELZ]? = some well :=
      ⟨_, List.getElem?_eq_getElem hw⟩
    have hval := iwelRecords_getElem? k step grid wells _ _ well hwell hf
    rw [Nat.div_add_mod' i NIWELZ] at hval
    by_cases hmem : i % NIWELZ ∈ [k.IWEL_HEADI_INDEX, k.IWEL_HEADJ_INDEX,
        k.IWEL_CONNECTIONS_INDEX, k.IWEL_GROUP_INDEX, k.IWEL_TYPE_INDEX, k.IWEL_STATUS_INDEX]
    · exact Or.inr ⟨_, _, well, hwell, hmem, (Nat.div_add_mod i NIWELZ).symm⟩
    · left
      rw [hval]
      exact (iwelRecord_elements k hk step grid well).2.2.2.2.2.2 _ hf hmem

/-- Witness of C16: the well array of step 1 of the concrete case; the second
well is SHUT, a producer, and has one active connection. -/
theorem serialize_IWEL_records_witness :
    ∃ values, serialize_IWEL Example.wellConst 1 (Example.schedule.getWells 1) Example.grid
        = .ok values
      ∧ values.length = 33
      ∧ values[11 * 1 + 4]? = some 1
      ∧ values[11 * 1 + 10]? = some 0
      ∧ values[11 * 1 + 6]? = some 1
      ∧ values[11 * 2 + 6]? = some 3 := by
  obtain ⟨values, hrun, hlen, hrec, -⟩ := serialize_IWEL_records Example.wellConst
    (by decide) 1 (Example.schedule.getWells 1) Example.grid
  obtain ⟨-, -, hc, -, hs, ht⟩ := hrec 1 Example.shutIn rfl
  obtain ⟨-, -, -, -, -, ht2⟩ := hrec 2 Example.injector rfl
  exact ⟨values, hrun, hlen, hc, hs, ht, ht2⟩

end StrideTheorems

/-! ## Lemmas on `writeWell` and `save` -/

section SaveLemmas

variable {M D : Type} [Zero D]

theorem zwelWells_block (ws : List Well) (a : List String) :
    zwelWells ws a.length (a ++ List.replicate (ws.length * NZWELZ) "")
      = .ok (a ++ (ws.map (fun w => [w.name, "", ""])).flatten) := by
  induction ws generalizing a with
  | nil => simp [zwelWells]
  | cons w ws ih =>
    have hsplit : List.replicate ((ws.length + 1) * NZWELZ) ""
        = ["", "", ""] ++ (List.replicate (ws.length * NZWELZ) "" ++ []) := by
      rw [List.append_nil, Nat.succ_mul, Nat.add_comm, List.replicate_add]
      rfl
    simp only [zwelWells, List.length_cons]
    rw [hsplit]
    have hw := writeAt_mid a ["", "", ""] (List.replicate (ws.length * NZWELZ) "" ++ []) 0
      w.name (by simp)
    rw [Nat.add_zero] at hw
    rw [hw]
    simp only [bind, Except.bind, List.append_nil, List.set_cons_zero]
    have hlen : a.length + NZWELZ = (a ++ [w.name, "", ""]).length := by
      simp [NZWELZ]
    have := ih (a ++ [w.name, "", ""])
    rw [← hlen, List.append_assoc] at this
    rw [this]
    simp only [List.map_cons, List.flatten_cons, List.append_assoc]

/-- The array of `serialize_ZWEL`: per well its name and two blank words. -/
theorem serialize_ZWEL_eq (wells : List Well) :
    serialize_ZWEL wells = .ok ((wells.map (fun w => [w.name, "", ""])).flatten) := by
  have := zwelWells_block wells []
  simpa [serialize_ZWEL] using this

theorem foldl_max_ge (step : Nat) (ws : List Well) (init : Nat) :
    init ≤ ws.foldl (fun ncwmax well => max ncwmax (well.getConnections step).length) init
      ∧ ∀ w ∈ ws, (w.getConnections step).length
          ≤ ws.foldl (fun ncwmax well => max ncwmax (well.getConnections step).length) init := by
  induction ws generalizing init with
  | nil => simp
  | cons v ws ih =>
    obtain ⟨h1, h2⟩ := ih (max init (v.getConnections step).length)
    refine ⟨le_trans (le_max_left _ _) h1, ?_⟩
    intro w hw
    rcases List.mem_cons.mp hw with rfl | hw
    · exact le_trans (le_max_right _ _) h1
    · exact h2 w hw

/-- The maximum connection count of the schedule bounds the count of every
scheduled well. -/
theorem getMaxNumConnectionsForWells_ge (schedule : Schedule) (step : Nat) :
    ∀ w ∈ schedule.getWells step,
      (w.getConnections step).length ≤ schedule.getMaxNumConnectionsForWells step :=
  (foldl_max_ge step (schedule.getWells step) 0).2

/-- The keywords of `writeWell`, once `OPM_XWEL` can be written. -/
theorem writeWell_ok (k : WellConst) (hicon : k.iconValid) (hiwel : k.iwelValid)
    (sim_step : Nat) (es : EclipseState) (grid : EclipseGrid) (schedule : Schedule)
    (wells : data.Wells D) (xwel : List D)
    (hx : serialize_OPM_XWEL wells sim_step (schedule.getWells sim_step) es.runspec.phases grid
      = .ok xwel) :
    ∃ iwel zwel icon,
      serialize_IWEL k sim_step (schedule.getWells sim_step) grid = .ok iwel
        ∧ serialize_ZWEL (schedule.getWells sim_step) = .ok zwel
        ∧ serialize_ICON k sim_step (schedule.getMaxNumConnectionsForWells sim_step)
            (schedule.getWells sim_step) grid = .ok icon
        ∧ writeWell k sim_step es grid schedule wells
          = .ok [ FileOp.add_kw IWEL_KW (KwData.int iwel),
                  FileOp.add_kw ZWEL_KW (KwData.char zwel),
                  FileOp.add_kw OPM_XWEL (KwData.double xwel),
                  FileOp.add_kw OPM_IWEL
                    (KwData.int (serialize_OPM_IWEL wells (schedule.getWells sim_step))),
                  FileOp.add_kw ICON_KW (KwData.int icon) ] := by
  have h1 := serialize_IWEL_eq k hiwel sim_step (schedule.getWells sim_step) grid
  have h2 := serialize_ZWEL_eq (schedule.getWells sim_step)
  have h3 := serialize_ICON_eq k hicon sim_step (schedule.getMaxNumConnectionsForWells sim_step)
    (schedule.getWells sim_step) grid (getMaxNumConnectionsForWells_ge schedule sim_step)
  refine ⟨_, _, _, h1, h2, h3, ?_⟩
  simp only [writeWell, hx, h1, h2, h3, bind, Except.bind, pure, Except.pure]

/-- The array `OPM_XWEL` is built first: when it cannot be built, `writeWell`
raises the same error. -/
theorem writeWell_error (k : WellConst) (sim_step : Nat) (es : EclipseState)
    (grid : EclipseGrid) (schedule : Schedule) (wells : data.Wells D) (e : RestartError)
    (hx : serialize_OPM_XWEL wells sim_step (schedule.getWells sim_step) es.runspec.phases grid
      = .error e) :
    writeWell k sim_step es grid schedule wells = .error e := by
  simp only [writeWell, hx, bind, Except.bind]

end SaveLemmas

section ExtraLemmas

variable {M D : Type}

theorem writeExtraData_eq (extra : List (RestartKey M × List D)) :
    writeExtraData extra
      = extra.map (fun extra_value =>
          FileOp.add_kw extra_value.1.key (KwData.double extra_value.2)) := by
  induction extra with
  | nil => rfl
  | cons e rest ih => simp [writeExtraData, ih]

end ExtraLemmas

/-! ## Theorems on `save` -/

section SaveTheorems

variable {M D : Type} [Zero D]

/-- C12 (no file is touched when validation fails): for every input on which
`checkSaveArguments` fails, `save` fails with the same error and performs no
operation on the file; and whenever `save` performs an operation on the file,
validation has succeeded. -/
theorem save_validation_failure (store : KeywordStore M D) (k : WellConst) (filename : String)
    (report_step : Int) (seconds_elapsed : D) (value : RestartValue M D) (es : EclipseState)
    (units : UnitSystem M D) (grid : EclipseGrid) (schedule : Schedule) (write_double : Bool) :
    (∀ e, checkSaveArguments es value grid = .error e →
        save store k filename report_step seconds_elapsed value es units grid schedule
            write_double
          = { trace := [], result := .error e })
      ∧ ((save store k filename report_step seconds_elapsed value es units grid schedule
            write_double).trace ≠ [] →
          ∃ warnings, checkSaveArguments es value grid = .ok warnings) := by
  constructor
  · intro e he
    simp only [save, he]
  · intro h
    cases hc : checkSaveArguments es value grid with
    | error e => simp [save, hc] at h
    | ok warnings => exact ⟨warnings, rfl⟩

/-- Witness of C12: a THPRES array of 8 values where 9 are expected; `save`
fails and its trace is empty. -/
theorem save_validation_failure_witness :
    save Example.store Example.wellConst "CASE.UNRST" 1 86400
        (Example.restartValue [(Example.thpresKey, [0, 1, 2, 1, 0, 3, 2, 3])])
        Example.es Example.units Example.grid Example.schedule true
      = { trace := [], result := .error .invalidThpres } :=
  (save_validation_failure Example.store Example.wellConst "CASE.UNRST" 1 86400
    (Example.restartValue [(Example.thpresKey, [0, 1, 2, 1, 0, 3, 2, 3])])
    Example.es Example.units Example.grid Example.schedule true).1 _ rfl

/-- Counterexample to C20 as stated: with water, oil and gas active, the wells
map of the concrete case has no gas rate for the producer; the input passes
validation, and `save` opens the file, writes the header, raises
`uninitialized` and releases the file: no keyword follows the header. -/
theorem save_keyword_order_counterexample :
    checkSaveArguments Example.esThreePhase
        (Example.restartValue [(Example.thpresKey, [0, 1, 2, 1, 0, 3, 2, 3, 0])])
        Example.grid = .ok []
      ∧ save Example.store Example.wellConst "CASE.UNRST" 1 86400
          (Example.restartValue [(Example.thpresKey, [0, 1, 2, 1, 0, 3, 2, 3, 0])])
          Example.esThreePhase Example.units Example.grid Example.schedule true
        = { trace :=
              [ FileOp.open_write_seek "CASE.UNRST" 1,
                FileOp.fwrite_header 1
                  { posixStartTime := 1262304000, seconds_elapsed := 86400, nactive := 4,
                    nx := 2, ny := 1, nz := 3, nwells := 2, niwelz := 11, nzwelz := 3,
                    niconz := 15, ncwmax := 4, phase_sum := 7, sim_days := 86400,
                    unit_system := 1 },
                FileOp.close ],
            result := .error RestartError.uninitialized } :=
  ⟨rfl, rfl⟩

/-- C20, amended (fixed keyword order on save): for every input that passes
validation (the positions of the record fields being distinct and inside a
record), when the array `OPM_XWEL` of the wells can be built the operations of
`save` are: the opening of the file (at the report step for a unified file),
the header, the keywords IWEL, ZWEL, OPM_XWEL, OPM_IWEL and ICON in this
order, the solution keywords (start marker, primary entries, end marker,
auxiliary entries), one keyword per entry of the extra container in the order
of the container, carrying the key of the entry and one converted value per
value supplied, and the release of the file; `OPM_XWEL` can be built when the
rates read are initialised; and when it cannot be built `save` raises the
error of `serialize_OPM_XWEL` after the header, having opened the file,
written the header and released the file, and no keyword. -/
theorem save_keyword_order (store : KeywordStore M D) (k : WellConst) (filename : String)
    (report_step : Int) (seconds_elapsed : D) (value : RestartValue M D) (es : EclipseState)
    (units : UnitSystem M D) (grid : EclipseGrid) (schedule : Schedule) (write_double : Bool)
    (hicon : k.iconValid) (hiwel : k.iwelValid)
    (hvalid : ∃ warnings, checkSaveArguments es value grid = .ok warnings) :
    (∀ xwel,
        serialize_OPM_XWEL value.wells (max (report_step - 1) 0).toNat
            (schedule.getWells (max (report_step - 1) 0).toNat) es.runspec.phases grid
          = .ok xwel →
        ∃ iwel zwel icon,
          serialize_IWEL k (max (report_step - 1) 0).toNat
              (schedule.getWells (max (report_step - 1) 0).toNat) grid = .ok iwel
            ∧ serialize_ZWEL (schedule.getWells (max (report_step - 1) 0).toNat) = .ok zwel
            ∧ serialize_ICON k (max (report_step - 1) 0).toNat
                (schedule.getMaxNumConnectionsForWells (max (report_step - 1) 0).toNat)
                (schedule.getWells (max (report_step - 1) 0).toNat) grid = .ok icon
            ∧ save store k filename report_step seconds_elapsed value es units grid schedule
                write_double
              = { trace :=
                    [ if store.unified filename then
                        FileOp.open_write_seek filename report_step
                      else FileOp.open_write filename,
                      writeHeader (max (report_step - 1) 0).toNat report_step seconds_elapsed
                        (units.from_si units.time seconds_elapsed) es.runspec.eclPhaseMask
                        units schedule grid ]
                    ++ [ FileOp.add_kw "IWEL" (KwData.int iwel),
                         FileOp.add_kw "ZWEL" (KwData.char zwel),
                         FileOp.add_kw "OPM_XWEL" (KwData.double xwel),
                         FileOp.add_kw "OPM_IWEL"
                           (KwData.int (serialize_OPM_IWEL value.wells
                             (schedule.getWells (max (report_step - 1) 0).toNat))),
                         FileOp.add_kw "ICON" (KwData.int icon) ]
                    ++ ([FileOp.start_solution]
                        ++ ((value.solution.convertFromSI units).filter (fun elm =>
                              decide (elm.2.target = data.TargetType.RESTART_SOLUTION))).map
                            (fun elm => FileOp.add_kw elm.1 (ecl_kw elm.2.data write_double))
                        ++ [FileOp.end_solution]
                        ++ ((value.solution.convertFromSI units).filter (fun elm =>
                              decide (elm.2.target = data.TargetType.RESTART_AUXILIARY))).map
                            (fun elm => FileOp.add_kw elm.1 (ecl_kw elm.2.data write_double)))
                    ++ value.extra.map (fun extra_value =>
                        FileOp.add_kw extra_value.1.key
                          (KwData.double (extra_value.2.map (units.from_si extra_value.1.dim))))
                    ++ [FileOp.close],
                  result := .ok () })
      ∧ (RatesInitialized value.wells (max (report_step - 1) 0).toNat
            (activeRates es.runspec.phases)
            (schedule.getWells (max (report_step - 1) 0).toNat) →
          ∃ xwel,
            serialize_OPM_XWEL value.wells (max (report_step - 1) 0).toNat
                (schedule.getWells (max (report_step - 1) 0).toNat) es.runspec.phases grid
              = .ok xwel)
      ∧ (∀ e,
          serialize_OPM_XWEL value.wells (max (report_step - 1) 0).toNat
              (schedule.getWells (max (report_step - 1) 0).toNat) es.runspec.phases grid
            = .error e →
          save store k filename report_step seconds_elapsed value es units grid schedule
              write_double
            = { trace :=
                  [ if store.unified filename then
                      FileOp.open_write_seek filename report_step
                    else FileOp.open_write filename,
                    writeHeader (max (report_step - 1) 0).toNat report_step seconds_elapsed
                      (units.from_si units.time seconds_elapsed) es.runspec.eclPhaseMask
                      units schedule grid,
                    FileOp.close ],
                result := .error e }) := by
  obtain ⟨warnings, hc⟩ := hvalid
  refine ⟨fun xwel hx => ?_, serialize_OPM_XWEL_ok _ _ _ _ _, fun e he => by
    simp only [save, hc, writeWell_error k _ es grid schedule value.wells e he]⟩
  obtain ⟨iwel, zwel, icon, h1, h2, h3, hw⟩ :=
    writeWell_ok k hicon hiwel _ es grid schedule value.wells xwel hx
  refine ⟨iwel, zwel, icon, h1, h2, h3, ?_⟩
  simp only [save, hc, hw, writeSolution, writeSolutionPass_eq, writeExtraData_eq,
    List.map_map, IWEL_KW, ZWEL_KW, OPM_XWEL, OPM_IWEL, ICON_KW]
  rfl

/-- Witness of C20: the save of the concrete case at report step 1, with a
THPRES array of 9 values: the call succeeds, fourteen operations are performed,
the first opens the file at the report step, the seventh adds ICON and the
last releases the file. -/
theorem save_keyword_order_witness :
    ∃ icon, serialize_ICON Example.wellConst 0 4 (Example.schedule.getWells 0) Example.grid
        = .ok icon
      ∧ (save Example.store Example.wellConst "CASE.UNRST" 1 86400
          (Example.restartValue [(Example.thpresKey, [0, 1, 2, 1, 0, 3, 2, 3, 0])])
          Example.es Example.units Example.grid Example.schedule true).result = .ok ()
      ∧ (save Example.store Example.wellConst "CASE.UNRST" 1 86400
          (Example.restartValue [(Example.thpresKey, [0, 1, 2, 1, 0, 3, 2, 3, 0])])
          Example.es Example.units Example.grid Example.schedule true).trace.length = 14
      ∧ (save Example.store Example.wellConst "CASE.UNRST" 1 86400
          (Example.restartValue [(Example.thpresKey, [0, 1, 2, 1, 0, 3, 2, 3, 0])])
          Example.es Example.units Example.grid Example.schedule true).trace[0]?
        = some (FileOp.open_write_seek "CASE.UNRST" 1)
      ∧ (save Example.store Example.wellConst "CASE.UNRST" 1 86400
          (Example.restartValue [(Example.thpresKey, [0, 1, 2, 1, 0, 3, 2, 3, 0])])
          Example.es Example.units Example.grid Example.schedule true).trace[6]?
        = some (FileOp.add_kw "ICON" (KwData.int icon))
      ∧ (save Example.store Example.wellConst "CASE.UNRST" 1 86400
          (Example.restartValue [(Example.thpresKey, [0, 1, 2, 1, 0, 3, 2, 3, 0])])
          Example.es Example.units Example.grid Example.schedule true).trace[13]?
        = some FileOp.close := by
  obtain ⟨iwel, zwel, icon, -, -, hicon, hsave⟩ :=
    (save_keyword_order Example.store Example.wellConst "CASE.UNRST" 1 86400
      (Example.restartValue [(Example.thpresKey, [0, 1, 2, 1, 0, 3, 2, 3, 0])])
      Example.es Example.units Example.grid Example.schedule true (by decide) (by decide)
      ⟨[], rfl⟩).1
      [100, 50, 10, 20, 30, 4, 1, 2, 0, 0, 0, 0, 0, 0, 0, 0, 31, 7, 5, 6,
        200, 60, -8, 0, 35, -9, -8, 0] rfl
  rw [hsave]
  exact ⟨icon, hicon, rfl, rfl, rfl, rfl, rfl⟩

end SaveTheorems

/-! ## Lemmas on `load` -/

section LoadLemmas

variable {M D : Type}

/-- The loop of `load` over the extra keys when every required key is in the
file: the arrays of the requested keys that are in the file are appended, in
request order. -/
theorem loadExtra_ok (file_view : FileView D) (keys : List (RestartKey M))
    (rst_value : RestartValue M D)
    (h : ∀ k ∈ keys, k.required = true → ecl_file_view_has_kw file_view k.key = true) :
    loadExtra file_view keys rst_value
      = .ok { rst_value with
          extra := rst_value.extra ++ keys.filterMap (fun k =>
            (ecl_file_view_iget_named_kw file_view k.key 0).map (fun ecl_kw =>
              (({ key := k.key, dim := k.dim, required := true } : RestartKey M),
                ecl_kw.data))) } := by
  induction keys generalizing rst_value with
  | nil => simp [loadExtra]
  | cons k ks ih =>
    have h' : ∀ q ∈ ks, q.required = true → ecl_file_view_has_kw file_view q.key = true :=
      fun q hq => h q (List.mem_cons_of_mem _ hq)
    by_cases hhas : ecl_file_view_has_kw file_view k.key = true
    · obtain ⟨kw, hkw⟩ := (ecl_file_view_has_kw_iff file_view k.key).mp hhas
      simp only [loadExtra, hhas, if_true, hkw]
      rw [ih _ h']
      simp [RestartValue.addExtra, List.filterMap_cons, hkw]
    · have hnone := (ecl_file_view_has_kw_eq_false file_view k.key).mp (by simpa using hhas)
      have hreq : k.required = false := by
        cases hr : k.required with
        | false => rfl
        | true => exact absurd (h k (List.mem_cons_self _ _) hr) hhas
      simp only [loadExtra, hhas, hreq, Bool.false_eq_true, if_false]
      rw [ih _ h']
      simp [List.filterMap_cons, hnone]

theorem loadExtra_error_iff (file_view : FileView D) (keys : List (RestartKey M))
    (rst_value : RestartValue M D) :
    (∃ e, loadExtra file_view keys rst_value = .error e)
      ↔ ∃ k ∈ keys, k.required = true ∧ ecl_file_view_has_kw file_view k.key = false := by
  induction keys generalizing rst_value with
  | nil => simp [loadExtra]
  | cons k ks ih =>
    simp only [List.mem_cons, exists_eq_or_imp]
    by_cases hhas : ecl_file_view_has_kw file_view k.key = true
    · obtain ⟨kw, hkw⟩ := (ecl_file_view_has_kw_iff file_view k.key).mp hhas
      simp only [loadExtra, hhas, if_true, hkw, Bool.true_eq_false, and_false, false_or]
      exact ih _
    · have hf : ecl_file_view_has_kw file_view k.key = false := by simpa using hhas
      cases hr : k.required with
      | true => simp [loadExtra, hf, hr]
      | false =>
        simp only [loadExtra, hf, hr, Bool.false_eq_true, if_false, false_and, false_or]
        exact ih _

variable [Zero D]

/-- The function `load` once the file is open, the view of the report step is
found and the solution and the wells are restored. -/
theorem load_eq (store : KeywordStore M D) (filename : String) (report_step : Int)
    (solution_keys : List (RestartKey M)) (es : EclipseState) (grid : EclipseGrid)
    (schedule : Schedule) (extra_keys : List (RestartKey M))
    (file : EclFile D) (view : RestartView D) (sol : data.Solution M D) (wells : data.Wells D)
    (hopen : store.ecl_file_open filename = some file)
    (hview : (if store.unified filename then file.ecl_file_get_restart_view report_step
      else some file.ecl_file_get_global_view) = some view)
    (hsol : restoreSOLUTION view.keywords solution_keys grid.getNumActive = .ok sol)
    (hwells : restore_wells view.opm_xwel view.opm_iwel (max (report_step - 1) 0).toNat
      es grid schedule = .ok wells) :
    load store filename report_step solution_keys es grid schedule extra_keys
      = (loadExtra view.keywords extra_keys
          { solution := sol, wells := wells, extra := [] }).map (fun rst_value =>
            { rst_value with
              solution := rst_value.solution.convertToSI (store.headerUnits view.intehead),
              extra := rst_value.extra.map (fun extra_value =>
                (extra_value.1, extra_value.2.map
                  ((store.headerUnits view.intehead).to_si extra_value.1.dim))) }) := by
  unfold load
  simp only [hopen]
  by_cases hu : store.unified filename = true
  · simp only [hu, if_true] at hview ⊢
    simp only [hview, bind, Except.bind, pure, Except.pure, hsol, hwells]
    cases loadExtra view.keywords extra_keys { solution := sol, wells := wells, extra := [] }
      <;> rfl
  · simp only [hu, Bool.false_eq_true, if_false, Option.some.injEq] at hview ⊢
    simp only [hview, bind, Except.bind, pure, Except.pure, hsol, hwells]
    cases loadExtra view.keywords extra_keys { solution := sol, wells := wells, extra := [] }
      <;> rfl

end LoadLemmas

/-! ## Theorems on `load` and on the schedule step -/

section LoadTheorems

variable {M D : Type} [Zero D]

/-- C18 (extra keys on load): once the file is open, the view of the report
step is found and the solution and the wells are restored, `load` fails if and
only if some requested extra key is required and absent from the view;
otherwise the extra data of the restart value it returns holds, in request
order, exactly the requested keys that are in the view, each with its
dimension and the stored array converted value by value by the dimension of
the key, so with as many values as stored; optional absent keys are
skipped. -/
theorem load_extra_keys (store : KeywordStore M D) (filename : String) (report_step : Int)
    (solution_keys : List (RestartKey M)) (es : EclipseState) (grid : EclipseGrid)
    (schedule : Schedule) (extra_keys : List (RestartKey M))
    (file : EclFile D) (view : RestartView D) (sol : data.Solution M D) (wells : data.Wells D)
    (hopen : store.ecl_file_open filename = some file)
    (hview : (if store.unified filename then file.ecl_file_get_restart_view report_step
      else some file.ecl_file_get_global_view) = some view)
    (hsol : restoreSOLUTION view.keywords solution_keys grid.getNumActive = .ok sol)
    (hwells : restore_wells view.opm_xwel view.opm_iwel (max (report_step - 1) 0).toNat
      es grid schedule = .ok wells) :
    ((∃ e, load store filename report_step solution_keys es grid schedule extra_keys
          = .error e)
      ↔ ∃ k ∈ extra_keys, k.required = true
          ∧ ecl_file_view_has_kw view.keywords k.key = false)
    ∧ ((∀ k ∈ extra_keys, k.required = true →
          ecl_file_view_has_kw view.keywords k.key = true) →
        ∃ v, load store filename report_step solution_keys es grid schedule extra_keys = .ok v
          ∧ v.extra.map (fun e => (e.1.key, e.1.dim, e.2))
            = extra_keys.filterMap (fun k =>
                (ecl_file_view_iget_named_kw view.keywords k.key 0).map (fun ecl_kw =>
                  (k.key, k.dim,
                    ecl_kw.data.map ((store.headerUnits view.intehead).to_si k.dim))))
          ∧ v.extra.map (fun e => e.1.key)
            = (extra_keys.filter
                (fun k => ecl_file_view_has_kw view.keywords k.key)).map (fun k => k.key)
          ∧ ∀ e ∈ v.extra, ∃ ecl_kw,
              ecl_file_view_iget_named_kw view.keywords e.1.key 0 = some ecl_kw
                ∧ e.2.length = ecl_kw.data.length) := by
  have hload := load_eq store filename report_step solution_keys es grid schedule extra_keys
    file view sol wells hopen hview hsol hwells
  constructor
  · rw [hload, ← loadExtra_error_iff view.keywords extra_keys
      { solution := sol, wells := wells, extra := [] }]
    cases loadExtra view.keywords extra_keys { solution := sol, wells := wells, extra := [] }
      <;> simp [Except.map]
  · intro hreq
    rw [hload, loadExtra_ok view.keywords extra_keys _ hreq]
    clear hload hreq
    refine ⟨_, rfl, ?_, ?_, ?_⟩
    · simp only [List.nil_append, List.map_map]
      induction extra_keys with
      | nil => rfl
      | cons k ks ih =>
        have := ih
        cases hk : ecl_file_view_iget_named_kw view.keywords k.key 0 with
        | none => simpa [List.filterMap_cons, hk] using this
        | some kw => simpa [List.filterMap_cons, hk] using this
    · simp only [List.nil_append, List.map_map]
      induction extra_keys with
      | nil => rfl
      | cons k ks ih =>
        have := ih
        cases hk : ecl_file_view_iget_named_kw view.keywords k.key 0 with
        | none =>
          have hf := (ecl_file_view_has_kw_eq_false view.keywords k.key).mpr hk
          simpa [List.filterMap_cons, hk, List.filter_cons, hf] using this
        | some kw =>
          have ht := (ecl_file_view_has_kw_iff view.keywords k.key).mpr ⟨kw, hk⟩
          simpa [List.filterMap_cons, hk, List.filter_cons, ht] using this
    · intro e he
      simp only [List.nil_append, List.mem_map, List.mem_filterMap, Option.map_eq_some'] at he
      obtain ⟨x, ⟨k, -, kw, hkw, rfl⟩, rfl⟩ := he
      exact ⟨kw, hkw, by simp⟩

/-- Witness of C18: the concrete file at report step 1, with THPRES required
(in the file) and SWATINIT optional (absent): `load` returns THPRES only, its
nine values converted by the pressure dimension. -/
theorem load_extra_keys_witness :
    ∃ v, load Example.store "CASE.UNRST" 1 Example.solutionKeys Example.es Example.grid
        Example.schedule Example.extraKeys = .ok v
      ∧ v.extra.map (fun e => (e.1.key, e.1.dim, e.2))
        = [("THPRES", Example.Measure.pressure, [0, 1, 2, 1, 0, 3, 2, 3, 0])] := by
  obtain ⟨st, hrun, -⟩ := restore_wells_run_eq Example.restartView.opm_xwel
    Example.restartView.opm_iwel 0 Example.es Example.grid Example.schedule rfl rfl
  have hwells : restore_wells Example.restartView.opm_xwel Example.restartView.opm_iwel
      (max ((1 : Int) - 1) 0).toNat Example.es Example.grid Example.schedule = .ok st.wells := by
    show restore_wells Example.restartView.opm_xwel Example.restartView.opm_iwel 0
      Example.es Example.grid Example.schedule = .ok st.wells
    simp [restore_wells, hrun, Except.map]
  obtain ⟨v, hv, hextra, -⟩ := (load_extra_keys Example.store "CASE.UNRST" 1
    Example.solutionKeys Example.es Example.grid Example.schedule Example.extraKeys
    { ecl_file_get_restart_view := fun report_step =>
        if report_step = 0 ∨ report_step = 1 then some Example.restartView else none,
      ecl_file_get_global_view := Example.restartView }
    Example.restartView
    [("PRESSURE", { dim := Example.Measure.pressure, data := [200, 201, 202, 203],
                    target := data.TargetType.RESTART_SOLUTION })]
    st.wells rfl rfl rfl hwells).2 (by decide)
  exact ⟨v, hv, hextra⟩

end LoadTheorems

/-! ## Lemmas on the assignments of `serialize_ICON` -/

section IconWriteLemmas

/-- A sequence of assignments in two parts. -/
theorem applyWrites_append (xs ys : List IconWrite) (values : List Int) :
    applyWrites (xs ++ ys) values = (applyWrites xs values).bind (applyWrites ys) := by
  induction xs generalizing values with
  | nil => rfl
  | cons x xs ih =>
    simp only [List.cons_append, applyWrites, bind, Except.bind]
    cases writeAt values x.index x.value with
    | error e => rfl
    | ok v => exact ih v

/-- The body of the connection loop makes its six assignments. -/
theorem iconConnection_eq_applyWrites (k : WellConst) (w : Nat) (connection : Connection)
    (offset : Nat) (values : List Int) :
    iconConnection k connection offset values
      = applyWrites (iconConnectionWrites k w connection offset) values := by
  simp only [iconConnection, iconConnectionWrites, applyWrites, bind, Except.bind]
  repeat' split
  all_goals first | rfl | simp_all

/-- The connection loop makes the assignments of `iconConnectionsWrites`. -/
theorem iconConnections_eq_applyWrites (k : WellConst) (w : Nat) (cs : List Connection)
    (well_offset connection_offset : Nat) (values : List Int) :
    iconConnections k cs well_offset connection_offset values
      = applyWrites (iconConnectionsWrites k w cs well_offset connection_offset) values := by
  induction cs generalizing connection_offset values with
  | nil => rfl
  | cons c cs ih =>
    simp only [iconConnections, iconConnectionsWrites, applyWrites_append,
      ← iconConnection_eq_applyWrites k w c, bind, Except.bind]
    cases iconConnection k c (well_offset + connection_offset) values with
    | error e => rfl
    | ok v => exact ih _ v

/-- The well loop makes the assignments of `iconWellsWrites`. -/
theorem iconWells_eq_applyWrites (k : WellConst) (sim_step ncwmax : Nat) (ws : List Well)
    (w well_offset : Nat) (values : List Int) :
    iconWells k sim_step ncwmax ws well_offset values
      = applyWrites (iconWellsWrites k sim_step ncwmax ws w well_offset) values := by
  induction ws generalizing w well_offset values with
  | nil => rfl
  | cons v vs ih =>
    simp only [iconWells, iconWellsWrites, applyWrites_append,
      ← iconConnections_eq_applyWrites k w, bind, Except.bind]
    cases iconConnections k (v.getConnections sim_step) well_offset 0 values with
    | error e => rfl
    | ok x => exact ih _ _ x

/-- The assignments of the connection loop of the well at position `w` carry
that position and fall in the records of the connections. -/
theorem iconConnectionsWrites_bounds (k : WellConst) (hk : k.iconValid) (w : Nat)
    (cs : List Connection) (well_offset connection_offset : Nat) :
    ∀ x ∈ iconConnectionsWrites k w cs well_offset connection_offset,
      x.well = w ∧ well_offset + connection_offset ≤ x.index
        ∧ x.index < well_offset + connection_offset + cs.length * NICONZ := by
  obtain ⟨h1, h2, h3, h4, h5, h6, -⟩ := hk
  induction cs generalizing connection_offset with
  | nil => intro x hx; simp [iconConnectionsWrites] at hx
  | cons c cs ih =>
    intro x hx
    simp only [iconConnectionsWrites, List.mem_append] at hx
    rw [List.length_cons, Nat.succ_mul]
    rcases hx with hx | hx
    · simp only [iconConnectionWrites, List.mem_cons, List.mem_singleton,
        List.not_mem_nil, or_false] at hx
      rcases hx with rfl | rfl | rfl | rfl | rfl | rfl <;>
        exact ⟨rfl, by dsimp only; omega, by dsimp only; omega⟩
    · obtain ⟨hw, hlo, hhi⟩ := ih (connection_offset + NICONZ) x hx
      exact ⟨hw, by omega, by omega⟩

/-- The assignments of the well loop fall in the block of the well that makes
them, when every well has at most `ncwmax` connections. -/
theorem iconWellsWrites_bounds (k : WellConst) (hk : k.iconValid) (sim_step ncwmax : Nat)
    (ws : List Well) (w : Nat)
    (hmax : ∀ v ∈ ws, (v.getConnections sim_step).length ≤ ncwmax) :
    ∀ x ∈ iconWellsWrites k sim_step ncwmax ws w (w * (ncwmax * NICONZ)),
      w ≤ x.well ∧ x.well < w + ws.length
        ∧ x.well * (ncwmax * NICONZ) ≤ x.index
        ∧ x.index < x.well * (ncwmax * NICONZ) + ncwmax * NICONZ := by
  induction ws generalizing w with
  | nil => intro x hx; simp [iconWellsWrites] at hx
  | cons v vs ih =>
    intro x hx
    simp only [iconWellsWrites, List.mem_append] at hx
    rw [List.length_cons]
    rcases hx with hx | hx
    · obtain ⟨hw, hlo, hhi⟩ := iconConnectionsWrites_bounds k hk w _ _ _ x hx
      have hle : (v.getConnections sim_step).length * NICONZ ≤ ncwmax * NICONZ :=
        Nat.mul_le_mul_right _ (hmax v (List.mem_cons_self _ _))
      subst hw
      exact ⟨le_refl _, by omega, by omega, by omega⟩
    · rw [← Nat.succ_mul] at hx
      obtain ⟨h1, h2, h3, h4⟩ :=
        ih (w + 1) (fun u hu => hmax u (List.mem_cons_of_mem _ hu)) x hx
      exact ⟨by omega, by omega, h3, h4⟩

end IconWriteLemmas

/-! ## Theorems on the assignments of `serialize_ICON` -/

section IconWriteTheorems

/-- C21 (ICON writes stay in bounds): for every scheduled well list and every
`ncwmax` at least the connection count of every scheduled well, the positions
of the record fields being inside a record, `serialize_ICON` makes its
assignments, in program order, on a vector of `wellCount * ncwmax * 15` zeros
and returns; every index it writes is below `wellCount * ncwmax * 15` and
inside the block `[w * ncwmax * 15, (w + 1) * ncwmax * 15)` of the well `w`
in whose iteration it is written, so two assignments to the same index belong
to the same well; and the maximum connection count of the schedule at the
step, the `ncwmax` of `writeWell`, is at least the connection count of every
well of the step. -/
theorem serialize_ICON_in_bounds (k : WellConst) (hk : k.iconValid) (sim_step ncwmax : Nat)
    (sched_wells : List Well) (grid : EclipseGrid)
    (hmax : ∀ w ∈ sched_wells, (w.getConnections sim_step).length ≤ ncwmax) :
    serialize_ICON k sim_step ncwmax sched_wells grid
        = applyWrites (iconWrites k sim_step ncwmax sched_wells)
            (List.replicate (sched_wells.length * ncwmax * NICONZ) 0)
      ∧ (∃ values, serialize_ICON k sim_step ncwmax sched_wells grid = .ok values
          ∧ values.length = sched_wells.length * ncwmax * NICONZ)
      ∧ (∀ x ∈ iconWrites k sim_step ncwmax sched_wells,
          x.well < sched_wells.length
            ∧ x.index < sched_wells.length * ncwmax * NICONZ
            ∧ x.well * ncwmax * NICONZ ≤ x.index
            ∧ x.index < (x.well + 1) * ncwmax * NICONZ)
      ∧ (∀ x ∈ iconWrites k sim_step ncwmax sched_wells,
          ∀ y ∈ iconWrites k sim_step ncwmax sched_wells,
            x.index = y.index → x.well = y.well)
      ∧ (∀ schedule : Schedule, ∀ w ∈ schedule.getWells sim_step,
          (w.getConnections sim_step).length
            ≤ schedule.getMaxNumConnectionsForWells sim_step) := by
  have hb : ∀ x ∈ iconWrites k sim_step ncwmax sched_wells,
      x.well < sched_wells.length
        ∧ x.well * (ncwmax * NICONZ) ≤ x.index
        ∧ x.index < (x.well + 1) * (ncwmax * NICONZ) := by
    intro x hx
    have h := iconWellsWrites_bounds k hk sim_step ncwmax sched_wells 0 hmax x
      (by simpa [iconWrites] using hx)
    obtain ⟨-, h2, h3, h4⟩ := h
    exact ⟨by omega, h3, by rw [Nat.succ_mul]; exact h4⟩
  refine ⟨iconWells_eq_applyWrites k sim_step ncwmax sched_wells 0 0 _, ?_, ?_, ?_,
    fun schedule => getMaxNumConnectionsForWells_ge schedule sim_step⟩
  · refine ⟨_, serialize_ICON_eq k hk sim_step ncwmax sched_wells grid hmax, ?_⟩
    rw [length_flatten_uniform _ (ncwmax * NICONZ)]
    · rw [List.length_map, Nat.mul_assoc]
    · intro b hb
      obtain ⟨w, hw, rfl⟩ := List.mem_map.mp hb
      exact iconBlock_length k sim_step ncwmax w (hmax w hw)
  · intro x hx
    obtain ⟨h1, h2, h3⟩ := hb x hx
    have hle : (x.well + 1) * (ncwmax * NICONZ) ≤ sched_wells.length * (ncwmax * NICONZ) :=
      Nat.mul_le_mul_right _ h1
    simp only [Nat.mul_assoc]
    exact ⟨h1, by omega, h2, h3⟩
  · intro x hx y hy hxy
    obtain ⟨-, hx2, hx3⟩ := hb x hx
    obtain ⟨-, hy2, hy3⟩ := hb y hy
    by_contra hne
    rcases Nat.lt_or_gt_of_ne hne with hlt | hlt
    · have hle : (x.well + 1) * (ncwmax * NICONZ) ≤ y.well * (ncwmax * NICONZ) :=
        Nat.mul_le_mul_right _ hlt
      omega
    · have hle : (y.well + 1) * (ncwmax * NICONZ) ≤ x.well * (ncwmax * NICONZ) :=
        Nat.mul_le_mul_right _ hlt
      omega

/-- Witness of C21: the connection array of step 0 of the concrete case, with
room for four connections per well: thirty assignments, each below 120 and in
the block of 60 elements of its well. -/
theorem serialize_ICON_in_bounds_witness :
    (iconWrites Example.wellConst 0 4 (Example.schedule.getWells 0)).length = 30
      ∧ (∃ values, serialize_ICON Example.wellConst 0 4 (Example.schedule.getWells 0)
            Example.grid = .ok values
          ∧ values.length = 2 * 4 * NICONZ)
      ∧ ∀ x ∈ iconWrites Example.wellConst 0 4 (Example.schedule.getWells 0),
          x.well < 2 ∧ x.index < 2 * 4 * NICONZ
            ∧ x.well * 4 * NICONZ ≤ x.index ∧ x.index < (x.well + 1) * 4 * NICONZ :=
  ⟨rfl,
    (serialize_ICON_in_bounds Example.wellConst (by decide) 0 4
      (Example.schedule.getWells 0) Example.grid (by decide)).2.1,
    (serialize_ICON_in_bounds Example.wellConst (by decide) 0 4
      (Example.schedule.getWells 0) Example.grid (by decide)).2.2.1⟩

end IconWriteTheorems

/-! ## Lemmas on the wells that `restore_wells` returns -/

section MirrorLemmas

variable {D : Type}

/-- A rate option is in `activeRates` exactly when its phase is active. -/
theorem mem_activeRates (phase_spec : Phases) (q : data.rt) :
    q ∈ activeRates phase_spec ↔ phase_spec.active (phaseOf q) = true := by
  unfold activeRates
  cases q <;> cases hw : phase_spec.active Phase.WATER <;>
    cases ho : phase_spec.active Phase.OIL <;>
    cases hg : phase_spec.active Phase.GAS <;> simp [phaseOf, hw, ho, hg]

/-- The options set after `setRates`: those of `phases` and those set before. -/
theorem setRates_has (r : data.Rates D) (phases : List data.rt) (xs : List D)
    (h : phases.length ≤ xs.length) (q : data.rt) :
    (setRates r phases xs).has q = true ↔ (q ∈ phases ∨ r.has q = true) := by
  induction phases generalizing r xs with
  | nil => cases xs <;> simp [setRates]
  | cons p ps ih =>
    cases xs with
    | nil => simp at h
    | cons x xs =>
      simp only [setRates]
      rw [ih (r.set p x) xs (by simpa using h)]
      simp only [data.Rates.has, rates_value_set, List.mem_cons]
      by_cases hq : q = p
      · simp [hq]
      · simp [hq]

/-- The value-initialised rates have no option set. -/
theorem empty_rates_has (q : data.rt) : (({} : data.Rates D)).has q = false := by
  cases q <;> rfl

variable [Zero D]

/-- Every connection read from a segment that is long enough has a rate for
exactly the options of `phases`. -/
theorem segmentConnections_rates (phases : List data.rt) (grid : EclipseGrid)
    (scs : List Connection) (seg : List D)
    (h : scs.length * (phases.length + 2) ≤ seg.length) :
    ∀ c ∈ segmentConnections phases grid scs seg, ∀ q,
      c.rates.has q = true ↔ q ∈ phases := by
  induction scs generalizing seg with
  | nil => intro c hc; simp [segmentConnections] at hc
  | cons sc scs ih =>
    rw [List.length_cons, Nat.succ_mul] at h
    have hrest : scs.length * (phases.length + 2)
        ≤ (seg.drop (phases.length + 2)).length := by
      rw [List.length_drop]; omega
    intro c hc
    unfold segmentConnections at hc
    split at hc
    · exact ih _ hrest c hc
    · rcases List.mem_cons.mp hc with rfl | hc
      · intro q
        simp only [segmentConnection]
        rw [setRates_has _ _ _ (by rw [List.length_drop]; omega), empty_rates_has]
        simp
      · exact ih _ hrest c hc

/-- The well read from a segment that is long enough has a rate for exactly
the options of `phases`, and so has each of its connections. -/
theorem segmentWell_rates (phases : List data.rt) (grid : EclipseGrid)
    (scs : List Connection) (control : Int) (seg : List D)
    (h : 2 + phases.length + scs.length * (phases.length + 2) ≤ seg.length) :
    (∀ q, (segmentWell phases grid scs control seg).rates.has q = true ↔ q ∈ phases)
      ∧ ∀ c ∈ (segmentWell phases grid scs control seg).connections, ∀ q,
          c.rates.has q = true ↔ q ∈ phases := by
  constructor
  · intro q
    simp only [segmentWell]
    rw [setRates_has _ _ _ (by rw [List.length_drop]; omega), empty_rates_has]
    simp
  · exact segmentConnections_rates phases grid scs _ (by rw [List.length_drop]; omega)

/-- A name that occurs once in the scheduled list is not the name of a well
before or after its occurrence. -/
theorem nodup_names_split (pre post : List Well) (w : Well)
    (h : ((pre ++ w :: post).map (·.name)).Nodup) :
    (∀ v ∈ pre, v.name ≠ w.name) ∧ (∀ v ∈ post, v.name ≠ w.name) := by
  rw [List.map_append, List.map_cons, List.nodup_middle, List.nodup_cons] at h
  obtain ⟨hnot, -⟩ := h
  rw [List.mem_append, not_or] at hnot
  exact ⟨fun v hv hvw => hnot.1 (hvw ▸ List.mem_map_of_mem _ hv),
    fun v hv hvw => hnot.2 (hvw ▸ List.mem_map_of_mem _ hv)⟩

end MirrorLemmas

/-! ## Theorems on the wells that `restore_wells` returns -/

section MirrorTheorems

variable {D : Type} [Zero D]

/-- C22 (deserialised wells mirror the schedule): for every input that passes
the two size checks, with scheduled well names that are all different,
`restore_wells` returns a map whose keys are exactly the names of the wells
scheduled at the step, whatever their status and whatever the content of
their segments; the rates of every well of the map, and of every connection of
every well of the map, have a value for exactly the rate options of the active
phases among water, oil and gas, and for no other option. -/
theorem restore_wells_mirrors_schedule (xwel : List D) (iwel : List Int) (sim_step : Nat)
    (es : EclipseState) (grid : EclipseGrid) (schedule : Schedule)
    (hx : xwel.length
      = expected_xwel_size (activeRates es.runspec.phases) sim_step (schedule.getWells sim_step))
    (hi : iwel.length = (schedule.getWells sim_step).length)
    (hname : ((schedule.getWells sim_step).map (·.name)).Nodup) :
    ∃ wells, restore_wells xwel iwel sim_step es grid schedule = .ok wells
      ∧ (∀ n, (wells n).isSome = true ↔ ∃ w ∈ schedule.getWells sim_step, w.name = n)
      ∧ (∀ n well, wells n = some well →
          (∀ q, well.rates.has q = true ↔ es.runspec.phases.active (phaseOf q) = true)
            ∧ ∀ c ∈ well.connections, ∀ q,
                c.rates.has q = true ↔ es.runspec.phases.active (phaseOf q) = true) := by
  obtain ⟨st, hrun, -, -, hout, hin, hat⟩ :=
    restore_wells_run_eq xwel iwel sim_step es grid schedule hx hi
  have hkeys : ∀ n, (st.wells n).isSome = true ↔ ∃ w ∈ schedule.getWells sim_step, w.name = n := by
    intro n
    constructor
    · intro hsome
      by_contra hno
      have hnone := hout n (fun v hv hvn => hno ⟨v, hv, hvn⟩)
      rw [hnone] at hsome
      exact absurd hsome (by simp)
    · rintro ⟨w, hw, rfl⟩
      exact hin w hw
  refine ⟨st.wells, by simp [restore_wells, hrun, Except.map], hkeys, ?_⟩
  intro n well hwell
  obtain ⟨w, hw, rfl⟩ := (hkeys n).mp (by rw [hwell]; rfl)
  obtain ⟨pre, post, hs⟩ := List.append_of_mem hw
  rw [hs] at hname
  obtain ⟨hpre, hpost⟩ := nodup_names_split pre post w hname
  have hseg := hat pre w post hs hpre hpost
  rw [hwell] at hseg
  have hlen : 2 + (activeRates es.runspec.phases).length
      + (w.getConnections sim_step).length * ((activeRates es.runspec.phases).length + 2)
      ≤ (xwel.drop (expected_xwel_size (activeRates es.runspec.phases) sim_step pre)).length := by
    rw [List.length_drop, hx, hs, expected_xwel_size_append, expected_xwel_size_cons]
    simp only [perWellExtensionWidth]
    omega
  obtain ⟨hr, hc⟩ := segmentWell_rates (activeRates es.runspec.phases) grid
    (w.getConnections sim_step) (iwel.getD pre.length 0) _ hlen
  rw [← Option.some.inj hseg] at hr hc
  exact ⟨fun q => (hr q).trans (mem_activeRates _ q),
    fun c hcm q => (hc c hcm q).trans (mem_activeRates _ q)⟩

/-- Witness of C22: the arrays of step 1 of the concrete case, in which the
segment of the SHUT well "OLD" is all zeros: the three scheduled names are
keys of the map, "GHOST" is not, and the rates of "OLD" have a value for water
and oil and none for gas. -/
theorem restore_wells_mirrors_schedule_witness :
    ∃ wells well,
      restore_wells
          ([100, 50, 10, 20, 30, 4, 1, 2, 0, 0, 0, 0, 0, 0, 0, 0, 31, 7, 5, 6,
            0, 0, 0, 0, 0, 0, 0, 0, 200, 60, -8, 0, 35, -9, -8, 0] : List Int)
          [1, 0, 2] 1 Example.es Example.grid Example.schedule = .ok wells
        ∧ (wells "PROD").isSome = true ∧ (wells "INJ").isSome = true
        ∧ (wells "GHOST").isSome = false
        ∧ wells "OLD" = some well
        ∧ well.rates.has data.rt.wat = true ∧ well.rates.has data.rt.oil = true
        ∧ well.rates.has data.rt.gas = false := by
  obtain ⟨wells, hrun, hkeys, hrates⟩ := restore_wells_mirrors_schedule
    ([100, 50, 10, 20, 30, 4, 1, 2, 0, 0, 0, 0, 0, 0, 0, 0, 31, 7, 5, 6,
      0, 0, 0, 0, 0, 0, 0, 0, 200, 60, -8, 0, 35, -9, -8, 0] : List Int)
    [1, 0, 2] 1 Example.es Example.grid Example.schedule rfl rfl (by decide)
  have hold : (wells "OLD").isSome = true :=
    (hkeys "OLD").mpr ⟨Example.shutIn, by simp [Example.schedule], rfl⟩
  obtain ⟨well, hwell⟩ := Option.isSome_iff_exists.mp hold
  have hghost : (wells "GHOST").isSome = false := by
    rw [Bool.eq_false_iff]
    intro h
    obtain ⟨w, hw, hn⟩ := (hkeys "GHOST").mp h
    simp [Example.schedule] at hw
    rcases hw with rfl | rfl | rfl <;> exact absurd hn (by decide)
  obtain ⟨hr, -⟩ := hrates "OLD" well hwell
  refine ⟨wells, well, hrun,
    (hkeys "PROD").mpr ⟨Example.producer, by simp [Example.schedule], rfl⟩,
    (hkeys "INJ").mpr ⟨Example.injector, by simp [Example.schedule], rfl⟩,
    hghost, hwell, (hr data.rt.wat).mpr rfl, (hr data.rt.oil).mpr rfl, ?_⟩
  rw [Bool.eq_false_iff]
  intro h
  exact absurd ((hr data.rt.gas).mp h) (by decide)

end MirrorTheorems

/-! ## The SHUT wells of the map, and the entries that are not scheduled -/

section ShutLemmas

variable {D : Type} [Zero D]

/-- The rates read from a run of zeros: zero for the options of `phases`. -/
theorem setRates_replicate_value (r : data.Rates D) (phases : List data.rt) (n : Nat)
    (t : List D) (h : phases.length ≤ n) (q : data.rt) :
    (setRates r phases (List.replicate n (0 : D) ++ t)).value q
      = if q ∈ phases then some 0 else r.value q := by
  induction phases generalizing r n with
  | nil => cases n <;> cases t <;> simp [setRates, List.replicate]
  | cons p ps ih =>
    cases n with
    | zero => simp at h
    | succ n =>
      show (setRates (r.set p 0) ps (List.replicate n (0 : D) ++ t)).value q = _
      rw [ih (r.set p 0) n (by simpa using h), rates_value_set]
      by_cases hq : q = p
      · simp [hq]
      · by_cases hm : q ∈ ps
        · simp [hm]
        · simp [hq, hm]

/-- An element of a run of zeros. -/
theorem getD_replicate_zero_append (n i : Nat) (t : List D) (h : i < n) :
    (List.replicate n (0 : D) ++ t).getD i 0 = 0 := by
  rw [List.getD_eq_getElem?_getD, List.getElem?_append_left (by simpa using h),
    List.getElem?_replicate]
  simp [h]

/-- The elements of one scheduled well depend on the map through the entry of
its name only. -/
theorem xwelWell_congr (wells1 wells2 : data.Wells D) (sim_step : Nat)
    (phases : List data.rt) (grid : EclipseGrid) (w : Well)
    (h : wells1 w.name = wells2 w.name) :
    xwelWell wells1 sim_step phases grid w = xwelWell wells2 sim_step phases grid w := by
  simp only [xwelWell, data.Wells.count, data.Wells.at_, h]

/-- The well loop depends on the map through the entries of the scheduled
names only. -/
theorem xwelLoop_congr (wells1 wells2 : data.Wells D) (sim_step : Nat)
    (phases : List data.rt) (grid : EclipseGrid) (ws : List Well) (xwel : List D)
    (h : ∀ w ∈ ws, wells1 w.name = wells2 w.name) :
    xwelLoop wells1 sim_step phases grid ws xwel
      = xwelLoop wells2 sim_step phases grid ws xwel := by
  induction ws generalizing xwel with
  | nil => rfl
  | cons w ws ih =>
    simp only [xwelLoop, xwelWell_congr wells1 wells2 sim_step phases grid w
      (h w (List.mem_cons_self _ _)), bind, Except.bind]
    cases xwelWell wells2 sim_step phases grid w with
    | error e => rfl
    | ok seg => exact ih _ (fun v hv => h v (List.mem_cons_of_mem _ hv))

end ShutLemmas

section ShutTheorems

variable {D : Type} [Zero D]

/-- C23 (shut-well asymmetry between the two extension arrays): for a scheduled
well that is SHUT at the step, that is in the wells map with control `c`, and
whose name no other scheduled well carries, `serialize_OPM_IWEL` has `c` at
the position of the well, while the slice of the well in every array that
`serialize_OPM_XWEL` returns is all zeros; and `restore_wells` applied to the
two serialised arrays returns for that name a well with control `c`, bhp 0,
temperature 0 and rate 0 for exactly the active phases; an array is returned
when the rates read are initialised. -/
theorem shut_well_asymmetry (wells : data.Wells D) (sim_step : Nat)
    (es : EclipseState) (grid : EclipseGrid) (schedule : Schedule)
    (pre post : List Well) (w : Well) (well : data.Well D)
    (hs : schedule.getWells sim_step = pre ++ w :: post)
    (hname : ∀ v ∈ pre ++ post, v.name ≠ w.name)
    (hwell : wells w.name = some well)
    (hst : w.getStatus sim_step = WellCommon.StatusEnum.SHUT) :
    (serialize_OPM_IWEL wells (schedule.getWells sim_step))[pre.length]? = some well.control
      ∧ (∀ xwel, serialize_OPM_XWEL wells sim_step (schedule.getWells sim_step)
            es.runspec.phases grid = .ok xwel →
          ((xwel.drop (pre.map
                (perWellExtensionWidth (activeRates es.runspec.phases) sim_step)).sum).take
              (perWellExtensionWidth (activeRates es.runspec.phases) sim_step w))
            = List.replicate
                (perWellExtensionWidth (activeRates es.runspec.phases) sim_step w) (0 : D)
          ∧ ∃ restored r,
              restore_wells xwel (serialize_OPM_IWEL wells (schedule.getWells sim_step))
                  sim_step es grid schedule = .ok restored
                ∧ restored w.name = some r
                ∧ r.control = well.control
                ∧ r.bhp = 0
                ∧ r.temperature = 0
                ∧ ∀ q, r.rates.value q
                    = if q ∈ activeRates es.runspec.phases then some (0 : D) else none)
      ∧ (RatesInitialized wells sim_step (activeRates es.runspec.phases)
            (schedule.getWells sim_step) →
          ∃ xwel, serialize_OPM_XWEL wells sim_step (schedule.getWells sim_step)
            es.runspec.phases grid = .ok xwel) := by
  have hctrl : (serialize_OPM_IWEL wells (schedule.getWells sim_step))[pre.length]?
      = some well.control := by
    rw [hs]
    unfold serialize_OPM_IWEL
    rw [List.map_append, List.map_cons, List.getElem?_append_right (by simp)]
    simp [getctrl, hwell]
  refine ⟨hctrl, fun xwel hser => ?_, serialize_OPM_XWEL_ok wells sim_step _ _ grid⟩
  have hx := xwelLoop_length _ _ _ _ _ _ hser
  have hi : (serialize_OPM_IWEL wells (schedule.getWells sim_step)).length
      = (schedule.getWells sim_step).length := by simp [serialize_OPM_IWEL]
  obtain ⟨st, hrun, -, -, -, -, hat⟩ :=
    restore_wells_run_eq xwel _ sim_step es grid schedule hx hi
  have hrestored := hat pre w post hs (fun v hv => hname v (List.mem_append_left _ hv))
    (fun v hv => hname v (List.mem_append_right _ hv))
  unfold serialize_OPM_XWEL at hser
  rw [hs] at hser
  obtain ⟨a, seg, b, _, hseg, _, rfl, hla, hlseg⟩ := xwelLoop_split _ _ _ _ _ _ _ _ hser
  rw [xwelWell_absent_or_shut wells sim_step _ grid w (Or.inr hst)] at hseg
  simp only [Except.ok.injEq] at hseg
  have hget : (serialize_OPM_IWEL wells (schedule.getWells sim_step)).getD pre.length 0
      = well.control := by
    rw [List.getD_eq_getElem?_getD, hctrl]; rfl
  rw [hget, ← hla, List.drop_left, ← hseg] at hrestored
  have hw2 : 2 ≤ perWellExtensionWidth (activeRates es.runspec.phases) sim_step w := by
    simp only [perWellExtensionWidth]; omega
  constructor
  · rw [← expected_xwel_size_eq_sum, ← hla, List.drop_left, ← hlseg, ← hseg]
    simp
  · refine ⟨st.wells, _, by simp [restore_wells, hrun, Except.map], hrestored, rfl, ?_, ?_, ?_⟩
    · exact getD_replicate_zero_append _ 0 _ (by omega)
    · exact getD_replicate_zero_append _ 1 _ (by omega)
    · intro q
      simp only [segmentWell]
      have hsplit : perWellExtensionWidth (activeRates es.runspec.phases) sim_step w
          = 2 + ((activeRates es.runspec.phases).length
              + (w.getConnections sim_step).length
                * ((activeRates es.runspec.phases).length + 2)) := by
        simp only [perWellExtensionWidth]; omega
      rw [hsplit, List.replicate_add, List.append_assoc, List.drop_left' (by simp),
        setRates_replicate_value _ _ _ _ (by omega)]
      cases q <;> rfl

/-- Witness of C23: at step 1 of the concrete case, with the SHUT well "OLD"
given an entry of control 7 and bhp 300 in the map: its control is written,
its slice is zeros, and it is read back with control 7 and bhp 0. -/
theorem shut_well_asymmetry_witness :
    (serialize_OPM_IWEL Example.wellsWithShut (Example.schedule.getWells 1))[1]? = some 7
      ∧ ∃ restored r,
          restore_wells
              ([100, 50, 10, 20, 30, 4, 1, 2, 0, 0, 0, 0, 0, 0, 0, 0, 31, 7, 5, 6,
                0, 0, 0, 0, 0, 0, 0, 0, 200, 60, -8, 0, 35, -9, -8, 0] : List Int)
              (serialize_OPM_IWEL Example.wellsWithShut (Example.schedule.getWells 1))
              1 Example.es Example.grid Example.schedule = .ok restored
            ∧ restored "OLD" = some r ∧ r.control = 7 ∧ r.bhp = 0 ∧ r.temperature = 0 := by
  have h := shut_well_asymmetry Example.wellsWithShut 1 Example.es Example.grid
    Example.schedule [Example.producer] [Example.injector] Example.shutIn
    Example.shutData rfl (by decide) rfl rfl
  obtain ⟨-, restored, r, hrun, hr, hc, hb, ht, -⟩ := h.2.1
    ([100, 50, 10, 20, 30, 4, 1, 2, 0, 0, 0, 0, 0, 0, 0, 0, 31, 7, 5, 6,
      0, 0, 0, 0, 0, 0, 0, 0, 200, 60, -8, 0, 35, -9, -8, 0] : List Int) rfl
  exact ⟨h.1, restored, r, hrun, hr, hc, hb, ht⟩

/-- C24 (serialisation ignores unscheduled data): for a fixed schedule step,
grid and phase set, two wells maps that have the same entry for the name of
every scheduled well, whatever their entries for other names, give the same
result of `serialize_OPM_XWEL` (the same array, or the same failure) and the
same array of `serialize_OPM_IWEL`. -/
theorem serialize_ignores_unscheduled (wells1 wells2 : data.Wells D) (sim_step : Nat)
    (sched_wells : List Well) (phase_spec : Phases) (grid : EclipseGrid)
    (h : ∀ w ∈ sched_wells, wells1 w.name = wells2 w.name) :
    serialize_OPM_XWEL wells1 sim_step sched_wells phase_spec grid
        = serialize_OPM_XWEL wells2 sim_step sched_wells phase_spec grid
      ∧ serialize_OPM_IWEL wells1 sched_wells = serialize_OPM_IWEL wells2 sched_wells := by
  constructor
  · exact xwelLoop_congr wells1 wells2 sim_step _ grid sched_wells [] h
  · unfold serialize_OPM_IWEL
    apply List.map_congr_left
    intro w hw
    simp only [getctrl, h w hw]

/-- Witness of C24: the wells map of the concrete case and the same map with
an entry for the unscheduled name "GHOST" are written as the same arrays of
28 values and 2 controls. -/
theorem serialize_ignores_unscheduled_witness :
    serialize_OPM_XWEL Example.wellsWithUnscheduled 0 (Example.schedule.getWells 0)
        Example.phases Example.grid
      = .ok [100, 50, 10, 20, 30, 4, 1, 2, 0, 0, 0, 0, 0, 0, 0, 0, 31, 7, 5, 6,
          200, 60, -8, 0, 35, -9, -8, 0]
      ∧ serialize_OPM_IWEL Example.wellsWithUnscheduled (Example.schedule.getWells 0)
        = [1, 2]
      ∧ Example.wellsWithUnscheduled "GHOST" ≠ Example.wells "GHOST" := by
  have h := serialize_ignores_unscheduled Example.wells Example.wellsWithUnscheduled 0
    (Example.schedule.getWells 0) Example.phases Example.grid
    (by
      intro w hw
      simp only [Example.schedule, if_true, List.mem_cons, List.mem_singleton,
        List.not_mem_nil, or_false] at hw
      rcases hw with rfl | rfl <;> rfl)
  refine ⟨h.1.symm.trans rfl, h.2.symm.trans rfl, by decide⟩

end ShutTheorems

/-! ## The reads of `restore_wells` -/

section ReadLogLemmas

variable {D : Type}

/-- A successful read is at an index below the length of the array. -/
theorem readAt_ok_lt {α : Type} (xs : List α) (i : Nat) (x : α) (h : readAt xs i = .ok x) :
    i < xs.length := by
  unfold readAt at h
  cases hx : xs[i]? with
  | none => simp [hx] at h
  | some y => exact (List.getElem?_eq_some_iff.mp hx).1

/-- Without its log, `restoreRatesLog` is `restoreRates`. -/
theorem restoreRatesLog_erase (xs : List D) (phases : List data.rt) (rates : data.Rates D)
    (cur : Nat) (log : List ArrayRead) :
    restoreRates xs phases rates cur
      = (restoreRatesLog xs phases rates cur log).map (fun t => (t.1, t.2.1)) := by
  induction phases generalizing rates cur log with
  | nil => rfl
  | cons p ps ih =>
    simp only [restoreRates, restoreRatesLog, bind, Except.bind]
    cases readAt xs cur with
    | error e => rfl
    | ok x => exact ih _ _ _

/-- The cursor and the reads of `restoreRatesLog`, when it returns. -/
theorem restoreRatesLog_reads (xs : List D) (iwel_length : Nat) (phases : List data.rt)
    (rates : data.Rates D) (cur : Nat) (log : List ArrayRead)
    (r : data.Rates D × Nat × List ArrayRead)
    (h : restoreRatesLog xs phases rates cur log = .ok r)
    (hlog : ∀ a ∈ log, a.inBounds xs.length iwel_length) :
    r.2.1 = cur + phases.length
      ∧ r.2.2 = log ++ xwelReads cur phases.length
      ∧ ∀ a ∈ r.2.2, a.inBounds xs.length iwel_length := by
  induction phases generalizing rates cur log with
  | nil =>
    simp only [restoreRatesLog, Except.ok.injEq] at h
    subst h
    exact ⟨rfl, by simp [xwelReads], hlog⟩
  | cons p ps ih =>
    simp only [restoreRatesLog] at h
    cases hr : readAt xs cur with
    | error e => simp [hr, bind, Except.bind] at h
    | ok x =>
      simp only [hr, bind, Except.bind] at h
      have hlt := readAt_ok_lt xs cur x hr
      obtain ⟨h1, h2, h3⟩ := ih _ _ _ h (by
        intro a ha
        rcases List.mem_append.mp ha with ha | ha
        · exact hlog a ha
        · simp only [List.mem_singleton] at ha
          subst ha
          exact hlt)
      refine ⟨by rw [h1, List.length_cons]; omega, ?_, h3⟩
      rw [h2, List.length_cons, xwelReads, xwelReads, List.range'_succ]
      simp

/-- Without its log, `restoreConnectionsLog` is `restoreConnections`. -/
theorem restoreConnectionsLog_erase (xs : List D) (phases : List data.rt) (grid : EclipseGrid)
    (scs : List Connection) (acc : List (data.Connection D)) (cur : Nat)
    (log : List ArrayRead) :
    restoreConnections xs phases grid scs acc cur
      = (restoreConnectionsLog xs phases grid scs acc cur log).map (fun t => (t.1, t.2.1)) := by
  induction scs generalizing acc cur log with
  | nil => rfl
  | cons sc scs ih =>
    by_cases hdead : grid.cellActive sc.getI sc.getJ sc.getK = false
        ∨ sc.state = WellCompletion.StateEnum.SHUT
    · simp only [restoreConnections, restoreConnectionsLog, if_pos hdead]
      exact ih _ _ _
    · simp only [restoreConnections, restoreConnectionsLog, if_neg hdead, bind, Except.bind]
      cases readAt xs cur with
      | error e => rfl
      | ok x =>
        cases readAt xs (cur + 1) with
        | error e => rfl
        | ok y =>
          simp only []
          rw [restoreRatesLog_erase xs phases {} (cur + 2)
            (log ++ [ArrayRead.xwel cur, ArrayRead.xwel (cur + 1)])]
          cases restoreRatesLog xs phases {} (cur + 2)
              (log ++ [ArrayRead.xwel cur, ArrayRead.xwel (cur + 1)]) with
          | error e => rfl
          | ok t =>
            obtain ⟨rates, cur2, log2⟩ := t
            exact ih _ _ _

/-- The cursor and the reads of `restoreConnectionsLog`, when it returns: the
cursor advances by `|P| + 2` per scheduled connection. -/
theorem restoreConnectionsLog_reads (xs : List D) (iwel_length : Nat) (phases : List data.rt)
    (grid : EclipseGrid) (scs : List Connection) (acc : List (data.Connection D))
    (cur : Nat) (log : List ArrayRead) (base k : Nat)
    (r : List (data.Connection D) × Nat × List ArrayRead)
    (h : restoreConnectionsLog xs phases grid scs acc cur log = .ok r)
    (hcur : cur = base + k * (phases.length + 2))
    (hlog : ∀ a ∈ log, a.inBounds xs.length iwel_length) :
    r.2.1 = cur + scs.length * (phases.length + 2)
      ∧ r.2.2 = log ++ ((scs.enumFrom k).map (connectionReads phases grid base)).flatten
      ∧ ∀ a ∈ r.2.2, a.inBounds xs.length iwel_length := by
  induction scs generalizing acc cur log k with
  | nil =>
    simp only [restoreConnectionsLog, Except.ok.injEq] at h
    subst h
    exact ⟨by simp, by simp, hlog⟩
  | cons sc scs ih =>
    by_cases hdead : grid.cellActive sc.getI sc.getJ sc.getK = false
        ∨ sc.state = WellCompletion.StateEnum.SHUT
    · simp only [restoreConnectionsLog, if_pos hdead, data.Connection.restart_size] at h
      obtain ⟨h1, h2, h3⟩ := ih _ _ _ (k + 1) h (by rw [hcur]; ring) hlog
      refine ⟨by rw [h1, List.length_cons]; ring, ?_, h3⟩
      rw [h2, List.enumFrom_cons, List.map_cons, List.flatten_cons]
      simp only [connectionReads, (materialised_eq_false grid sc).mpr hdead,
        Bool.false_eq_true, if_false, List.nil_append]
    · simp only [restoreConnectionsLog, if_neg hdead] at h
      cases hp : readAt xs cur with
      | error e => simp [hp, bind, Except.bind] at h
      | ok x =>
        cases hq : readAt xs (cur + 1) with
        | error e => simp [hp, hq, bind, Except.bind] at h
        | ok y =>
          cases hr : restoreRatesLog xs phases {} (cur + 2)
              (log ++ [ArrayRead.xwel cur, ArrayRead.xwel (cur + 1)]) with
          | error e => simp [hp, hq, hr, bind, Except.bind] at h
          | ok t =>
            obtain ⟨rates, cur2, log2⟩ := t
            simp only [hp, hq, hr, bind, Except.bind] at h
            have hp' := readAt_ok_lt xs cur x hp
            have hq' := readAt_ok_lt xs (cur + 1) y hq
            obtain ⟨g1, g2, g3⟩ := restoreRatesLog_reads xs iwel_length phases _ _ _ _ hr (by
              intro a ha
              rcases List.mem_append.mp ha with ha | ha
              · exact hlog a ha
              · simp only [List.mem_cons, List.mem_singleton, List.not_mem_nil, or_false] at ha
                rcases ha with rfl | rfl
                · exact hp'
                · exact hq')
            dsimp only at g1 g2 g3
            obtain ⟨h1, h2, h3⟩ := ih _ _ _ (k + 1) h (by rw [g1, hcur]; ring) g3
            refine ⟨by rw [h1, g1, List.length_cons]; ring, ?_, h3⟩
            have hm : materialised grid sc = true := by
              cases hmm : materialised grid sc with
              | true => rfl
              | false => exact absurd ((materialised_eq_false grid sc).mp hmm) hdead
            rw [h2, g2, List.enumFrom_cons, List.map_cons, List.flatten_cons]
            simp only [connectionReads, hm, if_true, ← hcur, xwelReads]
            rw [show phases.length + 2 = (phases.length + 1) + 1 by omega, List.range'_succ,
              List.range'_succ]
            simp [List.append_assoc]

variable [Zero D]

/-- Without its log, `restoreLoopLog` is `restoreLoop`. -/
theorem restoreLoopLog_erase (xs : List D) (iwel : List Int) (sim_step : Nat)
    (phases : List data.rt) (grid : EclipseGrid) (ws : List Well) (st : RestoreState D)
    (log : List ArrayRead) :
    restoreLoop xs iwel sim_step phases grid ws st
      = (restoreLoopLog xs iwel sim_step phases grid ws st log).map (fun t => t.1) := by
  induction ws generalizing st log with
  | nil => rfl
  | cons w ws ih =>
    simp only [restoreLoop, restoreLoopLog, bind, Except.bind]
    cases readAt xs st.xwel_cursor with
    | error e => rfl
    | ok bhp =>
      cases readAt xs (st.xwel_cursor + 1) with
      | error e => rfl
      | ok temperature =>
        cases readAt iwel st.iwel_cursor with
        | error e => rfl
        | ok control =>
          simp only []
          rw [restoreRatesLog_erase xs phases _ (st.xwel_cursor + 2)
            (log ++ [ArrayRead.xwel st.xwel_cursor, ArrayRead.xwel (st.xwel_cursor + 1),
              ArrayRead.iwel st.iwel_cursor])]
          cases restoreRatesLog xs phases
              ((st.wells w.name).getD (data.Well.empty D)).rates (st.xwel_cursor + 2)
              (log ++ [ArrayRead.xwel st.xwel_cursor, ArrayRead.xwel (st.xwel_cursor + 1),
                ArrayRead.iwel st.iwel_cursor]) with
          | error e => rfl
          | ok t =>
            obtain ⟨rates, cur, log1⟩ := t
            simp only [Except.map]
            rw [restoreConnectionsLog_erase xs phases grid _ _ cur log1]
            cases restoreConnectionsLog xs phases grid (w.getConnections sim_step)
                ((st.wells w.name).getD (data.Well.empty D)).connections cur log1 with
            | error e => rfl
            | ok u =>
              obtain ⟨connections, cur2, log2⟩ := u
              exact ih _ _

/-- Without its log, `restore_wells_log` is `restore_wells_run`. -/
theorem restore_wells_log_erase (xwel : List D) (iwel : List Int) (sim_step : Nat)
    (es : EclipseState) (grid : EclipseGrid) (schedule : Schedule) :
    restore_wells_run xwel iwel sim_step es grid schedule
      = (restore_wells_log xwel iwel sim_step es grid schedule).map (fun t => t.1) := by
  simp only [restore_wells_run, restore_wells_log]
  split
  · rfl
  · split
    · rfl
    · exact restoreLoopLog_erase _ _ _ _ _ _ _ _

/-- The cursors and the reads of `restoreLoopLog`, when it returns from a
state reached after the wells `pre`. -/
theorem restoreLoopLog_reads (xs : List D) (iwel : List Int) (sim_step : Nat)
    (phases : List data.rt) (grid : EclipseGrid) (ws pre : List Well) (st : RestoreState D)
    (log : List ArrayRead) (r : RestoreState D × List ArrayRead)
    (h : restoreLoopLog xs iwel sim_step phases grid ws st log = .ok r)
    (hx : st.xwel_cursor = expected_xwel_size phases sim_step pre)
    (hi : st.iwel_cursor = pre.length)
    (hlog : ∀ a ∈ log, a.inBounds xs.length iwel.length) :
    r.2 = log ++ ((ws.enumFrom pre.length).map (fun iw =>
          wellReads phases grid sim_step
            (expected_xwel_size phases sim_step ((pre ++ ws).take iw.1)) iw.1 iw.2)).flatten
      ∧ ∀ a ∈ r.2, a.inBounds xs.length iwel.length := by
  induction ws generalizing st log pre with
  | nil =>
    simp only [restoreLoopLog, Except.ok.injEq] at h
    subst h
    exact ⟨by simp, hlog⟩
  | cons w ws ih =>
    simp only [restoreLoopLog] at h
    cases hb : readAt xs st.xwel_cursor with
    | error e => simp [hb, bind, Except.bind] at h
    | ok bhp =>
      cases ht : readAt xs (st.xwel_cursor + 1) with
      | error e => simp [hb, ht, bind, Except.bind] at h
      | ok temperature =>
        cases hc : readAt iwel st.iwel_cursor with
        | error e => simp [hb, ht, hc, bind, Except.bind] at h
        | ok control =>
          cases hr : restoreRatesLog xs phases
              ((st.wells w.name).getD (data.Well.empty D)).rates (st.xwel_cursor + 2)
              (log ++ [ArrayRead.xwel st.xwel_cursor, ArrayRead.xwel (st.xwel_cursor + 1),
                ArrayRead.iwel st.iwel_cursor]) with
          | error e => simp [hb, ht, hc, hr, bind, Except.bind] at h
          | ok t =>
            obtain ⟨rates, cur, log1⟩ := t
            cases hcs : restoreConnectionsLog xs phases grid (w.getConnections sim_step)
                ((st.wells w.name).getD (data.Well.empty D)).connections cur log1 with
            | error e => simp [hb, ht, hc, hr, hcs, bind, Except.bind] at h
            | ok u =>
              obtain ⟨connections, cur2, log2⟩ := u
              simp only [hb, ht, hc, hr, hcs, bind, Except.bind] at h
              have hb' := readAt_ok_lt xs _ _ hb
              have ht' := readAt_ok_lt xs _ _ ht
              have hc' := readAt_ok_lt iwel _ _ hc
              obtain ⟨g1, g2, g3⟩ := restoreRatesLog_reads xs iwel.length phases _ _ _ _ hr (by
                intro a ha
                rcases List.mem_append.mp ha with ha | ha
                · exact hlog a ha
                · simp only [List.mem_cons, List.mem_singleton, List.not_mem_nil,
                    or_false] at ha
                  rcases ha with rfl | rfl | rfl
                  · exact hb'
                  · exact ht'
                  · exact hc')
              dsimp only at g1 g2 g3
              obtain ⟨k1, k2, k3⟩ := restoreConnectionsLog_reads xs iwel.length phases grid
                _ _ _ _ cur 0 _ hcs (by simp) g3
              dsimp only at k1 k2 k3
              obtain ⟨h2, h3⟩ := ih (pre ++ [w]) _ _ h
                (by
                  dsimp only
                  rw [k1, g1, hx, expected_xwel_size_append, expected_xwel_size_cons,
                    expected_xwel_size_nil]
                  simp only [perWellExtensionWidth]
                  omega)
                (by dsimp only; rw [hi, List.length_append]; rfl) k3
              refine ⟨?_, h3⟩
              rw [h2, k2, g2, List.enumFrom_cons, List.map_cons, List.flatten_cons]
              simp only [List.length_append, List.length_singleton, List.append_assoc,
                List.singleton_append, List.take_left' rfl, wellReads, List.enum, g1, hx, hi,
                List.cons_append, List.nil_append]

end ReadLogLemmas

section ReadLogTheorems

variable {D : Type} [Zero D]

/-- C3 (cursor conservation): for every schedule step, grid, phase set and pair
of arrays that pass the two size checks of `restore_wells`, and any mix of
active, inactive and shut connections, `restore_wells` is its logged form
without the log, it runs to the end, and its reads are, in program order, for
each scheduled well in turn: bhp and temperature at the start of the segment
of the well, which is `expected_xwel_size` of the wells before it, the control
at the position of the well in `OPM_IWEL`, the `|P|` rates, and for the
scheduled connection number `c` the `|P| + 2` elements that start
`2 + |P| + c * (|P| + 2)` after the start of the well when the connection is
materialised, and nothing otherwise, so that each connection advances the
cursor by `|P| + 2` whether or not it is materialised.  Every read is at an
index strictly below the length of its array, the `OPM_XWEL` cursor ends at
`expected_xwel_size`, the length of `OPM_XWEL`, and the `OPM_IWEL` cursor at
the number of scheduled wells, the length of `OPM_IWEL`. -/
theorem restore_wells_cursor_conservation (xwel : List D) (iwel : List Int) (sim_step : Nat)
    (es : EclipseState) (grid : EclipseGrid) (schedule : Schedule)
    (hx : xwel.length
      = expected_xwel_size (activeRates es.runspec.phases) sim_step (schedule.getWells sim_step))
    (hi : iwel.length = (schedule.getWells sim_step).length) :
    restore_wells_run xwel iwel sim_step es grid schedule
        = (restore_wells_log xwel iwel sim_step es grid schedule).map (fun t => t.1)
      ∧ (∃ st, restore_wells_log xwel iwel sim_step es grid schedule
            = .ok (st, scheduleReads (activeRates es.runspec.phases) grid sim_step
                (schedule.getWells sim_step))
          ∧ restore_wells xwel iwel sim_step es grid schedule = .ok st.wells
          ∧ st.xwel_cursor
              = expected_xwel_size (activeRates es.runspec.phases) sim_step
                  (schedule.getWells sim_step)
          ∧ st.xwel_cursor = xwel.length
          ∧ st.iwel_cursor = (schedule.getWells sim_step).length
          ∧ st.iwel_cursor = iwel.length)
      ∧ (∀ a ∈ scheduleReads (activeRates es.runspec.phases) grid sim_step
            (schedule.getWells sim_step), a.inBounds xwel.length iwel.length) := by
  have herase := restore_wells_log_erase xwel iwel sim_step es grid schedule
  obtain ⟨st, hrun, hxc, hic, -⟩ := restore_wells_run_eq xwel iwel sim_step es grid schedule hx hi
  cases hlog : restore_wells_log xwel iwel sim_step es grid schedule with
  | error e => rw [hrun, hlog] at herase; cases herase
  | ok r =>
    obtain ⟨st', reads⟩ := r
    rw [hrun, hlog] at herase
    simp only [Except.map, Except.ok.injEq] at herase
    subst herase
    have hloop : restoreLoopLog xwel iwel sim_step (activeRates es.runspec.phases) grid
        (schedule.getWells sim_step)
        { wells := data.Wells.empty, xwel_cursor := 0, iwel_cursor := 0 } []
        = .ok (st, reads) := by
      rw [← hlog]
      simp only [restore_wells_log]
      rw [if_neg (by simpa using hx), if_neg (by simpa using hi)]
    obtain ⟨h2, h3⟩ := restoreLoopLog_reads xwel iwel sim_step _ grid _ [] _ _ _ hloop
      (by simp [expected_xwel_size_nil]) rfl (by simp)
    have hreads : reads = scheduleReads (activeRates es.runspec.phases) grid sim_step
        (schedule.getWells sim_step) := by
      have h2' : reads = _ := h2
      rw [h2']
      simp [scheduleReads, List.enum]
    subst hreads
    refine ⟨?_, ⟨st, rfl, by simp [restore_wells, hrun, Except.map], by omega, hxc,
      by omega, hic⟩, h3⟩
    rw [hrun]
    rfl

/-- Witness of C3: the 28 elements and 2 controls of the concrete case: the
22 reads skip the segments at 8 and 12 of the SHUT connection and of the
connection in an inactive cell, and the cursors end at 28 and 2. -/
theorem restore_wells_cursor_conservation_witness :
    ∃ st, restore_wells_log
          ([100, 50, 10, 20, 30, 4, 1, 2, 0, 0, 0, 0, 0, 0, 0, 0, 31, 7, 5, 6,
            200, 60, -8, 0, 35, -9, -8, 0] : List Int) [1, 2] 0
          Example.es Example.grid Example.schedule
        = .ok (st,
            [ ArrayRead.xwel 0, ArrayRead.xwel 1, ArrayRead.iwel 0, ArrayRead.xwel 2,
              ArrayRead.xwel 3, ArrayRead.xwel 4, ArrayRead.xwel 5, ArrayRead.xwel 6,
              ArrayRead.xwel 7, ArrayRead.xwel 16, ArrayRead.xwel 17, ArrayRead.xwel 18,
              ArrayRead.xwel 19, ArrayRead.xwel 20, ArrayRead.xwel 21, ArrayRead.iwel 1,
              ArrayRead.xwel 22, ArrayRead.xwel 23, ArrayRead.xwel 24, ArrayRead.xwel 25,
              ArrayRead.xwel 26, ArrayRead.xwel 27 ])
      ∧ st.xwel_cursor = 28 ∧ st.iwel_cursor = 2 := by
  obtain ⟨-, ⟨st, hlog, -, -, hxc, -, hic⟩, -⟩ := restore_wells_cursor_conservation
    ([100, 50, 10, 20, 30, 4, 1, 2, 0, 0, 0, 0, 0, 0, 0, 0, 31, 7, 5, 6,
      200, 60, -8, 0, 35, -9, -8, 0] : List Int) [1, 2] 0
    Example.es Example.grid Example.schedule rfl rfl
  exact ⟨st, hlog.trans rfl, hxc, hic⟩

end ReadLogTheorems

end Opm
